import Mathlib

/-! QuantumChoices admin panel: metrics aggregation, listings and navigation.

A shallow embedding of `admin/admin.js` (class `QuantumAdmin`), of `optimizeCSS`
in `scripts/build.js` and of `animateCounter` in `src/js/quantum-core.js`.

* A number of a JSON document is given by its exact value (`ℚ`).  The
  arithmetic of the average score, of the conversion rate and of the counter
  is that of binary64 doubles: `parseFloat`, `+`, `/` and `*` round the exact
  result to the nearest double, ties to even, with subnormals, overflow to
  `Infinity` and the non-finite results of JavaScript (`roundDouble`, `jsAdd`,
  `jsDiv`, `jsMul`).  Comparisons and the sign of the sort comparator are
  exact, and the sum of the `total_analyzed` counts is kept exact.  Signed
  zero is not modelled.
* A JavaScript object is its list of properties in creation order
  (`JSON.parse` creates them in document order); `Object.values` enumerates
  array-index keys first, in ascending numeric order, then the other keys in
  creation order.
* The document is the list of its elements in document order.  The markup
  written through `innerHTML` is kept as the list of rows with the values
  interpolated into each row template.
* Host functions whose result depends on the locale or on the binary
  representation of a number (`toLocaleString`, `Number::toString`) are
  parameters, collected in `Host`.
* The panel is a state (`Admin`) passed through its operations; the outcome
  of a network request is an input of the operation that awaits it.
* Where the identity of objects matters, the panel is a state with a heap
  (`Machine`): the product objects and the arrays of products are known by
  reference, `push` and `sort` update an array in place, and `[]` and
  `JSON.parse` create new objects.  The categories and the documents are held
  by value in `this.data`, since no other reference to them is ever stored.
* A regular-expression replacement is a scan of the text from the left; the
  timer of a counter is the sequence of its callback runs.
-/

namespace QuantumAdmin

/-! ## JavaScript values and built-ins -/

/-- A JavaScript number: a finite double, given by its exact value, or one of
the three non-finite values.  The sign of zero is not kept. -/
inductive JSNumber where
  | finite (q : ℚ)
  | posInf
  | negInf
  | nan
deriving DecidableEq

/-- The position of the leading binary digit of `n`, found in at most `fuel` halvings. -/
def log2Fuel : Nat → Nat → Nat
  | 0, _ => 0
  | fuel + 1, n => if n < 2 then 0 else log2Fuel fuel (n / 2) + 1

/-- The position of the leading binary digit of `n`. -/
def natLog2 (n : Nat) : Nat := log2Fuel n n

/-- The power `2 ^ e` as a rational. -/
def pow2 (e : ℤ) : ℚ :=
  if 0 ≤ e then ((2 ^ e.toNat : ℕ) : ℚ) else 1 / ((2 ^ (-e).toNat : ℕ) : ℚ)

/-- The binary exponent of a positive rational: `2 ^ e ≤ a < 2 ^ (e + 1)`. -/
def exponent (a : ℚ) : ℤ :=
  let d : ℤ := (natLog2 a.num.natAbs : ℤ) - (natLog2 a.den : ℤ)
  if pow2 d ≤ a then d else d - 1

/-- The integer nearest to `m`, the even one of the two when `m` is halfway. -/
def roundHalfEven (m : ℚ) : ℤ :=
  let f := Int.floor m
  let r := m - f
  if r < 1 / 2 then f
  else if 1 / 2 < r then f + 1
  else if f % 2 = 0 then f else f + 1

/-- The IEEE 754 binary64 value of a real result, rounded to nearest, ties to
even: 53 significant binary digits, the least exponent -1022 (below it the
spacing stays `2 ^ -1074`), and an infinity from `2 ^ 1024` on. -/
def roundDouble (q : ℚ) : JSNumber :=
  if q = 0 then .finite 0
  else
    let a := |q|
    let e := max (exponent a) (-1022)
    let ulp := pow2 (e - 52)
    let y := (roundHalfEven (a / ulp) : ℚ) * ulp
    if pow2 1024 ≤ y then (if 0 < q then .posInf else .negInf)
    else .finite (if 0 < q then y else -y)

/-- The number that `JSON.parse` yields for a numeric literal of the given value. -/
def parseNumber (q : ℚ) : JSNumber := roundDouble q

/-- The operator `x + y`. -/
def jsAdd : JSNumber → JSNumber → JSNumber
  | .finite a, .finite b => roundDouble (a + b)
  | .nan, _ => .nan
  | _, .nan => .nan
  | .posInf, .negInf => .nan
  | .negInf, .posInf => .nan
  | .posInf, _ => .posInf
  | _, .posInf => .posInf
  | .negInf, _ => .negInf
  | _, .negInf => .negInf

/-- The operator `x / y`. -/
def jsDiv : JSNumber → JSNumber → JSNumber
  | .finite a, .finite b =>
    if b ≠ 0 then roundDouble (a / b)
    else if 0 < a then .posInf
    else if a < 0 then .negInf
    else .nan
  | .nan, _ => .nan
  | _, .nan => .nan
  | .finite _, _ => .finite 0
  | .posInf, .finite b => if 0 ≤ b then .posInf else .negInf
  | .negInf, .finite b => if 0 ≤ b then .negInf else .posInf
  | _, _ => .nan

/-- The operator `x * y`. -/
def jsMul : JSNumber → JSNumber → JSNumber
  | .finite a, .finite b => roundDouble (a * b)
  | .nan, _ => .nan
  | _, .nan => .nan
  | .finite a, .posInf => if 0 < a then .posInf else if a < 0 then .negInf else .nan
  | .finite a, .negInf => if 0 < a then .negInf else if a < 0 then .posInf else .nan
  | .posInf, .finite b => if 0 < b then .posInf else if b < 0 then .negInf else .nan
  | .negInf, .finite b => if 0 < b then .negInf else if b < 0 then .posInf else .nan
  | .posInf, .posInf => .posInf
  | .negInf, .negInf => .posInf
  | _, _ => .negInf

/-- The operator `x >= y`. -/
def jsGe : JSNumber → JSNumber → Bool
  | .finite a, .finite b => decide (b ≤ a)
  | .nan, _ => false
  | _, .nan => false
  | .posInf, _ => true
  | _, .negInf => true
  | _, _ => false

/-- The function `Math.floor`. -/
def jsFloor : JSNumber → JSNumber
  | .finite a => .finite (Int.floor a)
  | x => x

/-- Host-dependent number formatting. -/
structure Host where
  toLocaleString : ℚ → String
  numberToString : ℚ → String

/-- The integer `n` for which `n / 10^f - x` is as close to zero as possible,
the larger one when there are two (`x` non-negative). -/
def nearestScaled (f : Nat) (x : ℚ) : Nat :=
  (Int.floor (x * (10 : ℚ) ^ f + 1 / 2)).toNat

/-- The digits of `n` split by a decimal point before the last `f` digits,
padded with leading zeros up to `f + 1` digits. -/
def fixedDigits (f n : Nat) : String :=
  let m := Nat.toDigits 10 n
  if f = 0 then String.mk m
  else
    let m := if m.length ≤ f then List.replicate (f + 1 - m.length) '0' ++ m else m
    let k := m.length
    String.mk (m.take (k - f) ++ '.' :: m.drop (k - f))

/-- `Number.prototype.toFixed(f)`. -/
def toFixed (host : Host) (f : Nat) (x : JSNumber) : String :=
  match x with
  | .nan => "NaN"
  | .posInf => "Infinity"
  | .negInf => "-Infinity"
  | .finite q =>
    let s := if q < 0 then "-" else ""
    let a := |q|
    if (10 : ℚ) ^ 21 ≤ a then s ++ host.numberToString a
    else s ++ fixedDigits f (nearestScaled f a)

/-- The expression `x || 0` for an optional number: `undefined` and `0` are falsy. -/
def orZero (x : Option ℚ) : ℚ :=
  match x with
  | none => 0
  | some v => if v = 0 then 0 else v

/-- Errors raised by the JavaScript runtime. -/
inductive JSError where
  | typeError (msg : String)
deriving DecidableEq

/-- Stable insertion of `a` into a list ordered by the comparator `cmp`:
`a` goes before the first `b` with `cmp a b ≤ 0`. -/
def sortInsert {α : Type} (cmp : α → α → ℚ) (a : α) : List α → List α
  | [] => [a]
  | b :: l => if cmp a b ≤ 0 then a :: b :: l else b :: sortInsert cmp a l

/-- `Array.prototype.sort(cmp)`: a stable sort by the comparator, where
`cmp a b < 0` puts `a` before `b`. -/
def arraySort {α : Type} (cmp : α → α → ℚ) : List α → List α
  | [] => []
  | a :: l => sortInsert cmp a (arraySort cmp l)

/-- The array index denoted by a property key, if the key is the canonical
decimal form of an integer below `2^32 - 1`. -/
def arrayIndex? (key : String) : Option Nat :=
  let cs := key.data
  let n := cs.foldl (fun n c => 10 * n + (c.toNat - 48)) 0
  if cs ≠ [] ∧ cs.all Char.isDigit ∧ (cs.head? ≠ some '0' ∨ cs.length = 1) ∧ n < 2 ^ 32 - 1
  then some n else none

/-- A JavaScript object: its properties in creation order. -/
abbrev JSObject (α : Type) := List (String × α)

/-- The properties whose key is an array index, with that index. -/
def indexProps {α : Type} (o : JSObject α) : List (Nat × α) :=
  o.filterMap (fun kv => (arrayIndex? kv.1).map (fun n => (n, kv.2)))

/-- The values of the properties whose key is not an array index. -/
def namedProps {α : Type} (o : JSObject α) : List α :=
  (o.filter (fun kv => (arrayIndex? kv.1).isNone)).map Prod.snd

/-- `Object.values(o)`: array-index keys ascending, then the others in
creation order. -/
def objectValues {α : Type} (o : JSObject α) : List α :=
  (arraySort (fun a b => (a.1 : ℚ) - (b.1 : ℚ)) (indexProps o)).map Prod.snd ++ namedProps o

/-- The expression `xs[i]`: `undefined` outside the array. -/
def index {α : Type} (xs : List α) (i : Int) : Option α :=
  if i < 0 then none else xs.get? i.toNat

/-- The property read `a.length`, which raises on `undefined`. -/
def propLength {α : Type} (a : Option (List α)) : Except JSError Int :=
  match a with
  | none => .error (.typeError "Cannot read properties of undefined (reading 'length')")
  | some xs => .ok xs.length

/-- The expression `a?.[a.length - 1]`: when `a` is `undefined` the chain
short-circuits and the index expression is not evaluated. -/
def optLast {α : Type} (a : Option (List α)) : Except JSError (Option α) :=
  match a with
  | none => .ok none
  | some xs => do
    let n ← propLength a
    pure (index xs (n - 1))

/-! ## Data model -/

/-- A product of a category's `top_products`. -/
structure Product where
  asin : String
  title : String
  price : ℚ
  rating : ℚ
  quantum_score : ℚ
deriving DecidableEq

/-- A category of the catalog; both fields may be absent. -/
structure Category where
  total_analyzed : Option ℚ
  top_products : Option (List Product)
deriving DecidableEq

/-- The catalog document `quantum_data.json`. -/
structure QuantumData where
  categories : JSObject Category
deriving DecidableEq

/-- An element of `revenue_data`. -/
structure RevenuePoint where
  month : String
  revenue : Option ℚ
deriving DecidableEq

/-- An element of `daily_stats`. -/
structure DailyStat where
  date : String
  affiliate_clicks : ℚ
  conversions : ℚ
deriving DecidableEq

/-- The analytics document `analytics_data.json`; both series may be absent. -/
structure AnalyticsData where
  revenue_data : Option (List RevenuePoint)
  daily_stats : Option (List DailyStat)
deriving DecidableEq

/-- The two documents of the in-memory data object `this.data` that the panel
reads (the health report is never read). -/
structure Data where
  quantumData : QuantumData
  analyticsData : AnalyticsData
deriving DecidableEq

/-! ## The document -/

/-- The values interpolated into one `product-row` of the listing markup. -/
structure ProductRow where
  title : String
  price : ℚ
  rating : ℚ
  scoreClass : String
  quantum_score : ℚ
  asin : String
deriving DecidableEq

/-- The content of an element: text written through `textContent`, or the
rows written through `innerHTML`. -/
inductive Content where
  | text (s : String)
  | rows (rs : List ProductRow)
deriving DecidableEq

/-- An element: its id (empty when it has none), class list, `style.display`,
`dataset.section` and content. -/
structure Element where
  id : String
  classList : List String
  display : String
  datasetSection : Option String
  content : Content
deriving DecidableEq

/-- The document: its elements in document order. -/
abbrev Dom := List Element

/-- Evaluates `document.getElementById(id)`: the first element with that id. -/
def getElementById (id : String) (dom : Dom) : Option Element :=
  dom.find? (fun e => e.id == id)

/-- Applies `f` to the first element with the given id. -/
def modifyById (id : String) (f : Element → Element) : Dom → Dom
  | [] => []
  | e :: es => if e.id == id then f e :: es else e :: modifyById id f es

/-- The document after a call, and the exception the call raised, if any. -/
structure Outcome where
  dom : Dom
  raised : Option JSError
deriving DecidableEq

/-! ## QuantumAdmin -/

/-- The method `getScoreClass(score)`. -/
def getScoreClass (score : ℚ) : String :=
  if score ≥ 9 then "score-excellent"
  else if score ≥ 7 then "score-good"
  else "score-fair"

/-- The accumulators of `updateMetrics`. -/
structure Totals where
  totalProducts : ℚ
  totalScore : JSNumber
  productCount : Nat
deriving DecidableEq

/-- One step of the inner `forEach` of `updateMetrics`. -/
def addProduct (t : Totals) (product : Product) : Totals :=
  { t with totalScore := jsAdd t.totalScore (parseNumber product.quantum_score)
           productCount := t.productCount + 1 }

/-- One step of the outer `forEach` of `updateMetrics`. -/
def addCategory (t : Totals) (category : Category) : Totals :=
  let t := { t with totalProducts := t.totalProducts + orZero category.total_analyzed }
  match category.top_products with
  | none => t
  | some products => products.foldl addProduct t

/-- The accumulators after the loop over `Object.values(quantumData.categories)`. -/
def totals (quantumData : QuantumData) : Totals :=
  (objectValues quantumData.categories).foldl addCategory ⟨0, .finite 0, 0⟩

/-- The text shown in `avg-quantum-score`. -/
def avgQuantumScore (host : Host) (quantumData : QuantumData) : String :=
  let t := totals quantumData
  toFixed host 1 (jsDiv t.totalScore (.finite t.productCount))

/-- The value of `monthlyRevenue`. -/
def monthlyRevenue (analyticsData : AnalyticsData) : Except JSError ℚ := do
  let last ← optLast analyticsData.revenue_data
  pure (orZero (last.bind (fun r => r.revenue)))

/-- The expression `(latestDay.conversions / latestDay.affiliate_clicks) * 100`. -/
def conversionPercent (latestDay : DailyStat) : JSNumber :=
  jsMul (jsDiv (parseNumber latestDay.conversions) (parseNumber latestDay.affiliate_clicks))
    (.finite 100)

/-- The value of `conversionRate`: a string from `toFixed`, or the number 0. -/
inductive ConversionRate where
  | fixed (s : String)
  | zero
deriving DecidableEq

/-- The value of `conversionRate`, from the last entry of `daily_stats`. -/
def conversionRate (host : Host) (analyticsData : AnalyticsData) : Except JSError ConversionRate := do
  let latestDay ← optLast analyticsData.daily_stats
  match latestDay with
  | some d => pure (.fixed (toFixed host 2 (conversionPercent d)))
  | none => pure .zero

/-- The template literal with `conversionRate` interpolated before `%`. -/
def ConversionRate.percent : ConversionRate → String
  | .fixed s => s ++ "%"
  | .zero => "0%"

/-- The method `updateMetric(id, value)`: writes `textContent` if the element exists. -/
def updateMetric (id value : String) (dom : Dom) : Dom :=
  match getElementById id dom with
  | some _ => modifyById id (fun e => { e with content := .text value }) dom
  | none => dom

/-- The array `allProducts` built by both listings. -/
def allProducts (quantumData : QuantumData) : List Product :=
  (objectValues quantumData.categories).foldl
    (fun acc category =>
      match category.top_products with
      | none => acc
      | some products => products.foldl (fun acc product => acc ++ [product]) acc)
    []

/-- The row template applied to one product. -/
def productRow (product : Product) : ProductRow :=
  { title := product.title, price := product.price, rating := product.rating,
    scoreClass := getScoreClass product.quantum_score,
    quantum_score := product.quantum_score, asin := product.asin }

/-- The products listed by `loadTopProducts`: sorted by descending score, first ten. -/
def topProducts (quantumData : QuantumData) : List Product :=
  (arraySort (fun a b => b.quantum_score - a.quantum_score) (allProducts quantumData)).take 10

/-- The method `loadTopProducts()`: returns early without the container or the
data, else writes the rows of `topProducts` into the container. -/
def loadTopProducts (data : Option Data) (dom : Dom) : Dom :=
  match getElementById "top-products-list" dom, data with
  | some _, some d =>
    modifyById "top-products-list"
      (fun e => { e with content := .rows ((topProducts d.quantumData).map productRow) }) dom
  | _, _ => dom

/-- The method `loadProductsTable()`: returns early without the container or
the data, else writes one row per element of `allProducts` into the container. -/
def loadProductsTable (data : Option Data) (dom : Dom) : Dom :=
  match getElementById "all-products-list" dom, data with
  | some _, some d =>
    modifyById "all-products-list"
      (fun e => { e with content := .rows ((allProducts d.quantumData).map productRow) }) dom
  | _, _ => dom

/-- The method `updateMetrics()`: the four metric writes in source order, then
`loadTopProducts`. -/
def updateMetrics (host : Host) (data : Option Data) (dom : Dom) : Outcome :=
  match data with
  | none => ⟨dom, none⟩
  | some d =>
    let t := totals d.quantumData
    let dom := updateMetric "total-products" (host.toLocaleString t.totalProducts) dom
    let dom := updateMetric "avg-quantum-score" (avgQuantumScore host d.quantumData) dom
    match monthlyRevenue d.analyticsData with
    | .error err => ⟨dom, some err⟩
    | .ok revenue =>
      let dom := updateMetric "monthly-revenue" ("€" ++ host.toLocaleString revenue) dom
      match conversionRate host d.analyticsData with
      | .error err => ⟨dom, some err⟩
      | .ok rate =>
        let dom := updateMetric "conversion-rate" rate.percent dom
        ⟨loadTopProducts data dom, none⟩

/-- The call `this.loadAnalytics()`: the class defines no such method, so the
call raises. -/
def loadAnalytics (dom : Dom) : Outcome :=
  ⟨dom, some (.typeError "this.loadAnalytics is not a function")⟩

/-- Sets `style.display` of every `.admin-section` element to `none`. -/
def hideSections (dom : Dom) : Dom :=
  dom.map (fun e => if "admin-section" ∈ e.classList then { e with display := "none" } else e)

/-- The method `showSection(sectionName)`: hides every section, then, if the
target element exists, shows it and loads the data of the section. -/
def showSection (data : Option Data) (sectionName : String) (dom : Dom) : Outcome :=
  let dom := hideSections dom
  match getElementById (sectionName ++ "-section") dom with
  | some _ =>
    let dom := modifyById (sectionName ++ "-section") (fun e => { e with display := "block" }) dom
    if sectionName = "products" then ⟨loadProductsTable data dom, none⟩
    else if sectionName = "analytics" then loadAnalytics dom
    else ⟨dom, none⟩
  | none => ⟨dom, none⟩

/-- Evaluates `classList.remove('active')`. -/
def removeActive (e : Element) : Element :=
  { e with classList := e.classList.filter (fun c => c != "active") }

/-- Evaluates `classList.add('active')`. -/
def addActive (e : Element) : Element :=
  if "active" ∈ e.classList then e else { e with classList := e.classList ++ ["active"] }

/-- Applies `f` to the element at position `i`. -/
def modifyAt (f : Element → Element) : Nat → Dom → Dom
  | _, [] => []
  | 0, e :: es => f e :: es
  | i + 1, e :: es => e :: modifyAt f i es

/-- The click handler that `setupNavigation` installs on the `.admin-nav-item`
element at position `i` of the document; `dataset.section` is converted to a
string by the template literal (`undefined` when the attribute is missing). -/
def navClick (data : Option Data) (i : Nat) (dom : Dom) : Outcome :=
  match dom.get? i with
  | none => ⟨dom, none⟩
  | some item =>
    if "admin-nav-item" ∈ item.classList then
      let out := showSection data (item.datasetSection.getD "undefined") dom
      match out.raised with
      | some err => ⟨out.dom, some err⟩
      | none =>
        let dom := out.dom.map (fun e => if "admin-nav-item" ∈ e.classList then removeActive e else e)
        ⟨modifyAt addActive i dom, none⟩
    else ⟨dom, none⟩

/-! ## Auxiliary definitions used in the statements -/

/-- The products of a category, none when `top_products` is absent. -/
def Category.products (c : Category) : List Product := c.top_products.getD []

/-- The content of the element that `getElementById` finds for an id. -/
def contentOf (id : String) (dom : Dom) : Option Content :=
  (getElementById id dom).map (fun e => e.content)

/-- A product with the given score; the other fields are empty. -/
def productWithScore (score : ℚ) : Product :=
  { asin := "", title := "", price := 0, rating := 0, quantum_score := score }

/-- The catalog with category A (scores 9, 7, 5) and category B (scores 8, 6). -/
def catalogAB : QuantumData :=
  ⟨[("A", ⟨some 3, some [productWithScore 9, productWithScore 7, productWithScore 5]⟩),
    ("B", ⟨some 2, some [productWithScore 8, productWithScore 6]⟩)]⟩

/-- A host that formats every number as the empty string. -/
def blankHost : Host := ⟨fun _ => "", fun _ => ""⟩

/-- A day with 50 affiliate clicks and 5 conversions. -/
def dayFifty : DailyStat := ⟨"2024-01-02", 50, 5⟩

/-- A loaded data object: the catalog `catalogAB`, no revenue series, two days
of statistics ending with `dayFifty`. -/
def dataAB : Data := ⟨catalogAB, ⟨none, some ([⟨"2024-01-01", 0, 0⟩] ++ [dayFifty])⟩⟩

/-- A catalog of 15 products in three categories; the category named `7` is
enumerated first although it comes last in the document. -/
def catalogFifteen : QuantumData :=
  ⟨[("audio", ⟨some 40, some [⟨"A1", "a1", 10, 4, 6⟩, ⟨"A2", "a2", 10, 4, 9⟩, ⟨"A3", "a3", 10, 4, 7⟩,
        ⟨"A4", "a4", 10, 4, 3⟩, ⟨"A5", "a5", 10, 4, 7⟩]⟩),
    ("video", ⟨some 30, some [⟨"V1", "v1", 20, 5, 8⟩, ⟨"V2", "v2", 20, 5, 7⟩, ⟨"V3", "v3", 20, 5, 2⟩,
        ⟨"V4", "v4", 20, 5, 19 / 2⟩, ⟨"V5", "v5", 20, 5, 1⟩]⟩),
    ("7", ⟨none, some [⟨"S1", "s1", 30, 3, 7⟩, ⟨"S2", "s2", 30, 3, 4⟩, ⟨"S3", "s3", 30, 3, 5⟩,
        ⟨"S4", "s4", 30, 3, 7⟩, ⟨"S5", "s5", 30, 3, 10⟩]⟩)]⟩

/-- A catalog of 12 products, eight with score 9 and four with score 7
(`T1` to `T4` in catalog order), so that the tie at 7 straddles the tenth row. -/
def catalogTies : QuantumData :=
  ⟨[("lamps", ⟨some 12, some [⟨"T1", "t1", 5, 4, 7⟩, ⟨"N1", "n1", 5, 4, 9⟩, ⟨"N2", "n2", 5, 4, 9⟩,
        ⟨"N3", "n3", 5, 4, 9⟩, ⟨"N4", "n4", 5, 4, 9⟩, ⟨"T2", "t2", 5, 4, 7⟩]⟩),
    ("desks", ⟨some 12, some [⟨"N5", "n5", 5, 4, 9⟩, ⟨"N6", "n6", 5, 4, 9⟩, ⟨"N7", "n7", 5, 4, 9⟩,
        ⟨"N8", "n8", 5, 4, 9⟩, ⟨"T3", "t3", 5, 4, 7⟩, ⟨"T4", "t4", 5, 4, 7⟩]⟩)]⟩

/-- A catalog whose document lists category `b` before category `1`. -/
def catalogIndexed : QuantumData :=
  ⟨[("b", ⟨some 1, some [⟨"PB", "in b", 5, 4, 8⟩]⟩),
    ("1", ⟨some 1, some [⟨"P1", "in 1", 5, 4, 6⟩]⟩)]⟩

/-- An element with the given id, classes, display and `data-section`. -/
def element (id : String) (classList : List String) (display : String)
    (datasetSection : Option String) : Element :=
  { id := id, classList := classList, display := display, datasetSection := datasetSection,
    content := .text "" }

/-- A page of the admin panel: three navigation entries, the first one active,
three sections, the first one shown, the four metrics and the two listings. -/
def domPanel : Dom :=
  [element "" ["admin-nav-item", "active"] "" (some "dashboard"),
   element "" ["admin-nav-item"] "" (some "products"),
   element "" ["admin-nav-item"] "" (some "analytics"),
   element "dashboard-section" ["admin-section"] "block" none,
   element "products-section" ["admin-section"] "none" none,
   element "analytics-section" ["admin-section"] "none" none,
   element "total-products" ["metric-value"] "" none,
   element "avg-quantum-score" ["metric-value"] "" none,
   element "monthly-revenue" ["metric-value"] "" none,
   element "conversion-rate" ["metric-value"] "" none,
   element "top-products-list" [] "" none,
   element "all-products-list" [] "" none]

/-- The ids of the `.admin-section` elements whose `style.display` is not `none`. -/
def visibleSectionIds (dom : Dom) : List String :=
  (dom.filter (fun e => decide ("admin-section" ∈ e.classList) && (e.display != "none"))).map
    (fun e => e.id)

/-- The positions, counted from `k`, of the `.admin-nav-item` elements that
carry the class `active`. -/
def activeNavItemsFrom (k : Nat) : Dom → List Nat
  | [] => []
  | e :: es =>
    if "admin-nav-item" ∈ e.classList ∧ "active" ∈ e.classList then
      k :: activeNavItemsFrom (k + 1) es
    else activeNavItemsFrom (k + 1) es

/-- The positions in the document of the `.admin-nav-item` elements that carry
the class `active`. -/
def activeNavItems (dom : Dom) : List Nat := activeNavItemsFrom 0 dom

/-- A catalog with category A (score 9) and category B (scores 6, 3): the
pooled average is 6, the average of the category averages is 6.75. -/
def catalogUneven : QuantumData :=
  ⟨[("A", ⟨some 1, some [productWithScore 9]⟩),
    ("B", ⟨some 2, some [productWithScore 6, productWithScore 3]⟩)]⟩

/-- Whether the first element with the given id exists and is an `.admin-section`. -/
def hasSection (id : String) (dom : Dom) : Bool :=
  match getElementById id dom with
  | some e => decide ("admin-section" ∈ e.classList)
  | none => false

/-! ## Loading and the state of the panel -/

/-- The health report document `health_report.json`; the panel reads no field of it. -/
structure HealthData where
  raw : String
deriving DecidableEq

/-- The object `{ quantumData, analyticsData, healthData }` assigned to `this.data`. -/
structure DataObject extends Data where
  healthData : HealthData
deriving DecidableEq

/-- The outcome of the three `fetch(...).then(r => r.json())` promises: each one
resolves with a document or rejects. -/
structure Fetched where
  quantumData : Except JSError QuantumData
  analyticsData : Except JSError AnalyticsData
  healthData : Except JSError HealthData

/-- The awaited `Promise.all([...])`: the three documents, or a rejection as
soon as one promise rejects. -/
def promiseAll (fetched : Fetched) : Except JSError DataObject := do
  let quantumData ← fetched.quantumData
  let analyticsData ← fetched.analyticsData
  let healthData ← fetched.healthData
  pure { quantumData := quantumData, analyticsData := analyticsData, healthData := healthData }

/-- The state of the panel: `this.data`, the document, the console, the alerts
shown and the downloads started. -/
structure Admin where
  data : Option DataObject
  dom : Dom
  console : List String
  alerts : List String
  downloads : List (Option DataObject)

/-- The state after `constructor()` has set `this.data = null`. -/
def Admin.initial (dom : Dom) : Admin :=
  { data := none, dom := dom, console := [], alerts := [], downloads := [] }

/-- The method `loadData()`: assigns `this.data` when all three documents
arrive; a rejection is caught and logged, and nothing is assigned. -/
def loadData (fetched : Fetched) (s : Admin) : Admin :=
  match promiseAll fetched with
  | .ok d => { s with data := some d }
  | .error _ => { s with console := s.console ++ ["Failed to load data:"] }

/-- The part of `this.data` that the rendering methods read. -/
def Admin.panelData (s : Admin) : Option Data := s.data.map (fun d => d.toData)

/-- The method `runAnalysis()`: `post` is the outcome of the request to
`/api/run-analysis`, a rejection or the `ok` flag of the response. -/
def runAnalysis (host : Host) (post : Except JSError Bool) (fetched : Fetched) (s : Admin) : Admin :=
  let s := { s with alerts := s.alerts ++ ["Running AI analysis... This may take a few minutes."] }
  match post with
  | .error _ => { s with alerts := s.alerts ++ ["Analysis failed. Please try again."] }
  | .ok false => s
  | .ok true =>
    let s := { s with alerts := s.alerts ++ ["Analysis completed successfully!"] }
    let s := loadData fetched s
    let out := updateMetrics host s.panelData s.dom
    match out.raised with
    | some _ => { s with dom := out.dom, alerts := s.alerts ++ ["Analysis failed. Please try again."] }
    | none => { s with dom := out.dom }

/-- The method `exportData()`: starts a download of `JSON.stringify(this.data)`. -/
def exportData (s : Admin) : Admin :=
  { s with downloads := s.downloads ++ [s.data] }

/-- The operations of the panel that run once `init` has loaded the data. -/
inductive Operation where
  | updateMetrics
  | loadTopProducts
  | loadProductsTable
  | showSection (sectionName : String)
  | navClick (position : Nat)
  | runAnalysis (post : Except JSError Bool) (fetched : Fetched)
  | exportData

/-- The state after one operation. -/
def perform (host : Host) (op : Operation) (s : Admin) : Admin :=
  match op with
  | .updateMetrics => { s with dom := (updateMetrics host s.panelData s.dom).dom }
  | .loadTopProducts => { s with dom := loadTopProducts s.panelData s.dom }
  | .loadProductsTable => { s with dom := loadProductsTable s.panelData s.dom }
  | .showSection sectionName => { s with dom := (showSection s.panelData sectionName s.dom).dom }
  | .navClick position => { s with dom := (navClick s.panelData position s.dom).dom }
  | .runAnalysis post fetched => runAnalysis host post fetched s
  | .exportData => exportData s

/-- The method `init()` run by the constructor: the load, then
`setupNavigation()`, which installs the click handlers `navClick`, then the
call `this.setupDashboard()`, which raises because the class defines no such
method, so that the statements after it are not reached. -/
def init (fetched : Fetched) (dom : Dom) : Admin × Option JSError :=
  (loadData fetched (Admin.initial dom),
    some (.typeError "this.setupDashboard is not a function"))

/-! ## The build script: `optimizeCSS` -/

/-- The class `\s` of a JavaScript regular expression, also the characters
removed by `trim()`. -/
def isJSSpace (c : Char) : Bool :=
  let n := c.toNat
  (9 ≤ n && n ≤ 13) || n == 32 || n == 160 || n == 5760 || (8192 ≤ n && n ≤ 8202)
    || n == 8232 || n == 8233 || n == 8239 || n == 8287 || n == 12288 || n == 65279

/-- Whether `*/` occurs in the text. -/
def hasClose : List Char → Bool
  | [] => false
  | c :: rest =>
    match c, rest with
    | '*', '/' :: _ => true
    | _, _ => hasClose rest

/-- The replacement of `/\/\*[\s\S]*?\*\//g` by the empty string, scanning from
the left.  Outside a match, `/*` starts a match when a `*/` follows it, and the
match ends at the first such `*/`; the scan resumes after the match.  When no
`*/` follows, there is no match at the `/` nor at the `*` after it, and the
scan resumes after the `*`.  The flag `inside` tells whether the scan is inside
a match. -/
def removeCommentsFrom : Bool → List Char → List Char
  | _, [] => []
  | false, [c] => [c]
  | false, c :: d :: r =>
    if c = '/' ∧ d = '*' then
      if hasClose r then removeCommentsFrom true r else c :: d :: removeCommentsFrom false r
    else c :: removeCommentsFrom false (d :: r)
  | true, [_] => []
  | true, c :: d :: r =>
    if c = '*' ∧ d = '/' then removeCommentsFrom false r else removeCommentsFrom true (d :: r)

/-- The replacement of `/\s+/g` by one space; `afterSpace` tells whether the
previous character belongs to the run being replaced. -/
def collapseWhitespaceFrom : Bool → List Char → List Char
  | _, [] => []
  | afterSpace, c :: rest =>
    if isJSSpace c then
      if afterSpace then collapseWhitespaceFrom true rest
      else ' ' :: collapseWhitespaceFrom true rest
    else c :: collapseWhitespaceFrom false rest

/-- The replacement of `/;\s*}/g` by `}`; `pending` holds a `;` and the
whitespace read after it, for which the match is still undecided. -/
def removeLastSemicolonFrom : List Char → List Char → List Char
  | pending, [] => pending
  | pending, c :: rest =>
    if pending = [] then
      if c = ';' then removeLastSemicolonFrom [c] rest
      else c :: removeLastSemicolonFrom [] rest
    else if isJSSpace c then removeLastSemicolonFrom (pending ++ [c]) rest
    else if c = '}' then c :: removeLastSemicolonFrom [] rest
    else if c = ';' then pending ++ removeLastSemicolonFrom [c] rest
    else pending ++ c :: removeLastSemicolonFrom [] rest

/-- The method `trim()`. -/
def trim (s : List Char) : List Char :=
  ((s.dropWhile isJSSpace).reverse.dropWhile isJSSpace).reverse

/-- The text `minified` that `optimizeCSS` computes from `cssContent` and
writes to the output file. -/
def optimizeCSS (cssContent : String) : String :=
  String.mk (trim (removeLastSemicolonFrom []
    (collapseWhitespaceFrom false (removeCommentsFrom false cssContent.data))))

/-- Whether the text contains `/*` followed later by `*/`. -/
def hasComment : List Char → Bool
  | [] => false
  | c :: rest =>
    (match c, rest with
      | '/', '*' :: r => hasClose r
      | _, _ => false) || hasComment rest

/-! ## The page script: `animateCounter` -/

/-- The state of one counter: the variable `current`, whether `clearInterval`
has been called, and the numbers written to the element, oldest first (each is
the argument of `toLocaleString`). -/
structure Counter where
  current : JSNumber
  cleared : Bool
  shown : List JSNumber
deriving DecidableEq

/-- The state when `animateCounter` returns: `current = 0`, the timer running. -/
def Counter.start : Counter := { current := .finite 0, cleared := false, shown := [] }

/-- One run of the timer callback of `animateCounter(element, target)`, in the
double arithmetic of the program; a cleared timer does not call it any more. -/
def animateCounterTick (target : JSNumber) (s : Counter) : Counter :=
  if s.cleared then s
  else
    let increment := jsDiv target (.finite 100)
    let current := jsAdd s.current increment
    if jsGe current target then
      { current := target, cleared := true, shown := s.shown ++ [jsFloor target] }
    else
      { current := current, cleared := false, shown := s.shown ++ [jsFloor current] }

/-- The state after `n` periods of the timer. -/
def animateCounter (target : JSNumber) : Nat → Counter
  | 0 => Counter.start
  | n + 1 => animateCounterTick target (animateCounter target n)

/-- The health report loaded with `dataAB`. -/
def healthOk : HealthData := ⟨"all systems operational"⟩

/-- A loaded data object: `dataAB` with the health report `healthOk`. -/
def dataObjectAB : DataObject := { toData := dataAB, healthData := healthOk }

/-- A panel on `domPanel` whose data object `dataObjectAB` has been loaded. -/
def adminLoaded : Admin :=
  { data := some dataObjectAB, dom := domPanel, console := [], alerts := [], downloads := [] }

/-- A reload in which the catalog and the health report arrive and the
analytics document fails to parse. -/
def fetchedAnalyticsFails : Fetched :=
  { quantumData := .ok catalogFifteen,
    analyticsData := .error (.typeError "Unexpected token < in JSON at position 0"),
    healthData := .ok healthOk }

/-- A reload in which all three documents arrive, with a new catalog. -/
def fetchedFifteen : Fetched :=
  { quantumData := .ok catalogFifteen,
    analyticsData := .ok dataAB.analyticsData,
    healthData := .ok healthOk }

/-- Writes the content of the first element with the given id. -/
def setContent (id : String) (c : Content) (dom : Dom) : Dom :=
  modifyById id (fun e => { e with content := c }) dom

/-- A sequence of content writes, first to last. -/
def writeAll : List (String × Content) → Dom → Dom
  | [], dom => dom
  | w :: ws, dom => writeAll ws (setContent w.1 w.2 dom)

/-- The element after one write, which changes it if it addresses its id. -/
def writeStep (e : Element) (w : String × Content) : Element :=
  if e.id == w.1 then { e with content := w.2 } else e

/-- The element after the writes of the sequence that address its id. -/
def lastWrite (ws : List (String × Content)) (e : Element) : Element :=
  ws.foldl writeStep e

/-- The value of `totalScore` after the products of the list have been added,
in order, to 0. -/
def scoreSum (products : List Product) : JSNumber :=
  (products.map (fun p => parseNumber p.quantum_score)).foldl jsAdd (.finite 0)

/-- A catalog with one category, of two products with the scores 8.2 and 8.5. -/
def catalogNear : QuantumData :=
  ⟨[("A", ⟨some 2, some [productWithScore (41 / 5), productWithScore (17 / 2)]⟩)]⟩

/-- A day with 160 affiliate clicks and 23 conversions. -/
def dayOneSixty : DailyStat := ⟨"2024-01-03", 160, 23⟩

/-- Whether a number shown by a counter is an integer at most `n`. -/
def shownAtMost (n : ℕ) (x : JSNumber) : Prop :=
  ∃ z : ℤ, x = .finite z ∧ z ≤ (n : ℤ)

/-- The products of the catalog in the order of the catalog document:
categories in document order, then position in `top_products`. -/
def documentOrder (quantumData : QuantumData) : List Product :=
  (quantumData.categories.map Prod.snd).flatMap Category.products

/-- The rows of an element's content, none when it holds text or is absent. -/
def rowsOf (content : Option Content) : List ProductRow :=
  match content with
  | some (.rows rs) => rs
  | _ => []

/-- The rows that `loadTopProducts` leaves in `top-products-list`. -/
def listedRows (data : Data) (dom : Dom) : List ProductRow :=
  rowsOf (contentOf "top-products-list" (loadTopProducts (some data) dom))

/-- A catalog whose document lists category `z`, with the product `TZ` of
score 7, before category `1`, with nine products of score 9 and the product
`T1` of score 7. -/
def catalogCut : QuantumData :=
  ⟨[("z", ⟨some 1, some [⟨"TZ", "tz", 5, 4, 7⟩]⟩),
    ("1", ⟨some 10, some [⟨"N1", "n1", 5, 4, 9⟩, ⟨"N2", "n2", 5, 4, 9⟩, ⟨"N3", "n3", 5, 4, 9⟩,
        ⟨"N4", "n4", 5, 4, 9⟩, ⟨"N5", "n5", 5, 4, 9⟩, ⟨"N6", "n6", 5, 4, 9⟩,
        ⟨"N7", "n7", 5, 4, 9⟩, ⟨"N8", "n8", 5, 4, 9⟩, ⟨"N9", "n9", 5, 4, 9⟩,
        ⟨"T1", "t1", 5, 4, 7⟩]⟩)]⟩

/-! ## The objects behind `this.data` -/

/-- The mutable objects of the panel: the product objects and the arrays of
products, each known by its reference, its position in the list. -/
structure Heap where
  products : List Product
  arrays : List (List Nat)
deriving DecidableEq

/-- A category object of the loaded catalog: `top_products` refers to an array. -/
structure CategoryObject where
  total_analyzed : Option ℚ
  top_products : Option Nat
deriving DecidableEq

/-- The object assigned to `this.data`, with the product lists of the catalog
as references into the heap.  The categories and the documents are held by
value: a change of one of them would be a change of this value. -/
structure DataRefs where
  categories : JSObject CategoryObject
  analyticsData : AnalyticsData
  healthData : HealthData
deriving DecidableEq

/-- The product object behind a reference. -/
def Heap.product (h : Heap) (r : Nat) : Product := h.products.getD r ⟨"", "", 0, 0, 0⟩

/-- The elements of the array behind a reference. -/
def Heap.array (h : Heap) (a : Nat) : List Nat := h.arrays.getD a []

/-- The expression `[]`: a new array, with its reference. -/
def Heap.newArray (h : Heap) : Heap × Nat :=
  ({ h with arrays := h.arrays ++ [[]] }, h.arrays.length)

/-- The call `array.push(product)`. -/
def Heap.push (h : Heap) (a p : Nat) : Heap :=
  { h with arrays := h.arrays.set a (h.array a ++ [p]) }

/-- The call `array.sort(cmp)`, which sorts the array in place. -/
def Heap.sort (h : Heap) (a : Nat) (cmp : Nat → Nat → ℚ) : Heap :=
  { h with arrays := h.arrays.set a (arraySort cmp (h.array a)) }

/-- The two loops that fill the array `allProducts` of a listing. -/
def Heap.collect (h : Heap) (categories : JSObject CategoryObject) (allProducts : Nat) : Heap :=
  (objectValues categories).foldl
    (fun h category =>
      match category.top_products with
      | none => h
      | some products => (h.array products).foldl (fun h product => h.push allProducts product) h)
    h

/-- The category that the heap holds for a category object. -/
def Heap.category (h : Heap) (c : CategoryObject) : Category :=
  { total_analyzed := c.total_analyzed,
    top_products := c.top_products.map (fun a => (h.array a).map h.product) }

/-- The documents that the heap holds for a data object. -/
def Heap.view (h : Heap) (d : DataRefs) : DataObject :=
  { quantumData := ⟨d.categories.map (fun kv => (kv.1, h.category kv.2))⟩,
    analyticsData := d.analyticsData,
    healthData := d.healthData }

/-- The product references of a category object. -/
def Heap.refs (h : Heap) (c : CategoryObject) : List Nat :=
  match c.top_products with
  | none => []
  | some a => h.array a

/-- The product references of a data object, in the order in which the loops
of a listing visit them. -/
def Heap.collectedRefs (h : Heap) (d : DataRefs) : List Nat :=
  (objectValues d.categories).flatMap h.refs

/-- Whether every reference of the data object exists in the heap. -/
def Heap.holds (h : Heap) (d : DataRefs) : Bool :=
  d.categories.all (fun kv =>
    match kv.2.top_products with
    | none => true
    | some a => decide (a < h.arrays.length)
        && (h.array a).all (fun p => decide (p < h.products.length)))

/-- The product list of a parsed category, as new objects and a new array. -/
def Heap.allocArray (h : Heap) (products : List Product) : Heap × Nat :=
  ({ products := h.products ++ products,
     arrays := h.arrays ++ [(List.range products.length).map (fun i => h.products.length + i)] },
    h.arrays.length)

/-- The categories of a parsed catalog, as new objects. -/
def Heap.allocCategories (h : Heap) : JSObject Category → Heap × JSObject CategoryObject
  | [] => (h, [])
  | kv :: rest =>
    match kv.2.top_products with
    | none =>
      let r := Heap.allocCategories h rest
      (r.1, (kv.1, { total_analyzed := kv.2.total_analyzed, top_products := none }) :: r.2)
    | some products =>
      let a := h.allocArray products
      let r := Heap.allocCategories a.1 rest
      (r.1, (kv.1, { total_analyzed := kv.2.total_analyzed, top_products := some a.2 }) :: r.2)

/-- The state of the panel with its objects: the heap, `this.data`, the
document, the console, the alerts shown and the downloads started. -/
structure Machine where
  heap : Heap
  data : Option DataRefs
  dom : Dom
  console : List String
  alerts : List String
  downloads : List (Option DataObject)

/-- The documents that the rendering methods read through `this.data`. -/
def Machine.panelData (s : Machine) : Option Data :=
  s.data.map (fun d => (s.heap.view d).toData)

/-- The state of the value-passing model that a machine state stands for. -/
def Machine.toAdmin (s : Machine) : Admin :=
  { data := s.data.map (fun d => s.heap.view d), dom := s.dom, console := s.console,
    alerts := s.alerts, downloads := s.downloads }

/-- The method `loadData()` on the heap: the parsed documents are new objects. -/
def Machine.loadData (fetched : Fetched) (s : Machine) : Machine :=
  match promiseAll fetched with
  | .ok d =>
    let r := s.heap.allocCategories d.quantumData.categories
    { s with heap := r.1,
             data := some { categories := r.2, analyticsData := d.analyticsData,
                            healthData := d.healthData } }
  | .error _ => { s with console := s.console ++ ["Failed to load data:"] }

/-- The method `loadTopProducts()` on the heap: a new array `allProducts` is
filled with the products of all categories, sorted in place by the comparator
on the scores of the product objects, and its first ten elements are rendered.
The arrays returned by `slice` and `map` are used once and are not kept. -/
def Machine.loadTopProducts (s : Machine) : Machine :=
  match getElementById "top-products-list" s.dom, s.data with
  | some _, some d =>
    let r := s.heap.newArray
    let h := r.1.collect d.categories r.2
    let h := h.sort r.2 (fun a b => (h.product b).quantum_score - (h.product a).quantum_score)
    { s with heap := h,
             dom := modifyById "top-products-list"
               (fun e =>
                 { e with content := .rows ((((h.array r.2).take 10).map h.product).map productRow) })
               s.dom }
  | _, _ => s

/-- The method `loadProductsTable()` on the heap. -/
def Machine.loadProductsTable (s : Machine) : Machine :=
  match getElementById "all-products-list" s.dom, s.data with
  | some _, some d =>
    let r := s.heap.newArray
    let h := r.1.collect d.categories r.2
    { s with heap := h,
             dom := modifyById "all-products-list"
               (fun e =>
                 { e with content := .rows (((h.array r.2).map h.product).map productRow) })
               s.dom }
  | _, _ => s

/-- The method `updateMetrics()` on the heap: the metrics are computed from
what `this.data` holds, then `loadTopProducts()` runs. -/
def Machine.updateMetrics (host : Host) (s : Machine) : Machine × Option JSError :=
  match s.panelData with
  | none => (s, none)
  | some d =>
    let t := totals d.quantumData
    let dom := updateMetric "total-products" (host.toLocaleString t.totalProducts) s.dom
    let dom := updateMetric "avg-quantum-score" (avgQuantumScore host d.quantumData) dom
    match monthlyRevenue d.analyticsData with
    | .error err => ({ s with dom := dom }, some err)
    | .ok revenue =>
      let dom := updateMetric "monthly-revenue" ("€" ++ host.toLocaleString revenue) dom
      match conversionRate host d.analyticsData with
      | .error err => ({ s with dom := dom }, some err)
      | .ok rate =>
        let dom := updateMetric "conversion-rate" rate.percent dom
        (loadTopProducts { s with dom := dom }, none)

/-- The method `showSection(sectionName)` on the heap. -/
def Machine.showSection (sectionName : String) (s : Machine) : Machine × Option JSError :=
  let dom := hideSections s.dom
  match getElementById (sectionName ++ "-section") dom with
  | some _ =>
    let dom := modifyById (sectionName ++ "-section") (fun e => { e with display := "block" }) dom
    if sectionName = "products" then (loadProductsTable { s with dom := dom }, none)
    else if sectionName = "analytics" then
      ({ s with dom := dom }, some (.typeError "this.loadAnalytics is not a function"))
    else ({ s with dom := dom }, none)
  | none => ({ s with dom := dom }, none)

/-- The click handler of the navigation entry at position `i`, on the heap. -/
def Machine.navClick (i : Nat) (s : Machine) : Machine × Option JSError :=
  match s.dom.get? i with
  | none => (s, none)
  | some item =>
    if "admin-nav-item" ∈ item.classList then
      let out := showSection (item.datasetSection.getD "undefined") s
      match out.2 with
      | some err => (out.1, some err)
      | none =>
        let dom := out.1.dom.map
          (fun e => if "admin-nav-item" ∈ e.classList then removeActive e else e)
        ({ out.1 with dom := modifyAt addActive i dom }, none)
    else (s, none)

/-- The method `runAnalysis()` on the heap. -/
def Machine.runAnalysis (host : Host) (post : Except JSError Bool) (fetched : Fetched) (s : Machine) :
    Machine :=
  let s := { s with alerts := s.alerts ++ ["Running AI analysis... This may take a few minutes."] }
  match post with
  | .error _ => { s with alerts := s.alerts ++ ["Analysis failed. Please try again."] }
  | .ok false => s
  | .ok true =>
    let s := { s with alerts := s.alerts ++ ["Analysis completed successfully!"] }
    let s := loadData fetched s
    let out := updateMetrics host s
    match out.2 with
    | some _ => { out.1 with alerts := out.1.alerts ++ ["Analysis failed. Please try again."] }
    | none => out.1

/-- The method `exportData()` on the heap: `JSON.stringify` reads the objects. -/
def Machine.exportData (s : Machine) : Machine :=
  { s with downloads := s.downloads ++ [s.data.map (fun d => s.heap.view d)] }

/-- The state after one operation. -/
def Machine.perform (host : Host) (op : Operation) (s : Machine) : Machine :=
  match op with
  | .updateMetrics => (updateMetrics host s).1
  | .loadTopProducts => loadTopProducts s
  | .loadProductsTable => loadProductsTable s
  | .showSection sectionName => (showSection sectionName s).1
  | .navClick position => (navClick position s).1
  | .runAnalysis post fetched => runAnalysis host post fetched s
  | .exportData => exportData s

/-- Whether the new heap still has every object of the old one, unchanged:
the old product objects and the old arrays are initial segments of the new. -/
def Heap.keeps (h h' : Heap) : Prop :=
  h.products <+: h'.products ∧ h.arrays <+: h'.arrays

/-- The state after `constructor()` has set `this.data = null`, with no objects yet. -/
def Machine.initial (dom : Dom) : Machine :=
  { heap := ⟨[], []⟩, data := none, dom := dom, console := [], alerts := [], downloads := [] }

/-- The method `init()` on the heap: the load, then the call
`this.setupDashboard()`, which raises. -/
def Machine.init (fetched : Fetched) (dom : Dom) : Machine × Option JSError :=
  (Machine.loadData fetched (Machine.initial dom),
    some (.typeError "this.setupDashboard is not a function"))

/-- Whether the references of `this.data`, if it is set, exist in the heap. -/
def Machine.wellFormed (s : Machine) : Bool :=
  match s.data with
  | none => true
  | some d => s.heap.holds d

/-- The documents that an operation loads and assigns to `this.data`: those of
the reload of `runAnalysis` after an `ok` response, if all three arrive. -/
def Operation.reloaded : Operation → Option DataObject
  | .runAnalysis (.ok true) fetched =>
    match promiseAll fetched with
    | .ok d => some d
    | .error _ => none
  | _ => none

/-- The array references of a data object. -/
def DataRefs.arrays (d : DataRefs) : List Nat :=
  d.categories.filterMap (fun kv => kv.2.top_products)

/-- The panel after `init` has loaded the catalog `catalogFifteen`. -/
def machineLoaded : Machine := (Machine.init fetchedFifteen domPanel).1

/-- Whether `s'` is `s` with the document `dom'`, possibly with more objects
in the heap, and with every object of `s` and everything else as it was. -/
def Machine.rendered (s s' : Machine) (dom' : Dom) : Prop :=
  s.heap.keeps s'.heap ∧ s'.data = s.data ∧ s'.dom = dom' ∧ s'.console = s.console
    ∧ s'.alerts = s.alerts ∧ s'.downloads = s.downloads

/-! ## Built-ins: sorting and enumeration -/

theorem sortInsert_perm {α : Type} (cmp : α → α → ℚ) (a : α) (l : List α) :
    (sortInsert cmp a l).Perm (a :: l) := by
  induction l with
  | nil => exact List.Perm.refl _
  | cons b l ih =>
    unfold sortInsert
    split
    · exact List.Perm.refl _
    · exact (List.Perm.cons b ih).trans (List.Perm.swap a b l)

theorem arraySort_perm {α : Type} (cmp : α → α → ℚ) (l : List α) :
    (arraySort cmp l).Perm l := by
  induction l with
  | nil => exact List.Perm.refl _
  | cons a l ih =>
    exact (sortInsert_perm cmp a (arraySort cmp l)).trans (List.Perm.cons a ih)

theorem props_perm {α : Type} (o : JSObject α) :
    ((indexProps o).map Prod.snd ++ namedProps o).Perm (o.map Prod.snd) := by
  induction o with
  | nil => exact List.Perm.refl _
  | cons kv o ih =>
    cases h : arrayIndex? kv.1 with
    | none =>
      have h1 : indexProps (kv :: o) = indexProps o := by
        simp [indexProps, List.filterMap_cons, h]
      have h2 : namedProps (kv :: o) = kv.2 :: namedProps o := by
        simp [namedProps, List.filter_cons, h]
      rw [h1, h2]
      exact List.perm_middle.trans (List.Perm.cons _ ih)
    | some n =>
      have h1 : indexProps (kv :: o) = (n, kv.2) :: indexProps o := by
        simp [indexProps, List.filterMap_cons, h]
      have h2 : namedProps (kv :: o) = namedProps o := by
        simp [namedProps, List.filter_cons, h]
      rw [h1, h2]
      exact List.Perm.cons _ ih

theorem objectValues_perm {α : Type} (o : JSObject α) :
    (objectValues o).Perm (o.map Prod.snd) := by
  unfold objectValues
  exact (List.Perm.append_right _ ((arraySort_perm _ _).map Prod.snd)).trans (props_perm o)

/-- Without array-index keys, enumeration order is creation order. -/
theorem objectValues_of_no_index {α : Type} (o : JSObject α)
    (h : ∀ kv ∈ o, arrayIndex? kv.1 = none) : objectValues o = o.map Prod.snd := by
  have h1 : indexProps o = [] := by
    unfold indexProps
    rw [List.filterMap_eq_nil_iff]
    intro kv hkv
    simp [h kv hkv]
  have h2 : namedProps o = o.map Prod.snd := by
    unfold namedProps
    rw [List.filter_eq_self.mpr]
    intro kv hkv
    simp [h kv hkv]
  simp [objectValues, h1, h2, arraySort]

/-! ## Aggregation -/

theorem orZero_eq (x : Option ℚ) : orZero x = x.getD 0 := by
  cases x with
  | none => rfl
  | some v =>
    by_cases hv : v = 0
    · simp [orZero, hv]
    · simp [orZero, hv]

theorem foldl_addProduct (ps : List Product) (t : Totals) :
    ps.foldl addProduct t =
      ⟨t.totalProducts,
        (ps.map (fun p => parseNumber p.quantum_score)).foldl jsAdd t.totalScore,
        t.productCount + ps.length⟩ := by
  induction ps generalizing t with
  | nil => simp
  | cons p ps ih =>
    rw [List.foldl_cons, ih]
    simp only [addProduct, List.map_cons, List.foldl_cons, List.length_cons]
    congr 1
    omega

theorem addCategory_eq (t : Totals) (c : Category) :
    addCategory t c =
      ⟨t.totalProducts + orZero c.total_analyzed,
        (c.products.map (fun p => parseNumber p.quantum_score)).foldl jsAdd t.totalScore,
        t.productCount + c.products.length⟩ := by
  unfold addCategory Category.products
  cases c.top_products with
  | none => simp
  | some ps => simp [foldl_addProduct]

theorem foldl_addCategory (cs : List Category) (t : Totals) :
    cs.foldl addCategory t =
      ⟨t.totalProducts + (cs.map (fun c => orZero c.total_analyzed)).sum,
        ((cs.flatMap Category.products).map (fun p => parseNumber p.quantum_score)).foldl jsAdd
          t.totalScore,
        t.productCount + (cs.flatMap Category.products).length⟩ := by
  induction cs generalizing t with
  | nil => simp
  | cons c cs ih =>
    rw [List.foldl_cons, ih, addCategory_eq]
    simp only [List.map_cons, List.sum_cons, List.flatMap_cons, List.map_append,
      List.foldl_append, List.length_append]
    congr 1
    · ring
    · omega

theorem allProducts_eq (q : QuantumData) :
    allProducts q = (objectValues q.categories).flatMap Category.products := by
  unfold allProducts
  have push : ∀ (ps acc : List Product),
      ps.foldl (fun acc product => acc ++ [product]) acc = acc ++ ps := by
    intro ps
    induction ps with
    | nil => simp
    | cons p ps ih => intro acc; simp [ih]
  have step : ∀ (cs : List Category) (acc : List Product),
      cs.foldl (fun acc category =>
        match category.top_products with
        | none => acc
        | some products => products.foldl (fun acc product => acc ++ [product]) acc) acc =
      acc ++ cs.flatMap Category.products := by
    intro cs
    induction cs with
    | nil => simp
    | cons c cs ih =>
      intro acc
      rw [List.foldl_cons, ih, List.flatMap_cons]
      cases h : c.top_products with
      | none => simp [Category.products, h]
      | some ps => simp [Category.products, h, push]
  simpa using step (objectValues q.categories) []

theorem totals_eq (q : QuantumData) :
    totals q =
      ⟨(q.categories.map (fun kv => orZero kv.2.total_analyzed)).sum,
        ((allProducts q).map (fun p => parseNumber p.quantum_score)).foldl jsAdd (.finite 0),
        (allProducts q).length⟩ := by
  unfold totals
  rw [foldl_addCategory, allProducts_eq]
  simp only [zero_add]
  congr 1
  have h := ((objectValues_perm q.categories).map (fun c => orZero c.total_analyzed)).sum_eq
  simpa [List.map_map, Function.comp] using h

/-! ## Evaluation of the optional chains -/

theorem index_last {α : Type} (xs : List α) : index xs ((xs.length : Int) - 1) = xs.getLast? := by
  unfold index
  cases xs with
  | nil => simp
  | cons x xs =>
    have h1 : ¬ (((x :: xs).length : Int) - 1 < 0) := by
      simp only [List.length_cons, Nat.cast_add, Nat.cast_one]; omega
    have h2 : (((x :: xs).length : Int) - 1).toNat = (x :: xs).length - 1 := by
      simp only [List.length_cons, Nat.cast_add, Nat.cast_one]; omega
    rw [if_neg h1, h2, List.getLast?_eq_getElem?, List.get?_eq_getElem?]

theorem optLast_eq {α : Type} (a : Option (List α)) :
    optLast a = .ok (a.bind List.getLast?) := by
  cases a with
  | none => rfl
  | some xs =>
    show (do let n ← propLength (some xs); pure (index xs (n - 1))) = _
    simp only [propLength]
    show Except.ok (index xs ((xs.length : Int) - 1)) = _
    rw [index_last]
    rfl

theorem monthlyRevenue_eq (a : AnalyticsData) :
    monthlyRevenue a =
      .ok (orZero ((a.revenue_data.bind List.getLast?).bind (fun r => r.revenue))) := by
  unfold monthlyRevenue
  rw [optLast_eq]
  rfl

theorem conversionRate_eq (host : Host) (a : AnalyticsData) :
    conversionRate host a =
      .ok (match a.daily_stats.bind List.getLast? with
        | some d => .fixed (toFixed host 2 (conversionPercent d))
        | none => .zero) := by
  unfold conversionRate
  rw [optLast_eq]
  cases a.daily_stats.bind List.getLast? <;> rfl

/-! ## Reading the document after a write -/

theorem getElementById_modifyById (id id' : String) (f : Element → Element)
    (hf : ∀ e, (f e).id = e.id) (dom : Dom) :
    getElementById id (modifyById id' f dom) =
      if id = id' then (getElementById id dom).map f else getElementById id dom := by
  induction dom with
  | nil => simp [getElementById, modifyById]
  | cons e es ih =>
    unfold getElementById at ih ⊢
    unfold modifyById
    by_cases h1 : e.id = id'
    · by_cases h2 : id = id'
      · subst h2
        simp [h1, hf]
      · have h3 : ¬ e.id = id := fun h => h2 (h ▸ h1)
        have h4 : (e.id == id') = true := by simpa using h1
        rw [if_pos h4, if_neg h2]
        simp [List.find?_cons, hf, h3]
    · by_cases h2 : id = id'
      · subst h2
        simp [h1, ih]
      · by_cases h3 : e.id = id
        · simp [h1, h2, h3]
        · simp [h1, h2, h3, ih]

theorem contentOf_updateMetric (id id' value : String) (dom : Dom) :
    contentOf id (updateMetric id' value dom) =
      if id = id' then (contentOf id dom).map (fun _ => .text value) else contentOf id dom := by
  unfold updateMetric contentOf
  cases h : getElementById id' dom with
  | none =>
    by_cases h2 : id = id'
    · subst h2; simp [h]
    · simp [h2]
  | some e =>
    simp only []
    rw [getElementById_modifyById id id' (fun e => { e with content := .text value })
      (fun _ => rfl) dom]
    by_cases h2 : id = id'
    · rw [if_pos h2, if_pos h2, Option.map_map, Option.map_map]
      rfl
    · simp [h2]

theorem contentOf_loadTopProducts (id : String) (data : Option Data) (dom : Dom)
    (h : id ≠ "top-products-list") :
    contentOf id (loadTopProducts data dom) = contentOf id dom := by
  unfold loadTopProducts contentOf
  split
  · next d _ =>
    rw [getElementById_modifyById id "top-products-list"
      (fun e => { e with content := .rows ((topProducts d.quantumData).map productRow) })
      (fun _ => rfl) dom, if_neg h]
  · rfl

/-- The writes of `updateMetrics` on loaded data, in order; no step raises. -/
theorem updateMetrics_loaded (host : Host) (d : Data) (dom : Dom) :
    updateMetrics host (some d) dom =
      ⟨loadTopProducts (some d)
        (updateMetric "conversion-rate"
          (match d.analyticsData.daily_stats.bind List.getLast? with
            | some s => ConversionRate.fixed (toFixed host 2 (conversionPercent s))
            | none => ConversionRate.zero).percent
          (updateMetric "monthly-revenue"
            ("€" ++ host.toLocaleString
              (orZero ((d.analyticsData.revenue_data.bind List.getLast?).bind (fun r => r.revenue))))
            (updateMetric "avg-quantum-score" (avgQuantumScore host d.quantumData)
              (updateMetric "total-products"
                (host.toLocaleString (totals d.quantumData).totalProducts) dom)))),
        none⟩ := by
  unfold updateMetrics
  simp only [monthlyRevenue_eq, conversionRate_eq]

/-! ## Number formatting -/

theorem toFixed_finite (host : Host) (f : Nat) (q : ℚ) (h : |q| < (10 : ℚ) ^ 21) :
    toFixed host f (.finite q) =
      (if q < 0 then "-" else "") ++ fixedDigits f (nearestScaled f |q|) := by
  unfold toFixed
  simp only []
  rw [if_neg (not_le.mpr h)]

/-- The scaled integer chosen by `toFixed` is within half a unit of the last
digit of the magnitude it formats. -/
theorem nearestScaled_close (f : Nat) (q : ℚ) :
    abs (((nearestScaled f (abs q) : ℕ) : ℚ) / (10 : ℚ) ^ f - abs q) ≤ 1 / (2 * (10 : ℚ) ^ f) := by
  have hp : (0 : ℚ) < (10 : ℚ) ^ f := by positivity
  have hx : (0 : ℚ) ≤ abs q * (10 : ℚ) ^ f := mul_nonneg (abs_nonneg q) hp.le
  have hfl : (0 : ℤ) ≤ Int.floor (abs q * (10 : ℚ) ^ f + 1 / 2) :=
    Int.floor_nonneg.mpr (by linarith)
  have hcast : ((nearestScaled f (abs q) : ℕ) : ℚ)
      = ((Int.floor (abs q * (10 : ℚ) ^ f + 1 / 2) : ℤ) : ℚ) := by
    unfold nearestScaled
    have := Int.toNat_of_nonneg hfl
    exact_mod_cast this
  rw [hcast]
  have h1 := Int.floor_le (abs q * (10 : ℚ) ^ f + 1 / 2)
  have h2 := Int.lt_floor_add_one (abs q * (10 : ℚ) ^ f + 1 / 2)
  generalize ((Int.floor (abs q * (10 : ℚ) ^ f + 1 / 2) : ℤ) : ℚ) = n at h1 h2 ⊢
  have e1 : n / (10 : ℚ) ^ f - abs q = (n - abs q * (10 : ℚ) ^ f) / (10 : ℚ) ^ f := by
    field_simp
    ring
  have e2 : 1 / (2 * (10 : ℚ) ^ f) = (1 / 2) / (10 : ℚ) ^ f := by
    field_simp
  rw [e1, e2, abs_div, abs_of_pos hp]
  apply div_le_div_of_nonneg_right _ hp.le
  rw [abs_le]
  constructor <;> linarith

/-! ## Metrics -/

/-- C1: the `totalProducts` figure of `updateMetrics` is the sum of
`total_analyzed` over all categories, an absent `total_analyzed` counting as 0;
it is the number written to `total-products`; it is unchanged when every
category's `top_products` is replaced by anything else; and with
`total_analyzed` 10 for A and 20 for B it is 30 whatever the product lists. -/
theorem totalProducts_is_sum_of_total_analyzed (host : Host) (d : Data) (dom : Dom) :
    (totals d.quantumData).totalProducts
        = (d.quantumData.categories.map (fun kv => kv.2.total_analyzed.getD 0)).sum
    ∧ contentOf "total-products" (updateMetrics host (some d) dom).dom
        = (contentOf "total-products" dom).map (fun _ => Content.text (host.toLocaleString
            (d.quantumData.categories.map (fun kv => kv.2.total_analyzed.getD 0)).sum))
    ∧ (∀ g : String → Category → Option (List Product),
        (totals ⟨d.quantumData.categories.map
            (fun kv => (kv.1, { kv.2 with top_products := g kv.1 kv.2 }))⟩).totalProducts
          = (totals d.quantumData).totalProducts)
    ∧ (∀ pa pb : Option (List Product),
        (totals ⟨[("A", ⟨some 10, pa⟩), ("B", ⟨some 20, pb⟩)]⟩).totalProducts = 30) := by
  have key : ∀ q : QuantumData, (totals q).totalProducts
      = (q.categories.map (fun kv => kv.2.total_analyzed.getD 0)).sum := by
    intro q
    rw [totals_eq]
    simp only [orZero_eq]
  refine ⟨key _, ?_, ?_, ?_⟩
  · rw [updateMetrics_loaded]
    simp only []
    rw [contentOf_loadTopProducts _ _ _ (by decide), contentOf_updateMetric,
      if_neg (by decide), contentOf_updateMetric, if_neg (by decide), contentOf_updateMetric,
      if_neg (by decide), contentOf_updateMetric, if_pos rfl, key]
  · intro g
    rw [key, key, List.map_map]
    rfl
  · intro pa pb
    rw [key]
    norm_num

/-- A division by a non-zero double is the double nearest to the quotient. -/
theorem jsDiv_finite (a b : ℚ) (hb : b ≠ 0) :
    jsDiv (.finite a) (.finite b) = roundDouble (a / b) := by
  show (if b ≠ 0 then roundDouble (a / b) else _) = _
  rw [if_pos hb]

/-- C2: `updateMetrics` accumulates one pooled sum and one pooled count over
the products of all categories, in catalog order and in the double arithmetic
of the program; on a catalog with at least one product `avgQuantumScore` is
`toFixed(1)` of that sum divided by that count, the double nearest to the
quotient when the sum is finite, and it is the text written to
`avg-quantum-score`.  For A = [9, 7, 5], B = [8, 6] the text is "7.0"; for
A = [9], B = [6, 3] it is "6.0", the pooled average, whereas the average of
the two category averages is 6.75; for the scores 8.2 and 8.5 it is "8.3". -/
theorem avgQuantumScore_is_pooled_average (host : Host) (d : Data) (dom : Dom)
    (h : allProducts d.quantumData ≠ []) :
    (totals d.quantumData).totalScore = scoreSum (allProducts d.quantumData)
    ∧ (totals d.quantumData).productCount = (allProducts d.quantumData).length
    ∧ avgQuantumScore host d.quantumData
        = toFixed host 1 (jsDiv (scoreSum (allProducts d.quantumData))
            (.finite ((allProducts d.quantumData).length : ℚ)))
    ∧ (∀ sum : ℚ, scoreSum (allProducts d.quantumData) = .finite sum →
        avgQuantumScore host d.quantumData
          = toFixed host 1 (roundDouble (sum / ((allProducts d.quantumData).length : ℚ))))
    ∧ contentOf "avg-quantum-score" (updateMetrics host (some d) dom).dom
        = (contentOf "avg-quantum-score" dom).map (fun _ => Content.text
            (toFixed host 1 (jsDiv (scoreSum (allProducts d.quantumData))
              (.finite ((allProducts d.quantumData).length : ℚ)))))
    ∧ (∀ host' : Host, avgQuantumScore host' catalogAB = "7.0")
    ∧ (∀ host' : Host, avgQuantumScore host' catalogUneven = "6.0")
    ∧ (∀ host' : Host, avgQuantumScore host' catalogNear = "8.3") := by
  have key : ∀ (hst : Host) (q : QuantumData), avgQuantumScore hst q
      = toFixed hst 1 (jsDiv (scoreSum (allProducts q)) (.finite ((allProducts q).length : ℚ))) := by
    intro hst q
    unfold avgQuantumScore scoreSum
    simp only [totals_eq]
  have hlen : ((allProducts d.quantumData).length : ℚ) ≠ 0 := by
    have : (allProducts d.quantumData).length ≠ 0 := fun h0 => h (List.length_eq_zero.mp h0)
    exact_mod_cast this
  refine ⟨?_, ?_, key host _, ?_, ?_, ?_, ?_, ?_⟩
  · rw [totals_eq]
    rfl
  · rw [totals_eq]
  · intro sum hsum
    rw [key, hsum, jsDiv_finite _ _ hlen]
  · rw [updateMetrics_loaded]
    simp only []
    rw [contentOf_loadTopProducts _ _ _ (by decide), contentOf_updateMetric,
      if_neg (by decide), contentOf_updateMetric, if_neg (by decide), contentOf_updateMetric,
      if_pos rfl, contentOf_updateMetric, if_neg (by decide), key host _]
  · intro host'
    have e : jsDiv (scoreSum (allProducts catalogAB))
        (.finite ((allProducts catalogAB).length : ℚ)) = .finite 7 := by decide!
    rw [key host' catalogAB, e, toFixed_finite _ _ _ (by norm_num)]
    decide!
  · intro host'
    have e : jsDiv (scoreSum (allProducts catalogUneven))
        (.finite ((allProducts catalogUneven).length : ℚ)) = .finite 6 := by decide!
    rw [key host' catalogUneven, e, toFixed_finite _ _ _ (by norm_num)]
    decide!
  · intro host'
    have e : jsDiv (scoreSum (allProducts catalogNear))
        (.finite ((allProducts catalogNear).length : ℚ))
        = .finite (4700632111067955 / 562949953421312) := by decide!
    rw [key host' catalogNear, e, toFixed_finite _ _ _ (by norm_num [abs_lt])]
    decide!

/-- The catalog `catalogAB` has products; its sum 35 and count 5 are pooled
and the text is `toFixed(1)` of the double nearest to 35 / 5. -/
theorem avgQuantumScore_is_pooled_average_witness :
    allProducts catalogAB ≠ []
    ∧ scoreSum (allProducts catalogAB) = .finite 35
    ∧ avgQuantumScore blankHost catalogAB
        = toFixed blankHost 1 (roundDouble (35 / ((allProducts catalogAB).length : ℚ))) :=
  ⟨by decide!, by decide!,
    (avgQuantumScore_is_pooled_average blankHost ⟨catalogAB, ⟨none, none⟩⟩ []
      (by decide!)).2.2.2.1 35 (by decide!)⟩

/-- C3: when `daily_stats` is non-empty and the last entry holds a positive
number of clicks `c` and a finite number of conversions `v`, as the doubles
that the program holds, `conversionRate` is `toFixed(2)` of the double nearest
to `v / c`, multiplied by 100 in double arithmetic, whatever the earlier
entries are; it is the text written to `conversion-rate`, followed by `%`.  A
last entry with 50 clicks and 5 conversions gives "10.00"; one with 160 clicks
and 23 conversions gives "14.37". -/
theorem conversionRate_of_last_entry (host : Host) (d : Data) (dom : Dom)
    (earlier : List DailyStat) (latest : DailyStat) (c v : ℚ)
    (hs : d.analyticsData.daily_stats = some (earlier ++ [latest]))
    (hc : parseNumber latest.affiliate_clicks = .finite c) (hpos : 0 < c)
    (hv : parseNumber latest.conversions = .finite v) :
    conversionRate host d.analyticsData
        = .ok (.fixed (toFixed host 2 (jsMul (roundDouble (v / c)) (.finite 100))))
    ∧ contentOf "conversion-rate" (updateMetrics host (some d) dom).dom
        = (contentOf "conversion-rate" dom).map (fun _ => Content.text
            (toFixed host 2 (jsMul (roundDouble (v / c)) (.finite 100)) ++ "%"))
    ∧ (∀ (host' : Host) (revenue : Option (List RevenuePoint)) (before : List DailyStat)
          (date : String),
        conversionRate host' ⟨revenue, some (before ++ [⟨date, 50, 5⟩])⟩
          = .ok (.fixed "10.00"))
    ∧ (∀ (host' : Host) (revenue : Option (List RevenuePoint)) (before : List DailyStat)
          (date : String),
        conversionRate host' ⟨revenue, some (before ++ [⟨date, 160, 23⟩])⟩
          = .ok (.fixed "14.37")) := by
  have key : ∀ (hst : Host) (a : AnalyticsData) (init : List DailyStat) (s : DailyStat),
      a.daily_stats = some (init ++ [s]) →
      (match a.daily_stats.bind List.getLast? with
        | some s => ConversionRate.fixed (toFixed hst 2 (conversionPercent s))
        | none => ConversionRate.zero)
      = .fixed (toFixed hst 2 (conversionPercent s)) := by
    intro hst a init s ha
    have hl : a.daily_stats.bind List.getLast? = some s := by
      rw [ha]
      simp
    rw [hl]
  have hp : conversionPercent latest = jsMul (roundDouble (v / c)) (.finite 100) := by
    unfold conversionPercent
    rw [hc, hv, jsDiv_finite _ _ (ne_of_gt hpos)]
  refine ⟨?_, ?_, ?_, ?_⟩
  · rw [conversionRate_eq, key host _ earlier latest hs, hp]
  · rw [updateMetrics_loaded]
    simp only []
    rw [contentOf_loadTopProducts _ _ _ (by decide), contentOf_updateMetric, if_pos rfl,
      contentOf_updateMetric, if_neg (by decide), contentOf_updateMetric, if_neg (by decide),
      contentOf_updateMetric, if_neg (by decide), key host _ earlier latest hs, hp]
    rfl
  · intro host' revenue before date
    have e : conversionPercent ⟨date, 50, 5⟩ = .finite 10 := by
      show jsMul (jsDiv (parseNumber 5) (parseNumber 50)) (.finite 100) = .finite 10
      decide!
    rw [conversionRate_eq, key host' _ before ⟨date, 50, 5⟩ rfl, e,
      toFixed_finite _ _ _ (by norm_num)]
    have e2 : (if (10 : ℚ) < 0 then "-" else "") ++ fixedDigits 2 (nearestScaled 2 (abs (10 : ℚ)))
        = "10.00" := by decide!
    rw [e2]
  · intro host' revenue before date
    have e : conversionPercent ⟨date, 160, 23⟩
        = .finite (8092405580431359 / 562949953421312) := by
      show jsMul (jsDiv (parseNumber 23) (parseNumber 160)) (.finite 100) = _
      decide!
    rw [conversionRate_eq, key host' _ before ⟨date, 160, 23⟩ rfl, e,
      toFixed_finite _ _ _ (by norm_num [abs_lt])]
    have e2 : (if ((8092405580431359 : ℚ) / 562949953421312) < 0 then "-" else "")
        ++ fixedDigits 2 (nearestScaled 2 (abs ((8092405580431359 : ℚ) / 562949953421312)))
        = "14.37" := by decide!
    rw [e2]

/-- The statistics of `dataAB` end with a day of 50 clicks and 5 conversions,
both doubles, which gives the rate. -/
theorem conversionRate_of_last_entry_witness :
    parseNumber dayFifty.affiliate_clicks = .finite 50
    ∧ (0 : ℚ) < 50
    ∧ parseNumber dayFifty.conversions = .finite 5
    ∧ conversionRate blankHost dataAB.analyticsData
        = .ok (.fixed (toFixed blankHost 2 (jsMul (roundDouble (5 / 50)) (.finite 100)))) :=
  ⟨by decide!, by norm_num, by decide!,
    (conversionRate_of_last_entry blankHost dataAB [] [⟨"2024-01-01", 0, 0⟩] dayFifty 50 5 rfl
      (by decide!) (by norm_num) (by decide!)).1⟩

/-- C4: `monthlyRevenue` is the `revenue` field of the last element of
`revenue_data` (0 when that field is absent), and it is 0 when `revenue_data`
is an empty array or is absent; `updateMetrics` never raises on loaded data, in
particular in those two cases; the figure is the number written to
`monthly-revenue` after the euro sign. -/
theorem monthlyRevenue_last_or_zero (host : Host) (q : QuantumData)
    (daily : Option (List DailyStat)) (dom : Dom) :
    (∀ (earlier : List RevenuePoint) (month : String) (v : ℚ),
        monthlyRevenue ⟨some (earlier ++ [⟨month, some v⟩]), daily⟩ = .ok v)
    ∧ (∀ (earlier : List RevenuePoint) (month : String),
        monthlyRevenue ⟨some (earlier ++ [⟨month, none⟩]), daily⟩ = .ok 0)
    ∧ monthlyRevenue ⟨some [], daily⟩ = .ok 0
    ∧ monthlyRevenue ⟨none, daily⟩ = .ok 0
    ∧ (updateMetrics host (some ⟨q, ⟨some [], daily⟩⟩) dom).raised = none
    ∧ (updateMetrics host (some ⟨q, ⟨none, daily⟩⟩) dom).raised = none
    ∧ (∀ revenue : Option (List RevenuePoint),
        (updateMetrics host (some ⟨q, ⟨revenue, daily⟩⟩) dom).raised = none
        ∧ contentOf "monthly-revenue" (updateMetrics host (some ⟨q, ⟨revenue, daily⟩⟩) dom).dom
          = (contentOf "monthly-revenue" dom).map (fun _ => Content.text
              ("€" ++ host.toLocaleString
                (((revenue.bind List.getLast?).bind (fun r => r.revenue)).getD 0)))) := by
  refine ⟨?_, ?_, ?_, ?_, ?_, ?_, ?_⟩
  · intro earlier month v
    rw [monthlyRevenue_eq, orZero_eq]
    simp
  · intro earlier month
    rw [monthlyRevenue_eq, orZero_eq]
    simp
  · rw [monthlyRevenue_eq, orZero_eq]
    simp
  · rw [monthlyRevenue_eq, orZero_eq]
    simp
  · rw [updateMetrics_loaded]
  · rw [updateMetrics_loaded]
  · intro revenue
    rw [updateMetrics_loaded]
    refine ⟨rfl, ?_⟩
    simp only []
    rw [contentOf_loadTopProducts _ _ _ (by decide), contentOf_updateMetric, if_neg (by decide),
      contentOf_updateMetric, if_pos rfl, contentOf_updateMetric, if_neg (by decide),
      contentOf_updateMetric, if_neg (by decide), orZero_eq]

/-- C5: `getScoreClass` puts every score in exactly one of three tiers with
fixed thresholds, excellent iff `score ≥ 9`, good iff `7 ≤ score < 9`, fair
otherwise; 9.5, 9, 7, 6.9 and 3 give excellent, excellent, good, fair, fair. -/
theorem getScoreClass_tiers (score : ℚ) :
    (getScoreClass score = "score-excellent" ↔ 9 ≤ score)
    ∧ (getScoreClass score = "score-good" ↔ 7 ≤ score ∧ score < 9)
    ∧ (getScoreClass score = "score-fair" ↔ score < 7)
    ∧ [(9.5 : ℚ), 9, 7, 6.9, 3].map getScoreClass
        = ["score-excellent", "score-excellent", "score-good", "score-fair", "score-fair"] := by
  have n1 : ("score-good" : String) ≠ "score-excellent" := by decide
  have n2 : ("score-fair" : String) ≠ "score-excellent" := by decide
  have n3 : ("score-fair" : String) ≠ "score-good" := by decide
  refine ⟨?_, ?_, ?_, ?_⟩
  · unfold getScoreClass
    by_cases h9 : score ≥ 9
    · simp [h9]
    · by_cases h7 : score ≥ 7
      · simp [h9, h7, n1]
      · simp [h9, h7, n2]
  · unfold getScoreClass
    by_cases h9 : score ≥ 9
    · simp only [if_pos h9]
      constructor
      · intro h; exact absurd h n1.symm
      · intro h; exact absurd h9 (not_le.mpr h.2)
    · by_cases h7 : score ≥ 7
      · simp only [if_neg h9, if_pos h7]
        exact ⟨fun _ => ⟨h7, lt_of_not_ge h9⟩, fun _ => trivial⟩
      · simp only [if_neg h9, if_neg h7]
        constructor
        · intro h; exact absurd h n3
        · intro h; exact absurd h.1 h7
  · unfold getScoreClass
    by_cases h9 : score ≥ 9
    · simp only [if_pos h9]
      constructor
      · intro h; exact absurd h n2.symm
      · intro h; exact absurd h9 (by linarith)
    · by_cases h7 : score ≥ 7
      · simp only [if_neg h9, if_pos h7]
        constructor
        · intro h; exact absurd h n3.symm
        · intro h; exact absurd h7 (not_le.mpr h)
      · simp only [if_neg h9, if_neg h7]
        exact ⟨fun _ => lt_of_not_ge h7, fun _ => trivial⟩
  · simp only [List.map, getScoreClass]
    norm_num

/-! ## Properties of the sort -/

theorem mem_sortInsert {α : Type} (cmp : α → α → ℚ) (a x : α) (l : List α) :
    x ∈ sortInsert cmp a l ↔ x = a ∨ x ∈ l := by
  rw [(sortInsert_perm cmp a l).mem_iff, List.mem_cons]

/-- Inserting into a list ordered by a total, transitive comparator keeps it ordered. -/
theorem sortInsert_pairwise {α : Type} (cmp : α → α → ℚ)
    (total : ∀ a b, cmp a b ≤ 0 ∨ cmp b a ≤ 0)
    (trans : ∀ a b c, cmp a b ≤ 0 → cmp b c ≤ 0 → cmp a c ≤ 0)
    (a : α) (l : List α) (h : l.Pairwise (fun x y => cmp x y ≤ 0)) :
    (sortInsert cmp a l).Pairwise (fun x y => cmp x y ≤ 0) := by
  induction l with
  | nil => simp [sortInsert]
  | cons b l ih =>
    rw [List.pairwise_cons] at h
    unfold sortInsert
    split
    · next hab =>
      refine List.Pairwise.cons ?_ (List.Pairwise.cons h.1 h.2)
      intro x hx
      rcases List.mem_cons.mp hx with rfl | hx
      · exact hab
      · exact trans a b x hab (h.1 x hx)
    · next hab =>
      refine List.Pairwise.cons ?_ (ih h.2)
      intro x hx
      rcases (mem_sortInsert cmp a x l).mp hx with rfl | hx
      · exact (total x b).resolve_left hab
      · exact h.1 x hx

theorem arraySort_pairwise {α : Type} (cmp : α → α → ℚ)
    (total : ∀ a b, cmp a b ≤ 0 ∨ cmp b a ≤ 0)
    (trans : ∀ a b c, cmp a b ≤ 0 → cmp b c ≤ 0 → cmp a c ≤ 0) (l : List α) :
    (arraySort cmp l).Pairwise (fun x y => cmp x y ≤ 0) := by
  induction l with
  | nil => exact List.Pairwise.nil
  | cons a l ih => exact sortInsert_pairwise cmp total trans a _ ih

/-- Stability: a class of elements that the comparator never puts after one
another keeps its order through an insertion. -/
theorem sortInsert_filter {α : Type} (cmp : α → α → ℚ) (P : α → Bool)
    (tie : ∀ a b, P a = true → P b = true → cmp a b ≤ 0) (a : α) (l : List α) :
    (sortInsert cmp a l).filter P = (a :: l).filter P := by
  induction l with
  | nil => rfl
  | cons b l ih =>
    unfold sortInsert
    split
    · rfl
    · next hab =>
      rw [List.filter_cons, ih]
      cases ha : P a with
      | false => simp [List.filter_cons, ha]
      | true =>
        have hb : P b = false := by
          cases hb : P b with
          | false => rfl
          | true => exact absurd (tie a b ha hb) hab
        simp [List.filter_cons, ha, hb]

theorem arraySort_filter {α : Type} (cmp : α → α → ℚ) (P : α → Bool)
    (tie : ∀ a b, P a = true → P b = true → cmp a b ≤ 0) (l : List α) :
    (arraySort cmp l).filter P = l.filter P := by
  induction l with
  | nil => rfl
  | cons a l ih =>
    show (sortInsert cmp a (arraySort cmp l)).filter P = _
    rw [sortInsert_filter cmp P tie, List.filter_cons, List.filter_cons, ih]

/-- The listing of `loadTopProducts` before the cut: all products, ordered by
non-increasing score. -/
theorem sorted_products_pairwise (l : List Product) :
    (arraySort (fun a b => b.quantum_score - a.quantum_score) l).Pairwise
      (fun x y => y.quantum_score ≤ x.quantum_score) := by
  have h := arraySort_pairwise (fun a b : Product => b.quantum_score - a.quantum_score)
    (fun a b => by
      rcases le_total a.quantum_score b.quantum_score with h | h
      · right; show a.quantum_score - b.quantum_score ≤ 0; linarith
      · left; show b.quantum_score - a.quantum_score ≤ 0; linarith)
    (fun a b c h1 h2 => by
      have h1' : b.quantum_score - a.quantum_score ≤ 0 := h1
      have h2' : c.quantum_score - b.quantum_score ≤ 0 := h2
      show c.quantum_score - a.quantum_score ≤ 0
      linarith) l
  refine h.imp ?_
  intro x y hxy
  have hxy' : y.quantum_score - x.quantum_score ≤ 0 := hxy
  linarith

/-! ## Listings -/

theorem contentOf_loadTopProducts_self (d : Data) (dom : Dom) :
    contentOf "top-products-list" (loadTopProducts (some d) dom)
      = (contentOf "top-products-list" dom).map
          (fun _ => Content.rows ((topProducts d.quantumData).map productRow)) := by
  unfold loadTopProducts contentOf
  cases h : getElementById "top-products-list" dom with
  | none => simp [h]
  | some e =>
    simp only []
    rw [getElementById_modifyById "top-products-list" "top-products-list"
      (fun e => { e with content := .rows ((topProducts d.quantumData).map productRow) })
      (fun _ => rfl) dom, if_pos rfl, h]
    rfl

theorem contentOf_loadProductsTable_self (d : Data) (dom : Dom) :
    contentOf "all-products-list" (loadProductsTable (some d) dom)
      = (contentOf "all-products-list" dom).map
          (fun _ => Content.rows ((allProducts d.quantumData).map productRow)) := by
  unfold loadProductsTable contentOf
  cases h : getElementById "all-products-list" dom with
  | none => simp [h]
  | some e =>
    simp only []
    rw [getElementById_modifyById "all-products-list" "all-products-list"
      (fun e => { e with content := .rows ((allProducts d.quantumData).map productRow) })
      (fun _ => rfl) dom, if_pos rfl, h]
    rfl

/-- The rows found in `top-products-list` after `loadTopProducts`, when the
container exists. -/
theorem listedRows_eq (d : Data) (dom : Dom)
    (h : getElementById "top-products-list" dom ≠ none) :
    listedRows d dom = (topProducts d.quantumData).map productRow := by
  unfold listedRows
  rw [contentOf_loadTopProducts_self]
  unfold contentOf
  cases hq : getElementById "top-products-list" dom with
  | none => exact absurd hq h
  | some e => rfl

/-- C6: when the container exists, `loadTopProducts` writes into
`top-products-list` one row per product of `topProducts`, each showing the
title, price, rating, score class, score and ASIN of its product; there are
exactly `min 10 n` rows, `n` the number of products of all categories; the
scores shown are in non-increasing order; and the products left out, which
with the listed ones make up all products, each have a score at most the score
shown in every row.  On the 15 products of `catalogFifteen` the rows show the
10 highest scores, in descending order. -/
theorem loadTopProducts_lists_highest_ten (d : Data) (dom : Dom)
    (h : getElementById "top-products-list" dom ≠ none) :
    contentOf "top-products-list" (loadTopProducts (some d) dom)
        = some (Content.rows (listedRows d dom))
    ∧ listedRows d dom
        = (topProducts d.quantumData).map (fun p =>
            { title := p.title, price := p.price, rating := p.rating,
              scoreClass := getScoreClass p.quantum_score,
              quantum_score := p.quantum_score, asin := p.asin })
    ∧ (listedRows d dom).length = min 10 (allProducts d.quantumData).length
    ∧ (listedRows d dom).Pairwise (fun x y => y.quantum_score ≤ x.quantum_score)
    ∧ (∃ unlisted : List Product,
        (topProducts d.quantumData ++ unlisted).Perm (allProducts d.quantumData)
        ∧ ∀ r ∈ listedRows d dom, ∀ u ∈ unlisted, u.quantum_score ≤ r.quantum_score)
    ∧ (allProducts catalogFifteen).length = 15
    ∧ (listedRows ⟨catalogFifteen, ⟨none, none⟩⟩ domPanel).map
          (fun r => (r.asin, r.quantum_score, r.scoreClass))
        = [("S5", 10, "score-excellent"), ("V4", 19 / 2, "score-excellent"),
           ("A2", 9, "score-excellent"), ("V1", 8, "score-good"), ("S1", 7, "score-good"),
           ("S4", 7, "score-good"), ("A3", 7, "score-good"), ("A5", 7, "score-good"),
           ("V2", 7, "score-good"), ("A1", 6, "score-fair")] := by
  have hrows := listedRows_eq d dom h
  have hsorted := sorted_products_pairwise (allProducts d.quantumData)
  refine ⟨?_, ?_, ?_, ?_, ?_, ?_, ?_⟩
  · rw [contentOf_loadTopProducts_self, hrows]
    unfold contentOf
    cases hq : getElementById "top-products-list" dom with
    | none => exact absurd hq h
    | some e => rfl
  · rw [hrows]
    rfl
  · rw [hrows]
    unfold topProducts
    rw [List.length_map, List.length_take, (arraySort_perm _ _).length_eq]
  · rw [hrows, List.pairwise_map]
    exact hsorted.take
  · refine ⟨(arraySort (fun a b => b.quantum_score - a.quantum_score)
        (allProducts d.quantumData)).drop 10, ?_, ?_⟩
    · unfold topProducts
      rw [List.take_append_drop]
      exact arraySort_perm _ _
    · rw [hrows]
      intro r hr u hu
      obtain ⟨p, hp, rfl⟩ := List.mem_map.mp hr
      rw [← List.take_append_drop 10 (arraySort (fun a b => b.quantum_score - a.quantum_score)
        (allProducts d.quantumData)), List.pairwise_append] at hsorted
      exact hsorted.2.2 p hp u hu
  · decide!
  · decide!

/-- The page `domPanel` has the container, and the rows written for
`catalogTies` are its ten listed products. -/
theorem loadTopProducts_lists_highest_ten_witness :
    getElementById "top-products-list" domPanel ≠ none
    ∧ contentOf "top-products-list" (loadTopProducts (some ⟨catalogTies, ⟨none, none⟩⟩) domPanel)
        = some (Content.rows (listedRows ⟨catalogTies, ⟨none, none⟩⟩ domPanel))
    ∧ (listedRows ⟨catalogTies, ⟨none, none⟩⟩ domPanel).length
        = min 10 (allProducts catalogTies).length :=
  ⟨by decide!,
    (loadTopProducts_lists_highest_ten ⟨catalogTies, ⟨none, none⟩⟩ domPanel (by decide!)).1,
    (loadTopProducts_lists_highest_ten ⟨catalogTies, ⟨none, none⟩⟩ domPanel (by decide!)).2.2.1⟩

/-- C7 (counterexample): in `catalogFifteen` the category `7` comes last in the
document and is enumerated first, so the rows tied at 7 show `S1`, `S4` before
`A3`, `A5`, `V2`, which precede them in the document; in `catalogCut` the tie
at 7 straddles the tenth row, and the row kept is `T1`, not `TZ`, which
precedes it in the document. -/
theorem loadTopProducts_ties_not_in_document_order :
    ((listedRows ⟨catalogFifteen, ⟨none, none⟩⟩ domPanel).filter
          (fun r => decide (r.quantum_score = 7))).map (fun r => r.asin)
        = ["S1", "S4", "A3", "A5", "V2"]
    ∧ ((documentOrder catalogFifteen).filter (fun p => decide (p.quantum_score = 7))).map
          (fun p => p.asin)
        = ["A3", "A5", "V2", "S1", "S4"]
    ∧ (listedRows ⟨catalogCut, ⟨none, none⟩⟩ domPanel).map (fun r => r.asin)
        = ["N1", "N2", "N3", "N4", "N5", "N6", "N7", "N8", "N9", "T1"]
    ∧ ((documentOrder catalogCut).filter (fun p => decide (p.quantum_score = 7))).map
          (fun p => p.asin)
        = ["TZ", "T1"]
    ∧ ¬ (((listedRows ⟨catalogCut, ⟨none, none⟩⟩ domPanel).filter
            (fun r => decide (r.quantum_score = 7))).map (fun r => r.asin)
          <+: ((documentOrder catalogCut).filter (fun p => decide (p.quantum_score = 7))).map
            (fun p => p.asin)) := by
  refine ⟨?_, ?_, ?_, ?_, ?_⟩ <;> decide!

/-- C7 (amended): the rows of the listing with exactly equal score keep the
order in which the code collects the products, categories as `Object.values`
enumerates them (names that are array indices first, in ascending order, then
the others in document order) and, within a category, the order of its
`top_products`.  For every score, the rows written with that score are the
rows of an initial segment of the products with that score in that order, so
that when a tie straddles the tenth row the earliest in that order are kept.
When no category name is an array index, that order is the order of the
catalog document.  In `catalogTies`, of the four products tied at 7 the first
two of the document fill rows nine and ten. -/
theorem loadTopProducts_ties_keep_catalog_order (d : Data) (dom : Dom) (score : ℚ)
    (h : getElementById "top-products-list" dom ≠ none) :
    contentOf "top-products-list" (loadTopProducts (some d) dom)
        = some (Content.rows (listedRows d dom))
    ∧ allProducts d.quantumData
        = (objectValues d.quantumData.categories).flatMap Category.products
    ∧ ((listedRows d dom).filter (fun r => decide (r.quantum_score = score)))
        <+: (((allProducts d.quantumData).filter
              (fun p => decide (p.quantum_score = score))).map productRow)
    ∧ ((∀ kv ∈ d.quantumData.categories, arrayIndex? kv.1 = none) →
        allProducts d.quantumData = documentOrder d.quantumData
        ∧ ((listedRows d dom).filter (fun r => decide (r.quantum_score = score)))
            <+: (((documentOrder d.quantumData).filter
                  (fun p => decide (p.quantum_score = score))).map productRow))
    ∧ (documentOrder catalogTies).map (fun p => p.asin)
        = ["T1", "N1", "N2", "N3", "N4", "T2", "N5", "N6", "N7", "N8", "T3", "T4"]
    ∧ (listedRows ⟨catalogTies, ⟨none, none⟩⟩ domPanel).map (fun r => r.asin)
        = ["N1", "N2", "N3", "N4", "N5", "N6", "N7", "N8", "T1", "T2"] := by
  have hrows := listedRows_eq d dom h
  have hprefix : ((listedRows d dom).filter (fun r => decide (r.quantum_score = score)))
      <+: (((allProducts d.quantumData).filter
            (fun p => decide (p.quantum_score = score))).map productRow) := by
    have hs := arraySort_filter (fun a b : Product => b.quantum_score - a.quantum_score)
      (fun p => decide (p.quantum_score = score))
      (fun a b ha hb => by
        have ha' : a.quantum_score = score := of_decide_eq_true ha
        have hb' : b.quantum_score = score := of_decide_eq_true hb
        show b.quantum_score - a.quantum_score ≤ 0
        rw [ha', hb', sub_self])
      (allProducts d.quantumData)
    have hp : ((topProducts d.quantumData).filter (fun p => decide (p.quantum_score = score)))
        <+: ((allProducts d.quantumData).filter (fun p => decide (p.quantum_score = score))) := by
      rw [← hs]
      exact List.IsPrefix.filter _ (List.take_prefix _ _)
    rw [hrows, List.filter_map]
    obtain ⟨t, ht⟩ := hp
    refine ⟨t.map productRow, ?_⟩
    rw [← List.map_append, ← ht]
    rfl
  refine ⟨?_, allProducts_eq _, hprefix, ?_, ?_, ?_⟩
  · rw [contentOf_loadTopProducts_self, hrows]
    unfold contentOf
    cases hq : getElementById "top-products-list" dom with
    | none => exact absurd hq h
    | some e => rfl
  · intro hno
    have hdoc : allProducts d.quantumData = documentOrder d.quantumData := by
      rw [allProducts_eq, objectValues_of_no_index _ hno]
      rfl
    exact ⟨hdoc, hdoc ▸ hprefix⟩
  · decide!
  · decide!

/-- The page `domPanel` has the container; in `catalogTies` no category name
is an array index, and the rows tied at 7 are the rows of the first products
tied at 7 in the document. -/
theorem loadTopProducts_ties_keep_catalog_order_witness :
    getElementById "top-products-list" domPanel ≠ none
    ∧ (∀ kv ∈ (Data.mk catalogTies ⟨none, none⟩).quantumData.categories,
        arrayIndex? kv.1 = none)
    ∧ ((listedRows ⟨catalogTies, ⟨none, none⟩⟩ domPanel).filter
          (fun r => decide (r.quantum_score = 7)))
        <+: (((documentOrder (Data.mk catalogTies ⟨none, none⟩).quantumData).filter
              (fun p => decide (p.quantum_score = 7))).map productRow) :=
  ⟨by decide!, by decide!,
    ((loadTopProducts_ties_keep_catalog_order ⟨catalogTies, ⟨none, none⟩⟩ domPanel 7
      (by decide!)).2.2.2.1 (by decide!)).2⟩

/-- C8 (counterexample): the document of `catalogIndexed` lists category `b`
before category `1`, and the table shows the product of `1` before that of `b`. -/
theorem loadProductsTable_not_document_order :
    contentOf "all-products-list" (loadProductsTable (some ⟨catalogIndexed, ⟨none, none⟩⟩) domPanel)
        = some (.rows [productRow ⟨"P1", "in 1", 5, 4, 6⟩, productRow ⟨"PB", "in b", 5, 4, 8⟩])
    ∧ (catalogIndexed.categories.map Prod.snd).flatMap Category.products
        = [⟨"PB", "in b", 5, 4, 8⟩, ⟨"P1", "in 1", 5, 4, 6⟩]
    ∧ contentOf "all-products-list" (loadProductsTable (some ⟨catalogIndexed, ⟨none, none⟩⟩) domPanel)
        ≠ some (.rows (((catalogIndexed.categories.map Prod.snd).flatMap Category.products).map
            productRow)) := by
  refine ⟨?_, ?_, ?_⟩
  · with_unfolding_all decide
  · with_unfolding_all decide
  · with_unfolding_all decide

/-- The array-index properties are enumerated in ascending index order. -/
theorem sorted_indexProps_pairwise {α : Type} (l : List (Nat × α)) :
    (arraySort (fun a b => (a.1 : ℚ) - (b.1 : ℚ)) l).Pairwise (fun x y => x.1 ≤ y.1) := by
  have h := arraySort_pairwise (fun a b : Nat × α => (a.1 : ℚ) - (b.1 : ℚ))
    (fun a b => by
      rcases le_total a.1 b.1 with h | h
      · left
        show (a.1 : ℚ) - (b.1 : ℚ) ≤ 0
        have : (a.1 : ℚ) ≤ (b.1 : ℚ) := by exact_mod_cast h
        linarith
      · right
        show (b.1 : ℚ) - (a.1 : ℚ) ≤ 0
        have : (b.1 : ℚ) ≤ (a.1 : ℚ) := by exact_mod_cast h
        linarith)
    (fun a b c h1 h2 => by
      have h1' : (a.1 : ℚ) - (b.1 : ℚ) ≤ 0 := h1
      have h2' : (b.1 : ℚ) - (c.1 : ℚ) ≤ 0 := h2
      show (a.1 : ℚ) - (c.1 : ℚ) ≤ 0
      linarith) l
  refine h.imp ?_
  intro x y hxy
  have hxy' : (x.1 : ℚ) - (y.1 : ℚ) ≤ 0 := hxy
  have : (x.1 : ℚ) ≤ (y.1 : ℚ) := by linarith
  exact_mod_cast this

/-- C8 (amended): `loadProductsTable` writes one row per product of
`allProducts` into `all-products-list`, unsorted and unfiltered: the rows are a
rearrangement of the products of all categories in document order, taken
category by category as `Object.values` enumerates them, which is the
categories whose name is an array index in ascending index order, followed by
the other categories in document order, and inside a category in the order of
`top_products`.  When no category name is an array index, this is document
order. -/
theorem loadProductsTable_rows_in_enumeration_order (d : Data) (dom : Dom) :
    contentOf "all-products-list" (loadProductsTable (some d) dom)
        = (contentOf "all-products-list" dom).map
            (fun _ => Content.rows ((allProducts d.quantumData).map productRow))
    ∧ allProducts d.quantumData
        = ((arraySort (fun a b => (a.1 : ℚ) - (b.1 : ℚ)) (indexProps d.quantumData.categories)).map
              Prod.snd
            ++ (d.quantumData.categories.filter (fun kv => (arrayIndex? kv.1).isNone)).map
              Prod.snd).flatMap Category.products
    ∧ (arraySort (fun a b => (a.1 : ℚ) - (b.1 : ℚ)) (indexProps d.quantumData.categories)).Pairwise
        (fun x y => x.1 ≤ y.1)
    ∧ (arraySort (fun a b => (a.1 : ℚ) - (b.1 : ℚ)) (indexProps d.quantumData.categories)).Perm
        (d.quantumData.categories.filterMap
          (fun kv => (arrayIndex? kv.1).map (fun n => (n, kv.2))))
    ∧ (allProducts d.quantumData).Perm
        ((d.quantumData.categories.map Prod.snd).flatMap Category.products)
    ∧ ((∀ kv ∈ d.quantumData.categories, arrayIndex? kv.1 = none) →
        allProducts d.quantumData
          = (d.quantumData.categories.map Prod.snd).flatMap Category.products) := by
  refine ⟨contentOf_loadProductsTable_self d dom, ?_, sorted_indexProps_pairwise _,
    arraySort_perm _ _, ?_, ?_⟩
  · rw [allProducts_eq]
    rfl
  · rw [allProducts_eq]
    exact (objectValues_perm _).flatMap_right _
  · intro h
    rw [allProducts_eq, objectValues_of_no_index _ h]

/-- No category name of `dataAB` is an array index, and its table is in
document order. -/
theorem loadProductsTable_rows_in_enumeration_order_witness :
    (∀ kv ∈ dataAB.quantumData.categories, arrayIndex? kv.1 = none)
    ∧ allProducts dataAB.quantumData
        = (dataAB.quantumData.categories.map Prod.snd).flatMap Category.products :=
  ⟨by with_unfolding_all decide,
    (loadProductsTable_rows_in_enumeration_order dataAB domPanel).2.2.2.2.2
      (by with_unfolding_all decide)⟩

/-! ## Sections and navigation -/

theorem getElementById_map (id : String) (g : Element → Element)
    (hg : ∀ e, (g e).id = e.id) (dom : Dom) :
    getElementById id (dom.map g) = (getElementById id dom).map g := by
  unfold getElementById
  rw [List.find?_map]
  have hp : ((fun e : Element => e.id == id) ∘ g) = (fun e : Element => e.id == id) := by
    funext e
    simp [Function.comp, hg]
  rw [hp]

theorem getElementById_hideSections (id : String) (dom : Dom) :
    getElementById id (hideSections dom)
      = (getElementById id dom).map
          (fun e => if "admin-section" ∈ e.classList then { e with display := "none" } else e) := by
  unfold hideSections
  exact getElementById_map id _ (fun e => by split <;> rfl) dom

theorem visibleSectionIds_hideSections (dom : Dom) :
    visibleSectionIds (hideSections dom) = [] := by
  induction dom with
  | nil => rfl
  | cons x xs ih =>
    unfold visibleSectionIds hideSections at ih ⊢
    rw [List.map_cons, List.filter_cons]
    by_cases hx : "admin-section" ∈ x.classList
    · simp only [if_pos hx]
      simpa using ih
    · simp only [if_neg hx]
      simpa [hx] using ih

/-- A write that keeps id, classes and display does not change which sections
are visible. -/
theorem visibleSectionIds_modifyById (id : String) (f : Element → Element)
    (h1 : ∀ e, (f e).id = e.id) (h2 : ∀ e, (f e).classList = e.classList)
    (h3 : ∀ e, (f e).display = e.display) (dom : Dom) :
    visibleSectionIds (modifyById id f dom) = visibleSectionIds dom := by
  induction dom with
  | nil => rfl
  | cons x xs ih =>
    unfold modifyById
    unfold visibleSectionIds at ih ⊢
    by_cases hx : (x.id == id) = true
    · rw [if_pos hx]
      simp only [List.filter_cons, h2, h3]
      split <;> simp [h1]
    · rw [if_neg hx]
      simp only [List.filter_cons]
      split
      · simp only [List.map_cons, ih]
      · exact ih

theorem visibleSectionIds_loadProductsTable (data : Option Data) (dom : Dom) :
    visibleSectionIds (loadProductsTable data dom) = visibleSectionIds dom := by
  unfold loadProductsTable
  split
  · next d _ =>
    exact visibleSectionIds_modifyById "all-products-list"
      (fun e => { e with content := .rows ((allProducts d.quantumData).map productRow) })
      (fun _ => rfl) (fun _ => rfl) (fun _ => rfl) dom
  · rfl

/-- After hiding all sections and showing the first element with the target id,
that element is the only visible section, provided it is a section. -/
theorem visibleSectionIds_show (id : String) (e : Element) (dom : Dom)
    (he : getElementById id dom = some e) (hs : "admin-section" ∈ e.classList) :
    visibleSectionIds (modifyById id (fun e => { e with display := "block" }) (hideSections dom))
      = [id] := by
  induction dom with
  | nil => simp [getElementById] at he
  | cons x xs ih =>
    have hh : hideSections (x :: xs)
        = (if "admin-section" ∈ x.classList then { x with display := "none" } else x)
            :: hideSections xs := rfl
    rw [hh]
    unfold getElementById at he ih
    rw [List.find?_cons] at he
    by_cases hx : (x.id == id) = true
    · rw [hx] at he
      have hxe : x = e := by simpa using he
      subst hxe
      have hid : x.id = id := by simpa using hx
      unfold modifyById
      simp only [if_pos hs, hx, if_true]
      have ht := visibleSectionIds_hideSections xs
      unfold visibleSectionIds at ht ⊢
      rw [List.filter_cons]
      simp [hs, ht, hid]
    · have hx' : (x.id == id) = false := by simpa using hx
      rw [hx'] at he
      have ih' := ih he
      unfold modifyById
      have hid : ((if "admin-section" ∈ x.classList then { x with display := "none" } else x).id
          == id) = false := by
        split <;> exact hx'
      rw [hid]
      simp only [Bool.false_eq_true, if_false]
      unfold visibleSectionIds at ih' ⊢
      rw [List.filter_cons]
      by_cases hc : "admin-section" ∈ x.classList
      · simp only [if_pos hc]
        simpa using ih'
      · simp only [if_neg hc]
        simpa [hc] using ih'

/-- Showing an element that is not a section leaves the visible sections as they are. -/
theorem visibleSectionIds_modifyById_other (id : String) (f : Element → Element)
    (h2 : ∀ e, (f e).classList = e.classList) (dom : Dom)
    (hn : hasSection id dom = false) (hex : getElementById id dom ≠ none) :
    visibleSectionIds (modifyById id f dom) = visibleSectionIds dom := by
  induction dom with
  | nil => rfl
  | cons x xs ih =>
    unfold hasSection getElementById at hn
    unfold getElementById at hex ih
    unfold hasSection getElementById at ih
    rw [List.find?_cons] at hn hex
    unfold modifyById
    by_cases hx : (x.id == id) = true
    · rw [hx] at hn
      have hc : "admin-section" ∉ x.classList := by simpa using hn
      rw [if_pos hx]
      unfold visibleSectionIds
      simp [List.filter_cons, h2, hc]
    · have hx' : (x.id == id) = false := by simpa using hx
      rw [hx'] at hn hex
      rw [if_neg hx]
      have ih' := ih hn hex
      unfold visibleSectionIds at ih' ⊢
      simp only [List.filter_cons]
      split
      · simp only [List.map_cons, ih']
      · exact ih'

theorem hasSection_hideSections (id : String) (dom : Dom) :
    hasSection id (hideSections dom) = hasSection id dom := by
  unfold hasSection
  rw [getElementById_hideSections]
  cases getElementById id dom with
  | none => rfl
  | some e =>
    simp only [Option.map_some']
    split <;> rfl

theorem hasSection_modifyById (id id' : String) (f : Element → Element)
    (h1 : ∀ e, (f e).id = e.id) (h2 : ∀ e, (f e).classList = e.classList) (dom : Dom) :
    hasSection id (modifyById id' f dom) = hasSection id dom := by
  unfold hasSection
  rw [getElementById_modifyById id id' f h1 dom]
  by_cases hi : id = id'
  · rw [if_pos hi]
    cases getElementById id dom with
    | none => rfl
    | some e => simp [h2]
  · rw [if_neg hi]

theorem hasSection_loadProductsTable (id : String) (data : Option Data) (dom : Dom) :
    hasSection id (loadProductsTable data dom) = hasSection id dom := by
  unfold loadProductsTable
  split
  · next d _ =>
    exact hasSection_modifyById id "all-products-list"
      (fun e => { e with content := .rows ((allProducts d.quantumData).map productRow) })
      (fun _ => rfl) (fun _ => rfl) dom
  · rfl

/-- The document that `showSection` leaves when the target element exists. -/
theorem showSection_dom_found (data : Option Data) (name : String) (dom : Dom)
    (h : getElementById (name ++ "-section") dom ≠ none) :
    (showSection data name dom).dom =
      if name = "products" then
        loadProductsTable data
          (modifyById (name ++ "-section") (fun e => { e with display := "block" })
            (hideSections dom))
      else
        modifyById (name ++ "-section") (fun e => { e with display := "block" })
          (hideSections dom) := by
  unfold showSection
  simp only []
  have h' : getElementById (name ++ "-section") (hideSections dom) ≠ none := by
    rw [getElementById_hideSections]
    cases hq : getElementById (name ++ "-section") dom with
    | none => exact absurd hq h
    | some e => simp
  cases hq : getElementById (name ++ "-section") (hideSections dom) with
  | none => exact absurd hq h'
  | some e =>
    simp only []
    by_cases hp : name = "products"
    · simp [hp]
    · by_cases ha : name = "analytics"
      · simp [hp, ha, loadAnalytics]
      · simp [hp, ha]

theorem showSection_dom_missing (data : Option Data) (name : String) (dom : Dom)
    (h : getElementById (name ++ "-section") dom = none) :
    (showSection data name dom).dom = hideSections dom := by
  unfold showSection
  simp only []
  have h' : getElementById (name ++ "-section") (hideSections dom) = none := by
    rw [getElementById_hideSections, h]
    rfl
  rw [h']

theorem hasSection_showSection (id : String) (data : Option Data) (name : String) (dom : Dom) :
    hasSection id (showSection data name dom).dom = hasSection id dom := by
  cases hq : getElementById (name ++ "-section") dom with
  | none => rw [showSection_dom_missing data name dom hq, hasSection_hideSections]
  | some e =>
    rw [showSection_dom_found data name dom (by rw [hq]; simp)]
    have hm := hasSection_modifyById id (name ++ "-section")
      (fun e => { e with display := "block" }) (fun _ => rfl) (fun _ => rfl) (hideSections dom)
    split
    · rw [hasSection_loadProductsTable, hm, hasSection_hideSections]
    · rw [hm, hasSection_hideSections]

theorem visibleSectionIds_showSection_found (data : Option Data) (name : String) (dom : Dom)
    (h : hasSection (name ++ "-section") dom = true) :
    visibleSectionIds (showSection data name dom).dom = [name ++ "-section"] := by
  unfold hasSection at h
  cases hq : getElementById (name ++ "-section") dom with
  | none => rw [hq] at h; simp at h
  | some e =>
    rw [hq] at h
    have hs : "admin-section" ∈ e.classList := by simpa using h
    rw [showSection_dom_found data name dom (by rw [hq]; simp)]
    split
    · rw [visibleSectionIds_loadProductsTable]
      exact visibleSectionIds_show _ e dom hq hs
    · exact visibleSectionIds_show _ e dom hq hs

theorem visibleSectionIds_showSection_other (data : Option Data) (name : String) (dom : Dom)
    (h : hasSection (name ++ "-section") dom = false) :
    visibleSectionIds (showSection data name dom).dom = [] := by
  cases hq : getElementById (name ++ "-section") dom with
  | none => rw [showSection_dom_missing data name dom hq, visibleSectionIds_hideSections]
  | some e =>
    have hex : getElementById (name ++ "-section") dom ≠ none := by rw [hq]; simp
    have hex' : getElementById (name ++ "-section") (hideSections dom) ≠ none := by
      rw [getElementById_hideSections, hq]; simp
    have hn : hasSection (name ++ "-section") (hideSections dom) = false := by
      rw [hasSection_hideSections]; exact h
    have hm := visibleSectionIds_modifyById_other (name ++ "-section")
      (fun e => { e with display := "block" }) (fun _ => rfl) (hideSections dom) hn hex'
    rw [showSection_dom_found data name dom hex]
    split
    · rw [visibleSectionIds_loadProductsTable, hm, visibleSectionIds_hideSections]
    · rw [hm, visibleSectionIds_hideSections]

/-- C9 (counterexample): the page `domPanel` has no element with id
`settings-section`; after `showSection("settings")` no admin section is visible. -/
theorem showSection_unknown_section_shows_none :
    hasSection ("settings" ++ "-section") domPanel = false
    ∧ visibleSectionIds domPanel = ["dashboard-section"]
    ∧ visibleSectionIds (showSection (some dataAB) "settings" domPanel).dom = []
    ∧ (visibleSectionIds (showSection (some dataAB) "settings" domPanel).dom).length ≠ 1 := by
  refine ⟨?_, ?_, ?_, ?_⟩ <;> with_unfolding_all decide

/-- C9 (amended): when the first element with id `{name}-section` exists and is
an admin section, the document after `showSection` has exactly one visible
admin section, that element, and all others are hidden; for any other section
identifier all admin sections are hidden.  On a page that has the sections of
`products` and `analytics`, activating `products` and then `analytics` leaves
exactly one section visible after each activation. -/
theorem showSection_shows_only_target (data : Option Data) (name : String) (dom : Dom) :
    (hasSection (name ++ "-section") dom = true →
        visibleSectionIds (showSection data name dom).dom = [name ++ "-section"])
    ∧ (hasSection (name ++ "-section") dom = false →
        visibleSectionIds (showSection data name dom).dom = [])
    ∧ (hasSection "products-section" dom = true → hasSection "analytics-section" dom = true →
        visibleSectionIds (showSection data "products" dom).dom = ["products-section"]
        ∧ visibleSectionIds
            (showSection data "analytics" (showSection data "products" dom).dom).dom
          = ["analytics-section"]) := by
  refine ⟨visibleSectionIds_showSection_found data name dom,
    visibleSectionIds_showSection_other data name dom, ?_⟩
  intro hp ha
  refine ⟨visibleSectionIds_showSection_found data "products" dom hp, ?_⟩
  refine visibleSectionIds_showSection_found data "analytics" _ ?_
  show hasSection "analytics-section" (showSection data "products" dom).dom = true
  rw [hasSection_showSection]
  exact ha

/-- On `domPanel`: `products` shows its section alone, `settings` shows none,
and `analytics` after `products` shows its section alone. -/
theorem showSection_shows_only_target_witness :
    (hasSection ("products" ++ "-section") domPanel = true
      ∧ visibleSectionIds (showSection (some dataAB) "products" domPanel).dom
          = ["products" ++ "-section"])
    ∧ (hasSection ("settings" ++ "-section") domPanel = false
      ∧ visibleSectionIds (showSection (some dataAB) "settings" domPanel).dom = [])
    ∧ (hasSection "analytics-section" domPanel = true
      ∧ visibleSectionIds
          (showSection (some dataAB) "analytics"
            (showSection (some dataAB) "products" domPanel).dom).dom
        = ["analytics-section"]) :=
  ⟨⟨by with_unfolding_all decide,
      (showSection_shows_only_target (some dataAB) "products" domPanel).1
        (by with_unfolding_all decide)⟩,
    ⟨by with_unfolding_all decide,
      (showSection_shows_only_target (some dataAB) "settings" domPanel).2.1
        (by with_unfolding_all decide)⟩,
    ⟨by with_unfolding_all decide,
      ((showSection_shows_only_target (some dataAB) "products" domPanel).2.2
        (by with_unfolding_all decide) (by with_unfolding_all decide)).2⟩⟩

/-- C10 (failing input): on the page `domPanel`, whose first navigation entry
is active, a click on the `analytics` entry (position 2) raises in
`showSection`, at the call of the undefined `loadAnalytics`, before the active
state is updated: the first entry stays the only active one and the clicked
entry is not marked.  A click on the `products` entry (position 1) marks
exactly that entry. -/
theorem navClick_analytics_leaves_old_entry_active :
    (navClick (some dataAB) 2 domPanel).raised
        = some (.typeError "this.loadAnalytics is not a function")
    ∧ activeNavItems domPanel = [0]
    ∧ activeNavItems (navClick (some dataAB) 2 domPanel).dom = [0]
    ∧ visibleSectionIds (navClick (some dataAB) 2 domPanel).dom = ["analytics-section"]
    ∧ (navClick (some dataAB) 1 domPanel).raised = none
    ∧ activeNavItems (navClick (some dataAB) 1 domPanel).dom = [1] := by
  refine ⟨?_, ?_, ?_, ?_, ?_, ?_⟩ <;> with_unfolding_all decide

/-! ## The active navigation entry -/

theorem classList_modifyById (id : String) (f : Element → Element)
    (h : ∀ e, (f e).classList = e.classList) (dom : Dom) :
    (modifyById id f dom).map (fun e => e.classList) = dom.map (fun e => e.classList) := by
  induction dom with
  | nil => rfl
  | cons x xs ih =>
    unfold modifyById
    split
    · simp [h]
    · simp only [List.map_cons, ih]

theorem classList_hideSections (dom : Dom) :
    (hideSections dom).map (fun e => e.classList) = dom.map (fun e => e.classList) := by
  induction dom with
  | nil => rfl
  | cons x xs ih =>
    have hh : hideSections (x :: xs)
        = (if "admin-section" ∈ x.classList then { x with display := "none" } else x)
            :: hideSections xs := rfl
    rw [hh, List.map_cons, List.map_cons, ih]
    congr 1
    split <;> rfl

theorem classList_loadProductsTable (data : Option Data) (dom : Dom) :
    (loadProductsTable data dom).map (fun e => e.classList) = dom.map (fun e => e.classList) := by
  unfold loadProductsTable
  split
  · next d _ =>
    exact classList_modifyById "all-products-list"
      (fun e => { e with content := .rows ((allProducts d.quantumData).map productRow) })
      (fun _ => rfl) dom
  · rfl

/-- The calls made by `showSection` change no class list. -/
theorem classList_showSection (data : Option Data) (name : String) (dom : Dom) :
    (showSection data name dom).dom.map (fun e => e.classList)
      = dom.map (fun e => e.classList) := by
  cases hq : getElementById (name ++ "-section") dom with
  | none => rw [showSection_dom_missing data name dom hq, classList_hideSections]
  | some e =>
    rw [showSection_dom_found data name dom (by rw [hq]; simp)]
    have hm := classList_modifyById (name ++ "-section")
      (fun e => { e with display := "block" }) (fun _ => rfl) (hideSections dom)
    split
    · rw [classList_loadProductsTable, hm, classList_hideSections]
    · rw [hm, classList_hideSections]

theorem activeNavItemsFrom_cleared (k : Nat) (dom : Dom) :
    activeNavItemsFrom k
      (dom.map (fun e => if "admin-nav-item" ∈ e.classList then removeActive e else e)) = [] := by
  induction dom generalizing k with
  | nil => rfl
  | cons x xs ih =>
    rw [List.map_cons]
    unfold activeNavItemsFrom
    rw [if_neg, ih]
    intro h
    by_cases hx : "admin-nav-item" ∈ x.classList
    · rw [if_pos hx] at h
      have := h.2
      simp [removeActive] at this
    · rw [if_neg hx] at h
      exact hx h.1

theorem activeNavItemsFrom_marked (k i : Nat) (dom : Dom) (classes : List String)
    (hi : (dom.map (fun e => e.classList)).get? i = some classes)
    (hn : "admin-nav-item" ∈ classes) :
    activeNavItemsFrom k (modifyAt addActive i
      (dom.map (fun e => if "admin-nav-item" ∈ e.classList then removeActive e else e)))
      = [k + i] := by
  induction dom generalizing k i with
  | nil => simp at hi
  | cons x xs ih =>
    rw [List.map_cons]
    cases i with
    | zero =>
      have hx : x.classList = classes := by simpa using hi
      have hx' : "admin-nav-item" ∈ x.classList := hx ▸ hn
      unfold modifyAt activeNavItemsFrom
      rw [if_pos hx', if_pos, activeNavItemsFrom_cleared]
      · rfl
      · unfold addActive
        split
        · next ha => exact ⟨by simpa [removeActive] using hx', ha⟩
        · exact ⟨by simpa [removeActive] using hx', by simp⟩
    | succ j =>
      have hj : (xs.map (fun e => e.classList)).get? j = some classes := by simpa using hi
      unfold modifyAt activeNavItemsFrom
      rw [if_neg, ih (k + 1) j hj]
      · congr 1
        omega
      · intro h
        by_cases hx : "admin-nav-item" ∈ x.classList
        · rw [if_pos hx] at h
          have := h.2
          simp [removeActive] at this
        · rw [if_neg hx] at h
          exact hx h.1

/-- When the click handler of a navigation entry completes, the clicked entry
is the only one that carries the class `active`. -/
theorem navClick_marks_clicked_entry (data : Option Data) (i : Nat) (dom : Dom) (item : Element)
    (h1 : dom.get? i = some item) (h2 : "admin-nav-item" ∈ item.classList)
    (h3 : (navClick data i dom).raised = none) :
    activeNavItems (navClick data i dom).dom = [i] := by
  unfold navClick at h3 ⊢
  rw [h1] at h3 ⊢
  simp only [if_pos h2] at h3 ⊢
  cases hr : (showSection data (item.datasetSection.getD "undefined") dom).raised with
  | some err =>
    rw [hr] at h3
    simp at h3
  | none =>
    simp only []
    have hc := classList_showSection data (item.datasetSection.getD "undefined") dom
    have hi : ((showSection data (item.datasetSection.getD "undefined") dom).dom.map
        (fun e => e.classList)).get? i = some item.classList := by
      rw [hc, List.get?_eq_getElem?, List.getElem?_map, ← List.get?_eq_getElem?, h1]
      rfl
    have := activeNavItemsFrom_marked 0 i _ item.classList hi h2
    simpa [activeNavItems] using this

/-! ## Loading -/

/-- The load fails exactly when one of the three promises rejects. -/
theorem promiseAll_error_iff (fetched : Fetched) :
    (∃ err, promiseAll fetched = .error err)
      ↔ ((∃ err, fetched.quantumData = .error err) ∨ (∃ err, fetched.analyticsData = .error err)
          ∨ (∃ err, fetched.healthData = .error err)) := by
  unfold promiseAll
  cases hq : fetched.quantumData with
  | error e => simp [bind, Except.bind]
  | ok q =>
    cases ha : fetched.analyticsData with
    | error e => simp [bind, Except.bind]
    | ok a =>
      cases hh : fetched.healthData with
      | error e => simp [bind, Except.bind]
      | ok h => simp [bind, Except.bind, pure, Except.pure]

/-- C11 (counterexample): a reload, as made by `runAnalysis`, in which the
analytics document fails leaves the previously loaded object in `this.data`,
which is not null. -/
theorem loadData_failed_reload_keeps_data :
    (∃ err, fetchedAnalyticsFails.analyticsData = .error err)
    ∧ (loadData fetchedAnalyticsFails adminLoaded).data = some dataObjectAB
    ∧ (loadData fetchedAnalyticsFails adminLoaded).data ≠ none
    ∧ (runAnalysis blankHost (.ok true) fetchedAnalyticsFails adminLoaded).data
        = some dataObjectAB := by
  refine ⟨⟨_, rfl⟩, rfl, ?_, rfl⟩
  intro h
  cases h

/-- C11 (amended): when at least one of the three fetches or parses fails,
`loadData` assigns nothing: `this.data` keeps the value it had before the call,
so no subset of the documents is stored, the failure is logged, and the rest
of the state is untouched, nothing being raised to the caller.  `this.data`
is null after the load made by `init`, which starts from null, and is the
previously loaded object after a reload made by `runAnalysis`. -/
theorem loadData_failure_assigns_nothing (fetched : Fetched) (s : Admin) (dom : Dom)
    (host : Host)
    (h : (∃ err, fetched.quantumData = .error err) ∨ (∃ err, fetched.analyticsData = .error err)
          ∨ (∃ err, fetched.healthData = .error err)) :
    loadData fetched s = { s with console := s.console ++ ["Failed to load data:"] }
    ∧ (loadData fetched s).data = s.data
    ∧ (init fetched dom).1.data = none
    ∧ (runAnalysis host (.ok true) fetched s).data = s.data := by
  obtain ⟨err, herr⟩ := (promiseAll_error_iff fetched).mpr h
  have h1 : ∀ t : Admin,
      loadData fetched t = { t with console := t.console ++ ["Failed to load data:"] } := by
    intro t
    unfold loadData
    rw [herr]
  refine ⟨h1 s, ?_, ?_, ?_⟩
  · rw [h1]
  · unfold init
    rw [h1]
    rfl
  · unfold runAnalysis
    simp only [h1]
    split <;> rfl

/-- The load of `adminLoaded` fails on the analytics document and keeps the data. -/
theorem loadData_failure_assigns_nothing_witness :
    ((∃ err, fetchedAnalyticsFails.quantumData = .error err)
        ∨ (∃ err, fetchedAnalyticsFails.analyticsData = .error err)
        ∨ (∃ err, fetchedAnalyticsFails.healthData = .error err))
    ∧ (loadData fetchedAnalyticsFails adminLoaded).data = adminLoaded.data
    ∧ (init fetchedAnalyticsFails domPanel).1.data = none :=
  ⟨Or.inr (Or.inl ⟨_, rfl⟩),
    (loadData_failure_assigns_nothing fetchedAnalyticsFails adminLoaded domPanel blankHost
      (Or.inr (Or.inl ⟨_, rfl⟩))).2.1,
    (loadData_failure_assigns_nothing fetchedAnalyticsFails adminLoaded domPanel blankHost
      (Or.inr (Or.inl ⟨_, rfl⟩))).2.2.1⟩

/-! ## Absent data and empty statistics -/

/-- C12: when `this.data` is null, `updateMetrics`, `loadTopProducts` and
`loadProductsTable` return the document they were given, so that every
element keeps its content, and `updateMetrics` raises nothing; this holds for
the four metric elements and the two listing containers in particular. -/
theorem absent_data_renders_nothing (host : Host) (dom : Dom) (id : String) :
    updateMetrics host none dom = ⟨dom, none⟩
    ∧ loadTopProducts none dom = dom
    ∧ loadProductsTable none dom = dom
    ∧ contentOf id (updateMetrics host none dom).dom = contentOf id dom
    ∧ contentOf id (loadTopProducts none dom) = contentOf id dom
    ∧ contentOf id (loadProductsTable none dom) = contentOf id dom
    ∧ (perform host .updateMetrics (Admin.initial dom)).dom = dom := by
  have h1 : loadTopProducts none dom = dom := by
    unfold loadTopProducts
    split
    · next h => cases h
    · rfl
  have h2 : loadProductsTable none dom = dom := by
    unfold loadProductsTable
    split
    · next h => cases h
    · rfl
  refine ⟨rfl, h1, h2, rfl, by rw [h1], by rw [h2], rfl⟩

/-- C13: with an empty `daily_stats` array `conversionRate` is the number 0,
not a string from `toFixed` such as "NaN"; `updateMetrics` raises nothing and
writes "0%" to `conversion-rate`. -/
theorem conversionRate_zero_on_empty_stats (host : Host) (q : QuantumData)
    (revenue : Option (List RevenuePoint)) (dom : Dom) :
    conversionRate host ⟨revenue, some []⟩ = .ok .zero
    ∧ ConversionRate.zero.percent = "0%"
    ∧ (updateMetrics host (some ⟨q, ⟨revenue, some []⟩⟩) dom).raised = none
    ∧ contentOf "conversion-rate" (updateMetrics host (some ⟨q, ⟨revenue, some []⟩⟩) dom).dom
        = (contentOf "conversion-rate" dom).map (fun _ => Content.text "0%") := by
  refine ⟨?_, rfl, ?_, ?_⟩
  · rw [conversionRate_eq]
    rfl
  · rw [updateMetrics_loaded]
  · rw [updateMetrics_loaded]
    simp only []
    rw [contentOf_loadTopProducts _ _ _ (by decide), contentOf_updateMetric, if_pos rfl,
      contentOf_updateMetric, if_neg (by decide), contentOf_updateMetric, if_neg (by decide),
      contentOf_updateMetric, if_neg (by decide)]
    rfl

/-! ## Repeated writes -/

theorem modifyById_of_not_found (id : String) (f : Element → Element) (dom : Dom)
    (h : getElementById id dom = none) : modifyById id f dom = dom := by
  induction dom with
  | nil => rfl
  | cons x xs ih =>
    unfold getElementById at h ih
    rw [List.find?_cons] at h
    unfold modifyById
    cases hx : (x.id == id) with
    | true => rw [hx] at h; cases h
    | false =>
      rw [hx] at h
      simp only [Bool.false_eq_true, if_false]
      rw [ih h]

theorem updateMetric_eq_setContent (id value : String) (dom : Dom) :
    updateMetric id value dom = setContent id (.text value) dom := by
  unfold updateMetric setContent
  cases h : getElementById id dom with
  | none => rw [modifyById_of_not_found id _ dom h]
  | some e => rfl

theorem loadTopProducts_eq_setContent (d : Data) (dom : Dom) :
    loadTopProducts (some d) dom
      = setContent "top-products-list" (.rows ((topProducts d.quantumData).map productRow)) dom := by
  unfold loadTopProducts setContent
  cases h : getElementById "top-products-list" dom with
  | none => rw [modifyById_of_not_found _ _ dom h]
  | some e => rfl

/-- A write changes nothing but the content. -/
theorem writeStep_fields (e : Element) (w : String × Content) :
    (writeStep e w).id = e.id ∧ (writeStep e w).classList = e.classList
      ∧ (writeStep e w).display = e.display
      ∧ (writeStep e w).datasetSection = e.datasetSection := by
  unfold writeStep
  split <;> exact ⟨rfl, rfl, rfl, rfl⟩

theorem lastWrite_fields (ws : List (String × Content)) (e : Element) :
    (lastWrite ws e).id = e.id ∧ (lastWrite ws e).classList = e.classList
      ∧ (lastWrite ws e).display = e.display
      ∧ (lastWrite ws e).datasetSection = e.datasetSection := by
  induction ws generalizing e with
  | nil => exact ⟨rfl, rfl, rfl, rfl⟩
  | cons w ws ih =>
    have h1 := ih (writeStep e w)
    have h2 := writeStep_fields e w
    show (lastWrite ws (writeStep e w)).id = e.id ∧ _
    exact ⟨h1.1.trans h2.1, h1.2.1.trans h2.2.1, h1.2.2.1.trans h2.2.2.1,
      h1.2.2.2.trans h2.2.2.2⟩

theorem lastWrite_id (ws : List (String × Content)) (e : Element) :
    (lastWrite ws e).id = e.id := (lastWrite_fields ws e).1

theorem element_eq (a b : Element) (h1 : a.id = b.id) (h2 : a.classList = b.classList)
    (h3 : a.display = b.display) (h4 : a.datasetSection = b.datasetSection)
    (h5 : a.content = b.content) : a = b := by
  cases a
  cases b
  simp only [Element.mk.injEq]
  exact ⟨h1, h2, h3, h4, h5⟩

/-- The writes reach the head of the document directly; the tail receives the
writes that address another id. -/
theorem writeAll_cons (ws : List (String × Content)) (x : Element) (xs : Dom) :
    writeAll ws (x :: xs)
      = lastWrite ws x :: writeAll (ws.filter (fun w => !(x.id == w.1))) xs := by
  induction ws generalizing x xs with
  | nil => rfl
  | cons w ws ih =>
    show writeAll ws (setContent w.1 w.2 (x :: xs)) = _
    have hl : lastWrite (w :: ws) x = lastWrite ws (writeStep x w) := rfl
    rw [hl]
    unfold setContent modifyById writeStep
    cases hx : (x.id == w.1) with
    | true =>
      simp only [if_true]
      rw [ih]
      simp only [List.filter_cons, hx, Bool.not_true, Bool.false_eq_true, if_false]
    | false =>
      simp only [Bool.false_eq_true, if_false]
      rw [ih]
      simp only [List.filter_cons, hx, Bool.not_false, if_true]
      rfl

theorem lastWrite_idem (ws : List (String × Content)) (e : Element) :
    lastWrite ws (lastWrite ws e) = lastWrite ws e := by
  induction ws using List.reverseRecOn generalizing e with
  | nil => rfl
  | append_singleton ws w ih =>
    have step : ∀ e' : Element, lastWrite (ws ++ [w]) e' = writeStep (lastWrite ws e') w := by
      intro e'
      unfold lastWrite
      rw [List.foldl_append]
      rfl
    rw [step e, step]
    by_cases hm : (e.id == w.1) = true
    · have f1 := lastWrite_fields ws e
      have f2 := writeStep_fields (lastWrite ws e) w
      have f3 := lastWrite_fields ws (writeStep (lastWrite ws e) w)
      have f4 := writeStep_fields (lastWrite ws (writeStep (lastWrite ws e) w)) w
      have c1 : ∀ y : Element, y.id = e.id → (writeStep y w).content = w.2 := by
        intro y hy
        unfold writeStep
        rw [hy, hm]
        rfl
      refine element_eq _ _ (f4.1.trans f3.1) (f4.2.1.trans f3.2.1) (f4.2.2.1.trans f3.2.2.1)
        (f4.2.2.2.trans f3.2.2.2) ?_
      rw [c1 _ (f3.1.trans (f2.1.trans f1.1)), c1 _ f1.1]
    · have hm' : (e.id == w.1) = false := by simpa using hm
      have n1 : ∀ y : Element, y.id = e.id → writeStep y w = y := by
        intro y hy
        unfold writeStep
        rw [hy, hm']
        rfl
      rw [n1 _ (lastWrite_id ws e), n1 _ ((lastWrite_id ws _).trans (lastWrite_id ws e))]
      exact ih e

/-- Writing the same sequence a second time changes nothing. -/
theorem writeAll_idem (ws : List (String × Content)) (dom : Dom) :
    writeAll ws (writeAll ws dom) = writeAll ws dom := by
  induction dom generalizing ws with
  | nil =>
    have hnil : ∀ vs : List (String × Content), writeAll vs [] = [] := by
      intro vs
      induction vs with
      | nil => rfl
      | cons v vs ih => exact ih
    rw [hnil, hnil]
  | cons x xs ih =>
    rw [writeAll_cons, writeAll_cons, lastWrite_id, lastWrite_idem, ih]

/-- The document that `updateMetrics` leaves is the document after five writes. -/
theorem updateMetrics_writes (host : Host) (d : Data) :
    ∃ ws : List (String × Content), ∀ dom : Dom,
      (updateMetrics host (some d) dom).dom = writeAll ws dom := by
  refine ⟨[("total-products", .text (host.toLocaleString (totals d.quantumData).totalProducts)),
    ("avg-quantum-score", .text (avgQuantumScore host d.quantumData)),
    ("monthly-revenue", .text ("€" ++ host.toLocaleString
      (orZero ((d.analyticsData.revenue_data.bind List.getLast?).bind (fun r => r.revenue))))),
    ("conversion-rate", .text
      (match d.analyticsData.daily_stats.bind List.getLast? with
        | some s => ConversionRate.fixed (toFixed host 2 (conversionPercent s))
        | none => ConversionRate.zero).percent),
    ("top-products-list", .rows ((topProducts d.quantumData).map productRow))], ?_⟩
  intro dom
  rw [updateMetrics_loaded]
  simp only [loadTopProducts_eq_setContent, updateMetric_eq_setContent]
  rfl

/-! ## The refresh tick -/

/-- C15: a second `updateMetrics` on the same data leaves the whole document,
hence the text of `total-products`, `avg-quantum-score`, `monthly-revenue` and
`conversion-rate` and the rows of `top-products-list`, exactly as the first one
left it, and again raises nothing; the state of the panel after two calls is
the state after one. -/
theorem updateMetrics_idempotent (host : Host) (d : Data) (dom : Dom) (s : Admin) (id : String) :
    updateMetrics host (some d) (updateMetrics host (some d) dom).dom
        = updateMetrics host (some d) dom
    ∧ contentOf id (updateMetrics host (some d) (updateMetrics host (some d) dom).dom).dom
        = contentOf id (updateMetrics host (some d) dom).dom
    ∧ perform host .updateMetrics (perform host .updateMetrics s)
        = perform host .updateMetrics s := by
  have key : ∀ (dt : Option Data) (dm : Dom),
      updateMetrics host dt (updateMetrics host dt dm).dom = updateMetrics host dt dm := by
    intro dt dm
    cases dt with
    | none => rfl
    | some d' =>
      obtain ⟨ws, hws⟩ := updateMetrics_writes host d'
      have h1 : ∀ dm' : Dom, updateMetrics host (some d') dm'
          = ⟨(updateMetrics host (some d') dm').dom, none⟩ := by
        intro dm'
        rw [updateMetrics_loaded]
      rw [h1 (updateMetrics host (some d') dm).dom, h1 dm, hws, hws, writeAll_idem]
  refine ⟨key _ _, by rw [key], ?_⟩
  show ({ (perform host .updateMetrics s) with
      dom := (updateMetrics host (perform host .updateMetrics s).panelData
        (perform host .updateMetrics s).dom).dom } : Admin) = _
  have hp : (perform host .updateMetrics s).panelData = s.panelData := rfl
  have hd : (perform host .updateMetrics s).dom = (updateMetrics host s.panelData s.dom).dom := rfl
  rw [hp, hd, key]
  rfl

/-! ## The CSS minifier -/

/-- C16 (failing input): in `//* x */* y */` the only match of the comment
pattern is `/* x */`; deleting it joins the `/` before it with the `*` after
it, and the minified text is the comment `/* y */`. -/
theorem optimizeCSS_leaves_comment :
    removeCommentsFrom false "//* x */* y */".data = "/* y */".data
    ∧ optimizeCSS "//* x */* y */" = "/* y */"
    ∧ hasComment (optimizeCSS "//* x */* y */").data = true
    ∧ optimizeCSS "a{color:red; /* c */ }" = "a{color:red}"
    ∧ hasComment (optimizeCSS "a{color:red; /* c */ }").data = false := by
  refine ⟨?_, ?_, ?_, ?_, ?_⟩ <;> decide

/-! ## Double arithmetic -/

theorem log2Fuel_spec (fuel n : Nat) (hn : 0 < n) (hf : n ≤ fuel) :
    2 ^ log2Fuel fuel n ≤ n ∧ n < 2 ^ (log2Fuel fuel n + 1) := by
  induction fuel generalizing n with
  | zero => omega
  | succ fuel ih =>
    unfold log2Fuel
    by_cases h2 : n < 2
    · rw [if_pos h2]
      have : n = 1 := by omega
      subst this
      exact ⟨by norm_num, by norm_num⟩
    · rw [if_neg h2]
      obtain ⟨h1, h3⟩ := ih (n / 2) (by omega) (by omega)
      rw [pow_succ, pow_succ] at *
      constructor <;> omega

theorem natLog2_spec (n : Nat) (hn : 0 < n) :
    2 ^ natLog2 n ≤ n ∧ n < 2 ^ (natLog2 n + 1) :=
  log2Fuel_spec n n hn (le_refl n)

theorem pow2_eq (e : ℤ) : pow2 e = (2 : ℚ) ^ e := by
  unfold pow2
  by_cases h : 0 ≤ e
  · rw [if_pos h]
    obtain ⟨k, rfl⟩ := Int.eq_ofNat_of_zero_le h
    simp
  · rw [if_neg h]
    have hneg : 0 ≤ -e := by omega
    obtain ⟨k, hk⟩ := Int.eq_ofNat_of_zero_le hneg
    have he : e = -(k : ℤ) := by omega
    rw [hk, he]
    simp

theorem pow2_pos (e : ℤ) : 0 < pow2 e := by
  rw [pow2_eq]
  positivity

/-- The binary exponent brackets a positive rational. -/
theorem exponent_spec (a : ℚ) (ha : 0 < a) :
    pow2 (exponent a) ≤ a ∧ a < pow2 (exponent a + 1) := by
  have hnum : 0 < a.num := Rat.num_pos.mpr ha
  have hp : 0 < a.num.natAbs := Int.natAbs_pos.mpr (ne_of_gt hnum)
  have hd : 0 < a.den := a.den_pos
  obtain ⟨p1, p2⟩ := natLog2_spec a.num.natAbs hp
  obtain ⟨d1, d2⟩ := natLog2_spec a.den hd
  have hcast : a = (a.num.natAbs : ℚ) / (a.den : ℚ) := by
    have h1 : ((a.num.natAbs : ℤ) : ℚ) = (a.num : ℚ) := by
      rw [Int.natAbs_of_nonneg hnum.le]
    have h2 : ((a.num.natAbs : ℕ) : ℚ) = ((a.num.natAbs : ℤ) : ℚ) := (Int.cast_natCast _).symm
    rw [h2, h1]
    exact (Rat.num_div_den a).symm
  have hdq : (0 : ℚ) < (a.den : ℚ) := by exact_mod_cast hd
  have P1 : ((2 : ℚ) ^ natLog2 a.num.natAbs) ≤ (a.num.natAbs : ℚ) := by exact_mod_cast p1
  have P2 : (a.num.natAbs : ℚ) < (2 : ℚ) ^ (natLog2 a.num.natAbs + 1) := by exact_mod_cast p2
  have D1 : ((2 : ℚ) ^ natLog2 a.den) ≤ (a.den : ℚ) := by exact_mod_cast d1
  have D2 : (a.den : ℚ) < (2 : ℚ) ^ (natLog2 a.den + 1) := by exact_mod_cast d2
  have hlow : (2 : ℚ) ^ ((natLog2 a.num.natAbs : ℤ) - (natLog2 a.den : ℤ) - 1) ≤ a := by
    have e1 : (2 : ℚ) ^ ((natLog2 a.num.natAbs : ℤ) - (natLog2 a.den : ℤ) - 1)
        = (2 : ℚ) ^ natLog2 a.num.natAbs / (2 : ℚ) ^ (natLog2 a.den + 1) := by
      rw [show ((natLog2 a.num.natAbs : ℤ) - (natLog2 a.den : ℤ) - 1)
          = (natLog2 a.num.natAbs : ℤ) - ((natLog2 a.den + 1 : ℕ) : ℤ) by push_cast; ring,
        zpow_sub₀ (by norm_num : (2 : ℚ) ≠ 0), zpow_natCast, zpow_natCast]
    have e2 : (2 : ℚ) ^ natLog2 a.num.natAbs / (2 : ℚ) ^ (natLog2 a.den + 1)
        ≤ (a.num.natAbs : ℚ) / (a.den : ℚ) := by
      rw [div_le_div_iff₀ (by positivity) hdq]
      calc (2 : ℚ) ^ natLog2 a.num.natAbs * (a.den : ℚ)
          ≤ (a.num.natAbs : ℚ) * (a.den : ℚ) := mul_le_mul_of_nonneg_right P1 hdq.le
        _ ≤ (a.num.natAbs : ℚ) * (2 : ℚ) ^ (natLog2 a.den + 1) :=
            mul_le_mul_of_nonneg_left D2.le (by positivity)
    rw [e1]
    exact le_of_le_of_eq e2 hcast.symm
  have hhigh : a < (2 : ℚ) ^ ((natLog2 a.num.natAbs : ℤ) - (natLog2 a.den : ℤ) + 1) := by
    have e1 : (2 : ℚ) ^ ((natLog2 a.num.natAbs : ℤ) - (natLog2 a.den : ℤ) + 1)
        = (2 : ℚ) ^ (natLog2 a.num.natAbs + 1) / (2 : ℚ) ^ natLog2 a.den := by
      rw [show ((natLog2 a.num.natAbs : ℤ) - (natLog2 a.den : ℤ) + 1)
          = ((natLog2 a.num.natAbs + 1 : ℕ) : ℤ) - (natLog2 a.den : ℤ) by push_cast; ring,
        zpow_sub₀ (by norm_num : (2 : ℚ) ≠ 0), zpow_natCast, zpow_natCast]
    have e2 : (a.num.natAbs : ℚ) / (a.den : ℚ)
        < (2 : ℚ) ^ (natLog2 a.num.natAbs + 1) / (2 : ℚ) ^ natLog2 a.den := by
      rw [div_lt_div_iff₀ hdq (by positivity)]
      calc (a.num.natAbs : ℚ) * (2 : ℚ) ^ natLog2 a.den
          ≤ (a.num.natAbs : ℚ) * (a.den : ℚ) := mul_le_mul_of_nonneg_left D1 (by positivity)
        _ < (2 : ℚ) ^ (natLog2 a.num.natAbs + 1) * (a.den : ℚ) :=
            mul_lt_mul_of_pos_right P2 hdq
    rw [e1]
    exact lt_of_eq_of_lt hcast e2
  unfold exponent
  simp only []
  split
  · next h => exact ⟨h, by rw [pow2_eq]; exact hhigh⟩
  · next h =>
    refine ⟨by rw [pow2_eq]; exact hlow, ?_⟩
    rw [sub_add_cancel]
    exact not_le.mp h

/-- Rounding to the nearest integer moves a number by at most one half. -/
theorem roundHalfEven_close (m : ℚ) :
    m - 1 / 2 ≤ (roundHalfEven m : ℚ) ∧ (roundHalfEven m : ℚ) ≤ m + 1 / 2 := by
  have h1 := Int.floor_le m
  have h2 := Int.lt_floor_add_one m
  unfold roundHalfEven
  simp only []
  split
  · constructor <;> linarith
  · next h =>
    split
    · next h' =>
      push_cast
      constructor <;> linarith
    · next h' =>
      have hr : m - (Int.floor m : ℚ) = 1 / 2 := le_antisymm (not_lt.mp h') (not_lt.mp h)
      split
      · constructor <;> linarith
      · push_cast
        constructor <;> linarith

theorem roundHalfEven_nonneg (m : ℚ) (hm : 0 ≤ m) : 0 ≤ roundHalfEven m := by
  have hf : 0 ≤ Int.floor m := Int.floor_nonneg.mpr hm
  unfold roundHalfEven
  simp only []
  split
  · exact hf
  · split
    · omega
    · split <;> omega

/-- The double nearest to a positive real: an infinity, or a non-negative
double that, from the least normal number on, lies within the relative error
`2 ^ -53` below it. -/
theorem roundDouble_pos (q : ℚ) (hq : 0 < q) :
    roundDouble q = .posInf
    ∨ ∃ y : ℚ, roundDouble q = .finite y ∧ 0 ≤ y
        ∧ (pow2 (-1022) ≤ q → q * (1 - pow2 (-53)) ≤ y) := by
  unfold roundDouble
  rw [if_neg (ne_of_gt hq), abs_of_pos hq]
  simp only [if_pos hq]
  split
  · exact Or.inl rfl
  · right
    have hu : 0 < pow2 (max (exponent q) (-1022) - 52) := pow2_pos _
    refine ⟨_, rfl, ?_, ?_⟩
    · have : (0 : ℚ) ≤ (roundHalfEven (q / pow2 (max (exponent q) (-1022) - 52)) : ℚ) := by
        exact_mod_cast roundHalfEven_nonneg _ (div_nonneg hq.le hu.le)
      exact mul_nonneg this hu.le
    · intro hmin
      have hc := (roundHalfEven_close (q / pow2 (max (exponent q) (-1022) - 52))).1
      have hle : pow2 (max (exponent q) (-1022)) ≤ q := by
        rcases max_cases (exponent q) (-1022) with ⟨he, _⟩ | ⟨he, _⟩
        · rw [he]; exact (exponent_spec q hq).1
        · rw [he]; exact hmin
      have hsplit : pow2 (max (exponent q) (-1022) - 52)
          = pow2 (max (exponent q) (-1022)) * pow2 (-53) * 2 := by
        rw [pow2_eq, pow2_eq, pow2_eq, zpow_sub₀ (by norm_num : (2 : ℚ) ≠ 0)]
        norm_num
        ring
      have h53 : 0 < pow2 (-53) := pow2_pos _
      have hy : q - pow2 (max (exponent q) (-1022) - 52) / 2
          ≤ (roundHalfEven (q / pow2 (max (exponent q) (-1022) - 52)) : ℚ)
            * pow2 (max (exponent q) (-1022) - 52) := by
        have := mul_le_mul_of_nonneg_right hc hu.le
        rw [sub_mul, div_mul_cancel₀ _ (ne_of_gt hu)] at this
        linarith
      have hhalf : pow2 (max (exponent q) (-1022) - 52) / 2 ≤ q * pow2 (-53) := by
        rw [hsplit]
        have := mul_le_mul_of_nonneg_right hle h53.le
        linarith
      linarith

/-! ## The counter -/

theorem animateCounterTick_cleared (target : JSNumber) (s : Counter) (h : s.cleared = true) :
    animateCounterTick target s = s := by
  unfold animateCounterTick
  rw [if_pos h]

/-- Once the timer is cleared the state does not change any more. -/
theorem animateCounter_stays (target : JSNumber) (k : Nat)
    (h : (animateCounter target k).cleared = true) (n : Nat) (hn : k ≤ n) :
    animateCounter target n = animateCounter target k := by
  induction n with
  | zero =>
    have : k = 0 := by omega
    rw [this]
  | succ n ih =>
    by_cases hk : k = n + 1
    · rw [hk]
    · have hle : k ≤ n := by omega
      show animateCounterTick target (animateCounter target n) = _
      rw [ih hle, animateCounterTick_cleared target _ h]

/-- A run of the callback on a running timer shows one more number, which is
the floor of the target when the run clears the timer. -/
theorem animateCounterTick_shown (target : JSNumber) (s : Counter) (h : s.cleared = false) :
    (animateCounterTick target s).shown.length = s.shown.length + 1
    ∧ ((animateCounterTick target s).cleared = true →
        (animateCounterTick target s).shown = s.shown ++ [jsFloor target]) := by
  unfold animateCounterTick
  simp only [h, Bool.false_eq_true, if_false]
  split
  · exact ⟨by simp, fun _ => rfl⟩
  · refine ⟨by simp, ?_⟩
    intro hc
    cases hc

theorem animateCounter_running_before (target : JSNumber) (j : Nat)
    (h : (animateCounter target j).cleared = false) (i : Nat) (hi : i ≤ j) :
    (animateCounter target i).cleared = false := by
  cases hc : (animateCounter target i).cleared with
  | false => rfl
  | true =>
    rw [animateCounter_stays target i hc j hi, hc] at h
    cases h

theorem animateCounter_running_length (target : JSNumber) (j : Nat)
    (h : (animateCounter target j).cleared = false) :
    (animateCounter target j).shown.length = j := by
  induction j with
  | zero => rfl
  | succ j ih =>
    have hprev := animateCounter_running_before target (j + 1) h j (by omega)
    have := (animateCounterTick_shown target (animateCounter target j) hprev).1
    show (animateCounterTick target (animateCounter target j)).shown.length = j + 1
    rw [this, ih hprev]

/-- C17 (counterexample): for the target 10 the sum of a hundred increments is
a double just below 10, so the hundredth run of the callback shows 9 and
leaves the timer running; the 101st run clears it and shows 10. -/
theorem animateCounter_ten_needs_101_ticks :
    (animateCounter (.finite 10) 100).cleared = false
    ∧ (animateCounter (.finite 10) 100).current
        = .finite (5629499534213109 / 562949953421312)
    ∧ (animateCounter (.finite 10) 100).shown.getLast? = some (.finite 9)
    ∧ (animateCounter (.finite 10) 101).cleared = true
    ∧ (animateCounter (.finite 10) 101).shown.getLast? = some (.finite 10) := by
  refine ⟨?_, ?_, ?_, ?_, ?_⟩ <;> decide!

/-- One run of the callback keeps the invariant of a counter with a positive
integer target: the numbers shown are integers at most the target, and while
the timer runs `current` is a non-negative double below the target that has
lost at most the relative error of `k + 1` roundings against `k` exact
increments. -/
theorem animateCounterTick_invariant (n : ℕ) (hn : 1 ≤ n) (k : ℕ) (s : Counter)
    (hs : ∀ x ∈ s.shown, shownAtMost n x)
    (hc : s.cleared = true
      ∨ ∃ c : ℚ, s.current = .finite c ∧ 0 ≤ c
          ∧ (k : ℚ) * ((n : ℚ) / 100) * (1 - ((k : ℚ) + 1) * pow2 (-53)) ≤ c
          ∧ c < (n : ℚ)) :
    (∀ x ∈ (animateCounterTick (.finite n) s).shown, shownAtMost n x)
    ∧ ((animateCounterTick (.finite n) s).cleared = true
      ∨ ∃ c : ℚ, (animateCounterTick (.finite n) s).current = .finite c ∧ 0 ≤ c
          ∧ ((k + 1 : ℕ) : ℚ) * ((n : ℚ) / 100)
              * (1 - (((k + 1 : ℕ) : ℚ) + 1) * pow2 (-53)) ≤ c
          ∧ c < (n : ℚ)) := by
  have ht : (1 : ℚ) ≤ (n : ℚ) := by exact_mod_cast hn
  have hu0 : 0 < pow2 (-53) := pow2_pos _
  have hu1 : pow2 (-53) ≤ 1 / 2 := by decide!
  have hmin : pow2 (-1022) ≤ 1 / 200 := by decide!
  have hfloor : jsFloor (.finite (n : ℚ)) = .finite (n : ℚ) := by
    show JSNumber.finite ((Int.floor ((n : ℕ) : ℚ) : ℤ) : ℚ) = _
    rw [Int.floor_natCast, Int.cast_natCast]
  have htarget : shownAtMost n (jsFloor (.finite (n : ℚ))) := by
    rw [hfloor]
    exact ⟨(n : ℤ), by rw [Int.cast_natCast], le_refl _⟩
  have cleared_case : ∀ x ∈ (s.shown ++ [jsFloor (.finite (n : ℚ))]), shownAtMost n x := by
    intro x hx
    rcases List.mem_append.mp hx with hx | hx
    · exact hs x hx
    · rw [List.mem_singleton.mp hx]
      exact htarget
  cases hrun : s.cleared with
  | true =>
    rw [animateCounterTick_cleared _ _ hrun]
    exact ⟨hs, Or.inl hrun⟩
  | false =>
    rcases hc with hcl | ⟨c, hcur, hc0, hlow, hlt⟩
    · rw [hrun] at hcl
      cases hcl
    · have hk0 : (0 : ℚ) ≤ (k : ℚ) := Nat.cast_nonneg k
      have hw : (0 : ℚ) < (n : ℚ) / 100 := by linarith
      have hinc : jsDiv (.finite (n : ℚ)) (.finite 100) = roundDouble ((n : ℚ) / 100) :=
        jsDiv_finite _ _ (by norm_num)
      unfold animateCounterTick
      simp only [hrun, Bool.false_eq_true, if_false, hcur, hinc]
      rcases roundDouble_pos ((n : ℚ) / 100) hw with hinf | ⟨i, hi, hi0, hib⟩
      · rw [hinf]
        have hge : jsGe (jsAdd (.finite c) .posInf) (.finite (n : ℚ)) = true := rfl
        rw [if_pos hge]
        exact ⟨cleared_case, Or.inl rfl⟩
      · rw [hi]
        have hib' : (n : ℚ) / 100 * (1 - pow2 (-53)) ≤ i := hib (by linarith)
        have hipos : (1 : ℚ) / 200 ≤ i := by
          have : (1 : ℚ) / 100 * (1 / 2) ≤ (n : ℚ) / 100 * (1 - pow2 (-53)) := by
            apply mul_le_mul <;> linarith
          linarith
        have hsum : 0 < c + i := by linarith
        have hadd : jsAdd (.finite c) (.finite i) = roundDouble (c + i) := rfl
        rw [hadd]
        rcases roundDouble_pos (c + i) hsum with hinf | ⟨y, hy, hy0, hyb⟩
        · rw [hinf]
          have hge : jsGe .posInf (.finite (n : ℚ)) = true := rfl
          rw [if_pos hge]
          exact ⟨cleared_case, Or.inl rfl⟩
        · rw [hy]
          have hyb' : (c + i) * (1 - pow2 (-53)) ≤ y := hyb (by linarith)
          by_cases hge : jsGe (.finite y) (.finite (n : ℚ)) = true
          · rw [if_pos hge]
            exact ⟨cleared_case, Or.inl rfl⟩
          · rw [if_neg hge]
            have hylt : y < (n : ℚ) := by
              have : ¬ ((n : ℚ) ≤ y) := by
                intro hle
                exact hge (by show decide ((n : ℚ) ≤ y) = true; exact decide_eq_true hle)
              exact not_le.mp this
            refine ⟨?_, Or.inr ⟨y, rfl, hy0, ?_, hylt⟩⟩
            · intro x hx
              rcases List.mem_append.mp hx with hx | hx
              · exact hs x hx
              · rw [List.mem_singleton.mp hx]
                refine ⟨Int.floor y, rfl, ?_⟩
                have h1 : ((Int.floor y : ℤ) : ℚ) ≤ y := Int.floor_le y
                have h2 : ((Int.floor y : ℤ) : ℚ) < ((n : ℤ) : ℚ) := by
                  rw [Int.cast_natCast]
                  linarith
                exact le_of_lt (by exact_mod_cast h2)
            · have hone : (0 : ℚ) ≤ 1 - pow2 (-53) := by linarith
              have hstep : ((k : ℚ) * ((n : ℚ) / 100) * (1 - ((k : ℚ) + 1) * pow2 (-53))
                  + (n : ℚ) / 100 * (1 - pow2 (-53))) * (1 - pow2 (-53)) ≤ y := by
                refine le_trans (mul_le_mul_of_nonneg_right ?_ hone) hyb'
                linarith
              have hid : ((k : ℚ) * ((n : ℚ) / 100) * (1 - ((k : ℚ) + 1) * pow2 (-53))
                  + (n : ℚ) / 100 * (1 - pow2 (-53))) * (1 - pow2 (-53))
                  - (((k + 1 : ℕ) : ℚ)) * ((n : ℚ) / 100)
                      * (1 - ((((k + 1 : ℕ) : ℚ)) + 1) * pow2 (-53))
                  = (n : ℚ) / 100 * ((k : ℚ) * pow2 (-53)
                      + ((k : ℚ) ^ 2 + (k : ℚ) + 1) * pow2 (-53) ^ 2) := by
                push_cast
                ring
              have hnn : (0 : ℚ) ≤ (n : ℚ) / 100 * ((k : ℚ) * pow2 (-53)
                  + ((k : ℚ) ^ 2 + (k : ℚ) + 1) * pow2 (-53) ^ 2) := by positivity
              linarith

theorem animateCounter_invariant (n : ℕ) (hn : 1 ≤ n) (k : ℕ) :
    (∀ x ∈ (animateCounter (.finite n) k).shown, shownAtMost n x)
    ∧ ((animateCounter (.finite n) k).cleared = true
      ∨ ∃ c : ℚ, (animateCounter (.finite n) k).current = .finite c ∧ 0 ≤ c
          ∧ (k : ℚ) * ((n : ℚ) / 100) * (1 - ((k : ℚ) + 1) * pow2 (-53)) ≤ c
          ∧ c < (n : ℚ)) := by
  induction k with
  | zero =>
    have ht : (1 : ℚ) ≤ (n : ℚ) := by exact_mod_cast hn
    refine ⟨?_, Or.inr ⟨0, rfl, le_refl 0, ?_, by linarith⟩⟩
    · intro x hx
      cases hx
    · simp
  | succ k ih =>
    exact animateCounterTick_invariant n hn k (animateCounter (.finite n) k) ih.1 ih.2

/-- A counter with a positive integer target is cleared by the 101st period. -/
theorem animateCounter_cleared_by_101 (n : ℕ) (hn : 1 ≤ n) :
    (animateCounter (.finite n) 101).cleared = true := by
  rcases (animateCounter_invariant n hn 101).2 with h | ⟨c, _, _, hlow, hlt⟩
  · exact h
  · exfalso
    have ht : (1 : ℚ) ≤ (n : ℚ) := by exact_mod_cast hn
    have hu : pow2 (-53) ≤ 1 / 1000000 := by decide!
    have hu0 : 0 < pow2 (-53) := pow2_pos _
    have h1 : (n : ℚ) < ((101 : ℕ) : ℚ) * ((n : ℚ) / 100) * (1 - (((101 : ℕ) : ℚ) + 1) * pow2 (-53)) := by
      push_cast
      nlinarith
    linarith

/-- C17 (amended): for every non-negative integer target the counter stops
after `k` periods of the timer with `1 ≤ k ≤ 101`: the timer runs before period
`k` and is cleared in it, nothing is shown afterwards, `k` numbers have been
shown, each an integer at most the target, and the last one shown is the
target. -/
theorem animateCounter_stops_within_101 (n : ℕ) :
    ∃ k : Nat, 1 ≤ k ∧ k ≤ 101
      ∧ (∀ j, j < k → (animateCounter (.finite n) j).cleared = false)
      ∧ (animateCounter (.finite n) k).cleared = true
      ∧ (∀ m, k ≤ m → animateCounter (.finite n) m = animateCounter (.finite n) k)
      ∧ (animateCounter (.finite n) k).shown.length = k
      ∧ (∀ m, ∀ x ∈ (animateCounter (.finite n) m).shown, shownAtMost n x)
      ∧ (animateCounter (.finite n) k).shown.getLast? = some (.finite n) := by
  have hfloor : jsFloor (.finite (n : ℚ)) = .finite (n : ℚ) := by
    show JSNumber.finite ((Int.floor ((n : ℕ) : ℚ) : ℤ) : ℚ) = _
    rw [Int.floor_natCast, Int.cast_natCast]
  have hfacts : (animateCounter (.finite n) 101).cleared = true
      ∧ ∀ m, ∀ x ∈ (animateCounter (.finite n) m).shown, shownAtMost n x := by
    rcases Nat.eq_zero_or_pos n with h0 | hpos
    · subst h0
      have h1 : animateCounter (.finite ((0 : ℕ) : ℚ)) 1
          = { current := .finite 0, cleared := true, shown := [.finite 0] } := by
        rw [Nat.cast_zero]
        decide!
      have hc1 : (animateCounter (.finite ((0 : ℕ) : ℚ)) 1).cleared = true := by rw [h1]
      have hstay := animateCounter_stays (.finite ((0 : ℕ) : ℚ)) 1 hc1
      refine ⟨by rw [hstay 101 (by norm_num)]; exact hc1, ?_⟩
      intro m x hx
      rcases Nat.eq_zero_or_pos m with hm | hm
      · rw [hm] at hx
        cases hx
      · rw [hstay m hm, h1] at hx
        rw [List.mem_singleton.mp hx]
        exact ⟨0, by simp, le_refl _⟩
    · exact ⟨animateCounter_cleared_by_101 n hpos,
        fun m => (animateCounter_invariant n hpos m).1⟩
  obtain ⟨h101, hshown⟩ := hfacts
  have hex : ∃ k, (animateCounter (.finite (n : ℚ)) k).cleared = true := ⟨101, h101⟩
  have hk := Nat.find_spec hex
  have hmin : ∀ j, j < Nat.find hex → (animateCounter (.finite (n : ℚ)) j).cleared = false := by
    intro j hj
    have := Nat.find_min hex hj
    simpa using this
  have hk1 : 1 ≤ Nat.find hex := by
    rcases Nat.eq_zero_or_pos (Nat.find hex) with h0 | h0
    · rw [h0] at hk
      cases hk
    · exact h0
  obtain ⟨p, hp⟩ : ∃ p, Nat.find hex = p + 1 := ⟨Nat.find hex - 1, by omega⟩
  have hprev : (animateCounter (.finite (n : ℚ)) p).cleared = false := hmin p (by omega)
  have hlen := animateCounter_running_length (.finite (n : ℚ)) p hprev
  have hshape := animateCounterTick_shown (.finite (n : ℚ))
    (animateCounter (.finite (n : ℚ)) p) hprev
  have hstate : animateCounter (.finite (n : ℚ)) (Nat.find hex)
      = animateCounterTick (.finite (n : ℚ)) (animateCounter (.finite (n : ℚ)) p) := by
    rw [hp]
    rfl
  refine ⟨Nat.find hex, hk1, Nat.find_le h101, hmin, hk,
    animateCounter_stays _ _ hk, ?_, hshown, ?_⟩
  · rw [hstate, hshape.1, hlen, hp]
  · rw [hstate, hshape.2 (by rw [← hstate]; exact hk), hfloor]
    simp

/-! ## The objects behind `this.data` -/

theorem Heap.keeps_refl (h : Heap) : h.keeps h :=
  ⟨List.prefix_refl _, List.prefix_refl _⟩

theorem Heap.keeps_trans {a b c : Heap} (h1 : a.keeps b) (h2 : b.keeps c) : a.keeps c :=
  ⟨h1.1.trans h2.1, h1.2.trans h2.2⟩

theorem prefix_set {α : Type} (l₁ l : List α) (a : Nat) (x : α) (h : l₁ <+: l)
    (ha : l₁.length ≤ a) : l₁ <+: l.set a x := by
  obtain ⟨t, rfl⟩ := h
  rw [List.set_append_right _ _ ha]
  exact List.prefix_append _ _

theorem getD_prefix {α : Type} (l₁ l : List α) (i : Nat) (d : α) (h : l₁ <+: l)
    (hi : i < l₁.length) : l.getD i d = l₁.getD i d := by
  obtain ⟨t, rfl⟩ := h
  rw [List.getD_append _ _ _ _ hi]

theorem set_getD_self {α : Type} (l : List α) (n : Nat) (d : α) (hn : n < l.length) :
    l.set n (l.getD n d) = l := by
  induction l generalizing n with
  | nil => rfl
  | cons x xs ih =>
    cases n with
    | zero => rfl
    | succ n =>
      simp only [List.set_cons_succ, List.getD_cons_succ]
      rw [ih n (by simpa using hn)]

theorem getD_set_self {α : Type} (l : List α) (n : Nat) (x d : α) (hn : n < l.length) :
    (l.set n x).getD n d = x := by
  induction l generalizing n with
  | nil => cases hn
  | cons y ys ih =>
    cases n with
    | zero => rfl
    | succ n =>
      simp only [List.set_cons_succ, List.getD_cons_succ]
      exact ih n (by simpa using hn)

theorem getD_set_other {α : Type} (l : List α) (n a : Nat) (x d : α) (h : a ≠ n) :
    (l.set n x).getD a d = l.getD a d := by
  induction l generalizing n a with
  | nil => rfl
  | cons y ys ih =>
    cases n with
    | zero =>
      cases a with
      | zero => exact absurd rfl h
      | succ a => rfl
    | succ n =>
      cases a with
      | zero => rfl
      | succ a =>
        simp only [List.set_cons_succ, List.getD_cons_succ]
        exact ih n a (fun e => h (by rw [e]))

theorem Heap.array_keeps {h h' : Heap} (hk : h.keeps h') (a : Nat) (ha : a < h.arrays.length) :
    h'.array a = h.array a :=
  getD_prefix _ _ _ _ hk.2 ha

theorem Heap.product_keeps {h h' : Heap} (hk : h.keeps h') (p : Nat)
    (hp : p < h.products.length) : h'.product p = h.product p :=
  getD_prefix _ _ _ _ hk.1 hp

/-- Pushing onto an array: the products stay, and the array grows by the
elements pushed. -/
theorem Heap.foldl_push (ps : List Nat) (h : Heap) (n : Nat) (hn : n < h.arrays.length) :
    (ps.foldl (fun h p => h.push n p) h).products = h.products
    ∧ (ps.foldl (fun h p => h.push n p) h).arrays = h.arrays.set n (h.array n ++ ps) := by
  induction ps generalizing h with
  | nil =>
    refine ⟨rfl, ?_⟩
    rw [List.foldl_nil, List.append_nil]
    exact (set_getD_self _ _ _ hn).symm
  | cons p ps ih =>
    rw [List.foldl_cons]
    have hn' : n < (h.push n p).arrays.length := by
      show n < (h.arrays.set n _).length
      rw [List.length_set]
      exact hn
    obtain ⟨h1, h2⟩ := ih (h.push n p) hn'
    refine ⟨h1, ?_⟩
    rw [h2]
    have e : (h.push n p).array n = h.array n ++ [p] := getD_set_self _ _ _ _ hn
    rw [e]
    show (h.arrays.set n _).set n _ = _
    rw [List.set_set, List.append_assoc]
    rfl

/-- The elements that the loops of a listing push for the given categories. -/
theorem Heap.collect_fold (cs : List CategoryObject) (h : Heap) (n : Nat)
    (hn : n < h.arrays.length)
    (hcs : ∀ c ∈ cs, ∀ a, c.top_products = some a → a ≠ n) :
    (cs.foldl
      (fun h category =>
        match category.top_products with
        | none => h
        | some products => (h.array products).foldl (fun h product => h.push n product) h)
      h).products = h.products
    ∧ (cs.foldl
      (fun h category =>
        match category.top_products with
        | none => h
        | some products => (h.array products).foldl (fun h product => h.push n product) h)
      h).arrays
      = h.arrays.set n (h.array n ++ cs.flatMap h.refs) := by
  induction cs generalizing h with
  | nil =>
    refine ⟨rfl, ?_⟩
    rw [List.foldl_nil, List.flatMap_nil, List.append_nil]
    exact (set_getD_self _ _ _ hn).symm
  | cons c cs ih =>
    rw [List.foldl_cons, List.flatMap_cons]
    have hrest : ∀ c ∈ cs, ∀ a, c.top_products = some a → a ≠ n :=
      fun c hc => hcs c (List.mem_cons_of_mem _ hc)
    cases hc : c.top_products with
    | none =>
      simp only []
      obtain ⟨h1, h2⟩ := ih h hn hrest
      have e3 : h.refs c = [] := by
        unfold Heap.refs
        rw [hc]
      exact ⟨h1, by rw [h2, e3]; rfl⟩
    | some a =>
      simp only []
      obtain ⟨p1, p2⟩ := Heap.foldl_push (h.array a) h n hn
      have hn' : n < ((h.array a).foldl (fun h p => h.push n p) h).arrays.length := by
        rw [p2, List.length_set]
        exact hn
      obtain ⟨h1, h2⟩ := ih _ hn' hrest
      refine ⟨h1.trans p1, ?_⟩
      rw [h2]
      have e1 : ((h.array a).foldl (fun h p => h.push n p) h).array n = h.array n ++ h.array a := by
        show (((h.array a).foldl (fun h p => h.push n p) h).arrays).getD n [] = _
        rw [p2]
        exact getD_set_self _ _ _ _ hn
      have e2 : ∀ c ∈ cs,
          ((h.array a).foldl (fun h p => h.push n p) h).refs c = h.refs c := by
        intro c hc
        unfold Heap.refs
        cases hb : c.top_products with
        | none => rfl
        | some b =>
          show (((h.array a).foldl (fun h p => h.push n p) h).arrays).getD b [] = _
          rw [p2]
          exact getD_set_other _ _ _ _ _ (hrest c hc b hb)
      have e3 : h.refs c = h.array a := by
        unfold Heap.refs
        rw [hc]
      rw [e1, List.flatMap_congr e2, p2, List.set_set, List.append_assoc, e3]

theorem Heap.foldl_push_frame (ps : List Nat) (h0 h : Heap) (n : Nat) (hk : h0.keeps h)
    (hn : h0.arrays.length ≤ n) : h0.keeps (ps.foldl (fun h p => h.push n p) h) := by
  induction ps generalizing h with
  | nil => exact hk
  | cons p ps ih =>
    rw [List.foldl_cons]
    exact ih _ ⟨hk.1, prefix_set _ _ _ _ hk.2 hn⟩

/-- The loops of a listing change no object that existed before the array
`allProducts` was created. -/
theorem Heap.collect_frame (h0 h : Heap) (categories : JSObject CategoryObject) (n : Nat)
    (hk : h0.keeps h) (hn : h0.arrays.length ≤ n) : h0.keeps (h.collect categories n) := by
  unfold Heap.collect
  generalize objectValues categories = cs
  induction cs generalizing h with
  | nil => exact hk
  | cons c cs ih =>
    rw [List.foldl_cons]
    apply ih
    cases c.top_products with
    | none => exact hk
    | some a => exact Heap.foldl_push_frame _ _ _ _ hk hn

theorem Heap.newArray_frame (h : Heap) : h.keeps h.newArray.1 :=
  ⟨List.prefix_refl _, List.prefix_append _ _⟩

theorem Heap.sort_frame (h0 h : Heap) (n : Nat) (cmp : Nat → Nat → ℚ) (hk : h0.keeps h)
    (hn : h0.arrays.length ≤ n) : h0.keeps (h.sort n cmp) :=
  ⟨hk.1, prefix_set _ _ _ _ hk.2 hn⟩

theorem sortInsert_map {α β : Type} (f : α → β) (cmp : β → β → ℚ) (a : α) (l : List α) :
    (sortInsert (fun x y => cmp (f x) (f y)) a l).map f = sortInsert cmp (f a) (l.map f) := by
  induction l with
  | nil => rfl
  | cons b l ih =>
    show (if cmp (f a) (f b) ≤ 0 then a :: b :: l
        else b :: sortInsert (fun x y => cmp (f x) (f y)) a l).map f
      = if cmp (f a) (f b) ≤ 0 then f a :: f b :: l.map f
        else f b :: sortInsert cmp (f a) (l.map f)
    by_cases hc : cmp (f a) (f b) ≤ 0
    · rw [if_pos hc, if_pos hc]
      rfl
    · rw [if_neg hc, if_neg hc, List.map_cons, ih]

/-- Sorting references by a comparator on the objects they refer to orders the
objects as sorting the objects does. -/
theorem arraySort_map {α β : Type} (f : α → β) (cmp : β → β → ℚ) (l : List α) :
    (arraySort (fun x y => cmp (f x) (f y)) l).map f = arraySort cmp (l.map f) := by
  induction l with
  | nil => rfl
  | cons a l ih =>
    unfold arraySort
    rw [sortInsert_map, ih]
    rfl

theorem objectValues_map {α β : Type} (f : α → β) (o : JSObject α) :
    objectValues (o.map (fun kv => (kv.1, f kv.2))) = (objectValues o).map f := by
  have h1 : indexProps (o.map (fun kv => (kv.1, f kv.2)))
      = (indexProps o).map (fun p => (p.1, f p.2)) := by
    unfold indexProps
    induction o with
    | nil => rfl
    | cons kv o ih =>
      rw [List.map_cons, List.filterMap_cons, List.filterMap_cons]
      cases arrayIndex? kv.1 with
      | none => exact ih
      | some n =>
        simp only [Option.map_some']
        rw [List.map_cons, ih]
  have h2 : namedProps (o.map (fun kv => (kv.1, f kv.2))) = (namedProps o).map f := by
    clear h1
    unfold namedProps
    induction o with
    | nil => rfl
    | cons kv o ih =>
      rw [List.map_cons, List.filter_cons, List.filter_cons]
      cases arrayIndex? kv.1 with
      | none =>
        simp only [Option.isNone_none, if_true, List.map_cons]
        rw [ih]
      | some n =>
        simp only [Option.isNone_some, Bool.false_eq_true, if_false]
        exact ih
  unfold objectValues
  rw [h1, h2, List.map_append, List.map_map]
  congr 1
  have h3 := arraySort_map (fun p : Nat × α => (p.1, f p.2))
    (fun a b : Nat × β => (a.1 : ℚ) - (b.1 : ℚ)) (indexProps o)
  rw [← h3, List.map_map]
  rfl

theorem Heap.holds_iff (h : Heap) (d : DataRefs) :
    h.holds d = true ↔ ∀ kv ∈ d.categories, ∀ a, kv.2.top_products = some a →
      a < h.arrays.length ∧ ∀ p ∈ h.array a, p < h.products.length := by
  unfold Heap.holds
  rw [List.all_eq_true]
  constructor
  · intro H kv hkv a ha
    have := H kv hkv
    rw [ha] at this
    simp only [Bool.and_eq_true, decide_eq_true_eq, List.all_eq_true] at this
    exact this
  · intro H kv hkv
    cases ha : kv.2.top_products with
    | none => rfl
    | some a =>
      simp only [Bool.and_eq_true, decide_eq_true_eq, List.all_eq_true]
      exact H kv hkv a ha

/-- A heap that keeps every object of an earlier heap holds the same documents
for a data object of the earlier heap. -/
theorem Heap.view_keeps {h h' : Heap} (hk : h.keeps h') (d : DataRefs)
    (hd : h.holds d = true) : h'.view d = h.view d := by
  rw [Heap.holds_iff] at hd
  have e : d.categories.map (fun kv => (kv.1, h'.category kv.2))
      = d.categories.map (fun kv => (kv.1, h.category kv.2)) := by
    apply List.map_congr_left
    intro kv hkv
    unfold Heap.category
    cases ha : kv.2.top_products with
    | none => rfl
    | some a =>
      obtain ⟨h1, h2⟩ := hd kv hkv a ha
      simp only [Option.map_some']
      rw [Heap.array_keeps hk a h1,
        List.map_congr_left (fun p hp => Heap.product_keeps hk p (h2 p hp))]
  unfold Heap.view
  rw [e]

theorem Heap.holds_keeps {h h' : Heap} (hk : h.keeps h') (d : DataRefs)
    (hd : h.holds d = true) : h'.holds d = true := by
  rw [Heap.holds_iff] at hd ⊢
  intro kv hkv a ha
  obtain ⟨h1, h2⟩ := hd kv hkv a ha
  refine ⟨lt_of_lt_of_le h1 hk.2.length_le, ?_⟩
  rw [Heap.array_keeps hk a h1]
  exact fun p hp => lt_of_lt_of_le (h2 p hp) hk.1.length_le

theorem Heap.allProducts_view (h : Heap) (d : DataRefs) :
    allProducts (h.view d).quantumData = (h.collectedRefs d).map h.product := by
  rw [allProducts_eq]
  show (objectValues (d.categories.map (fun kv => (kv.1, h.category kv.2)))).flatMap
    Category.products = _
  rw [objectValues_map]
  unfold Heap.collectedRefs
  rw [List.flatMap_map, List.map_flatMap]
  apply List.flatMap_congr
  intro c _
  unfold Heap.category Heap.refs Category.products
  cases c.top_products <;> rfl

/-- The heap after the loops of a listing: one new array, of the references
collected, and nothing else changed. -/
theorem Heap.collect_newArray (h : Heap) (d : DataRefs) (hd : h.holds d = true) :
    (h.newArray.1.collect d.categories h.newArray.2).products = h.products
    ∧ (h.newArray.1.collect d.categories h.newArray.2).arrays
        = h.arrays ++ [h.collectedRefs d] := by
  rw [Heap.holds_iff] at hd
  have hmem : ∀ c ∈ objectValues d.categories, ∀ a, c.top_products = some a →
      a < h.arrays.length := by
    intro c hc a ha
    have := (objectValues_perm d.categories).subset hc
    rw [List.mem_map] at this
    obtain ⟨kv, hkv, rfl⟩ := this
    exact (hd kv hkv a ha).1
  have hn : h.newArray.2 < h.newArray.1.arrays.length := by
    show h.arrays.length < (h.arrays ++ [[]]).length
    simp
  obtain ⟨h1, h2⟩ := Heap.collect_fold (objectValues d.categories) h.newArray.1 h.newArray.2 hn
    (fun c hc a ha => Nat.ne_of_lt (hmem c hc a ha))
  refine ⟨h1, ?_⟩
  unfold Heap.collect
  rw [h2]
  have e0 : h.newArray.1.array h.newArray.2 = [] := by
    show (h.arrays ++ [[]]).getD h.arrays.length [] = []
    simp
  have e1 : ∀ c ∈ objectValues d.categories, h.newArray.1.refs c = h.refs c := by
    intro c hc
    unfold Heap.refs
    cases ha : c.top_products with
    | none => rfl
    | some a => exact Heap.array_keeps (Heap.newArray_frame h) a (hmem c hc a ha)
  rw [e0, List.flatMap_congr e1, List.nil_append]
  show (h.arrays ++ [[]]).set h.arrays.length _ = _
  rw [List.set_append_right _ _ (le_refl _)]
  simp [Heap.collectedRefs]

theorem Heap.product_eq {h h' : Heap} (e : h'.products = h.products) (p : Nat) :
    h'.product p = h.product p := by
  unfold Heap.product
  rw [e]

/-- The rows of the products table: the products of the array collected. -/
theorem Heap.collected_products (h : Heap) (d : DataRefs) (hd : h.holds d = true) :
    ((h.newArray.1.collect d.categories h.newArray.2).array h.newArray.2).map
        (h.newArray.1.collect d.categories h.newArray.2).product
      = allProducts (h.view d).quantumData := by
  obtain ⟨h1, h2⟩ := Heap.collect_newArray h d hd
  have e1 : (h.newArray.1.collect d.categories h.newArray.2).array h.newArray.2
      = h.collectedRefs d := by
    show ((h.newArray.1.collect d.categories h.newArray.2).arrays).getD h.arrays.length [] = _
    rw [h2]
    simp
  rw [e1, Heap.allProducts_view]
  exact List.map_congr_left (fun p _ => Heap.product_eq h1 p)

/-- The rows of the top products: the array collected is sorted in place, and
its first ten elements are the products listed. -/
theorem Heap.sorted_products (h : Heap) (d : DataRefs) (hd : h.holds d = true) :
    ((((h.newArray.1.collect d.categories h.newArray.2).sort h.newArray.2
        (fun a b => ((h.newArray.1.collect d.categories h.newArray.2).product b).quantum_score
          - ((h.newArray.1.collect d.categories h.newArray.2).product a).quantum_score)).array
        h.newArray.2).take 10).map
      ((h.newArray.1.collect d.categories h.newArray.2).sort h.newArray.2
        (fun a b => ((h.newArray.1.collect d.categories h.newArray.2).product b).quantum_score
          - ((h.newArray.1.collect d.categories h.newArray.2).product a).quantum_score)).product
      = topProducts (h.view d).quantumData := by
  have hc := Heap.collected_products h d hd
  obtain ⟨h1, h2⟩ := Heap.collect_newArray h d hd
  generalize h.newArray.1.collect d.categories h.newArray.2 = g at hc h1 h2
  have hn : h.newArray.2 < g.arrays.length := by
    rw [h2]
    show h.arrays.length < _
    simp
  have e1 : (g.sort h.newArray.2
      (fun a b => (g.product b).quantum_score - (g.product a).quantum_score)).array h.newArray.2
      = arraySort (fun a b => (g.product b).quantum_score - (g.product a).quantum_score)
          (g.array h.newArray.2) :=
    getD_set_self _ _ _ _ hn
  have e2 : (g.sort h.newArray.2
      (fun a b => (g.product b).quantum_score - (g.product a).quantum_score)).product
      = g.product := rfl
  rw [e1, e2, List.map_take,
    arraySort_map g.product (fun a b : Product => b.quantum_score - a.quantum_score), hc]
  rfl

theorem Machine.rendered_refl (s : Machine) : s.rendered s s.dom :=
  ⟨Heap.keeps_refl _, rfl, rfl, rfl, rfl, rfl⟩

theorem Machine.rendered_trans {s s' s'' : Machine} {dom' dom'' : Dom}
    (h1 : s.rendered s' dom') (h2 : s'.rendered s'' dom'') : s.rendered s'' dom'' :=
  ⟨Heap.keeps_trans h1.1 h2.1, h2.2.1.trans h1.2.1, h2.2.2.1, h2.2.2.2.1.trans h1.2.2.2.1,
    h2.2.2.2.2.1.trans h1.2.2.2.2.1, h2.2.2.2.2.2.trans h1.2.2.2.2.2⟩

/-- On the heap `loadTopProducts` renders what it renders from the documents,
and changes no object that existed before. -/
theorem heap_loadTopProducts (s : Machine) (hw : s.wellFormed = true) :
    s.rendered (Machine.loadTopProducts s) (loadTopProducts s.panelData s.dom) := by
  unfold Machine.wellFormed at hw
  unfold Machine.loadTopProducts loadTopProducts Machine.panelData
  cases hd : s.data with
  | none =>
    cases hg : getElementById "top-products-list" s.dom <;> exact Machine.rendered_refl s
  | some d =>
    rw [hd] at hw
    cases hg : getElementById "top-products-list" s.dom with
    | none => exact Machine.rendered_refl s
    | some e =>
      refine ⟨?_, hd.symm, ?_, rfl, rfl, rfl⟩
      · exact Heap.sort_frame _ _ _ _
          (Heap.collect_frame _ _ _ _ (Heap.newArray_frame _) (le_refl _)) (le_refl _)
      · show modifyById _ _ _ = modifyById _ _ _
        simp only [Option.map_some']
        rw [Heap.sorted_products s.heap d hw]

/-- On the heap `loadProductsTable` renders what it renders from the
documents, and changes no object that existed before. -/
theorem heap_loadProductsTable (s : Machine) (hw : s.wellFormed = true) :
    s.rendered (Machine.loadProductsTable s) (loadProductsTable s.panelData s.dom) := by
  unfold Machine.wellFormed at hw
  unfold Machine.loadProductsTable loadProductsTable Machine.panelData
  cases hd : s.data with
  | none =>
    cases hg : getElementById "all-products-list" s.dom <;> exact Machine.rendered_refl s
  | some d =>
    rw [hd] at hw
    cases hg : getElementById "all-products-list" s.dom with
    | none => exact Machine.rendered_refl s
    | some e =>
      refine ⟨?_, hd.symm, ?_, rfl, rfl, rfl⟩
      · exact Heap.collect_frame _ _ _ _ (Heap.newArray_frame _) (le_refl _)
      · show modifyById _ _ _ = modifyById _ _ _
        simp only [Option.map_some']
        rw [Heap.collected_products s.heap d hw]

theorem Machine.panelData_toAdmin (s : Machine) : s.toAdmin.panelData = s.panelData := by
  unfold Machine.toAdmin Admin.panelData Machine.panelData
  cases s.data <;> rfl

/-- A state rendered from a state with valid references stands for the same
state of the value-passing model, with the new document. -/
theorem Machine.rendered_toAdmin {s s' : Machine} {dom' : Dom} (h : s.rendered s' dom')
    (hw : s.wellFormed = true) :
    s'.toAdmin = { s.toAdmin with dom := dom' } ∧ s'.wellFormed = true
      ∧ s'.panelData = s.panelData := by
  obtain ⟨hk, hd, hm, hc, ha, hl⟩ := h
  have hv : s'.data.map (fun d => s'.heap.view d) = s.data.map (fun d => s.heap.view d) := by
    rw [hd]
    unfold Machine.wellFormed at hw
    cases hs : s.data with
    | none => rfl
    | some d =>
      rw [hs] at hw
      simp only [Option.map_some']
      rw [Heap.view_keeps hk d hw]
  refine ⟨?_, ?_, ?_⟩
  · unfold Machine.toAdmin
    rw [hv, hm, hc, ha, hl]
  · unfold Machine.wellFormed at hw ⊢
    rw [hd]
    cases hs : s.data with
    | none => rfl
    | some d =>
      rw [hs] at hw
      exact Heap.holds_keeps hk d hw
  · unfold Machine.panelData
    rw [hd]
    unfold Machine.wellFormed at hw
    cases hs : s.data with
    | none => rfl
    | some d =>
      rw [hs] at hw
      simp only [Option.map_some']
      rw [Heap.view_keeps hk d hw]

/-- On the heap `updateMetrics` renders what it renders from the documents,
raises what it raises there, and changes no object that existed before. -/
theorem heap_updateMetrics (host : Host) (s : Machine) (hw : s.wellFormed = true) :
    s.rendered (Machine.updateMetrics host s).1 (updateMetrics host s.panelData s.dom).dom
    ∧ (Machine.updateMetrics host s).2 = (updateMetrics host s.panelData s.dom).raised := by
  unfold Machine.updateMetrics updateMetrics
  cases hp : s.panelData with
  | none => exact ⟨Machine.rendered_refl s, rfl⟩
  | some d =>
    simp only []
    cases monthlyRevenue d.analyticsData with
    | error err => exact ⟨⟨Heap.keeps_refl _, rfl, rfl, rfl, rfl, rfl⟩, rfl⟩
    | ok revenue =>
      simp only []
      cases conversionRate host d.analyticsData with
      | error err => exact ⟨⟨Heap.keeps_refl _, rfl, rfl, rfl, rfl, rfl⟩, rfl⟩
      | ok rate =>
        simp only []
        refine ⟨?_, trivial⟩
        have key : ∀ dom, s.rendered (Machine.loadTopProducts { s with dom := dom })
            (loadTopProducts (some d) dom) := by
          intro dom
          have h := heap_loadTopProducts { s with dom := dom } hw
          have hp' : Machine.panelData { s with dom := dom } = some d := hp
          rw [hp'] at h
          exact h
        exact key _

/-- On the heap `showSection` renders what it renders from the documents. -/
theorem heap_showSection (name : String) (s : Machine) (hw : s.wellFormed = true) :
    s.rendered (Machine.showSection name s).1 (showSection s.panelData name s.dom).dom
    ∧ (Machine.showSection name s).2 = (showSection s.panelData name s.dom).raised := by
  unfold Machine.showSection showSection
  simp only []
  cases getElementById (name ++ "-section") (hideSections s.dom) with
  | none => exact ⟨⟨Heap.keeps_refl _, rfl, rfl, rfl, rfl, rfl⟩, rfl⟩
  | some e =>
    simp only []
    by_cases h1 : name = "products"
    · rw [if_pos h1, if_pos h1]
      refine ⟨?_, rfl⟩
      have key : ∀ dom, s.rendered (Machine.loadProductsTable { s with dom := dom })
          (loadProductsTable s.panelData dom) :=
        fun dom => heap_loadProductsTable { s with dom := dom } hw
      exact key _
    · rw [if_neg h1, if_neg h1]
      by_cases h2 : name = "analytics"
      · rw [if_pos h2, if_pos h2]
        exact ⟨⟨Heap.keeps_refl _, rfl, rfl, rfl, rfl, rfl⟩, rfl⟩
      · rw [if_neg h2, if_neg h2]
        exact ⟨⟨Heap.keeps_refl _, rfl, rfl, rfl, rfl, rfl⟩, rfl⟩

/-- On the heap a navigation click renders what it renders from the documents. -/
theorem heap_navClick (i : Nat) (s : Machine) (hw : s.wellFormed = true) :
    s.rendered (Machine.navClick i s).1 (navClick s.panelData i s.dom).dom
    ∧ (Machine.navClick i s).2 = (navClick s.panelData i s.dom).raised := by
  unfold Machine.navClick navClick
  cases s.dom.get? i with
  | none => exact ⟨Machine.rendered_refl s, rfl⟩
  | some item =>
    simp only []
    by_cases h1 : "admin-nav-item" ∈ item.classList
    · rw [if_pos h1, if_pos h1]
      obtain ⟨⟨hk, hd, hm, hc, ha, hl⟩, hr⟩ :=
        heap_showSection (item.datasetSection.getD "undefined") s hw
      rw [hr]
      cases (showSection s.panelData (item.datasetSection.getD "undefined") s.dom).raised with
      | some err => exact ⟨⟨hk, hd, hm, hc, ha, hl⟩, rfl⟩
      | none =>
        simp only []
        refine ⟨⟨hk, hd, ?_, hc, ha, hl⟩, trivial⟩
        show modifyAt addActive i (List.map _ _) = _
        rw [hm]
    · rw [if_neg h1, if_neg h1]
      exact ⟨Machine.rendered_refl s, rfl⟩

theorem map_getD_range {α : Type} (l : List α) (d : α) :
    (List.range l.length).map (fun i => l.getD i d) = l := by
  apply List.ext_getElem
  · simp
  · intro i h1 h2
    simp [List.getD_eq_getElem, h2]

theorem Heap.allocArray_frame (h : Heap) (products : List Product) :
    h.keeps (h.allocArray products).1 :=
  ⟨List.prefix_append _ _, List.prefix_append _ _⟩

/-- The array of a parsed product list: new references, to the products parsed. -/
theorem Heap.allocArray_spec (h : Heap) (products : List Product) :
    (h.allocArray products).2 = h.arrays.length
    ∧ (h.allocArray products).1.arrays.length = h.arrays.length + 1
    ∧ (h.allocArray products).1.products.length = h.products.length + products.length
    ∧ (∀ p ∈ (h.allocArray products).1.array (h.allocArray products).2,
        h.products.length ≤ p ∧ p < h.products.length + products.length)
    ∧ ((h.allocArray products).1.array (h.allocArray products).2).map
        (h.allocArray products).1.product = products := by
  have ea : (h.allocArray products).1.array (h.allocArray products).2
      = (List.range products.length).map (fun i => h.products.length + i) := by
    show (h.arrays ++ [_]).getD h.arrays.length [] = _
    simp
  refine ⟨rfl, ?_, ?_, ?_, ?_⟩
  · show (h.arrays ++ [_]).length = _
    simp
  · show (h.products ++ products).length = _
    simp
  · rw [ea]
    intro p hp
    rw [List.mem_map] at hp
    obtain ⟨i, hi, rfl⟩ := hp
    rw [List.mem_range] at hi
    omega
  · rw [ea, List.map_map]
    have e : ∀ i, ((h.allocArray products).1.product ∘ fun i => h.products.length + i) i
        = products.getD i ⟨"", "", 0, 0, 0⟩ := by
      intro i
      show (h.products ++ products).getD (h.products.length + i) _ = _
      rw [List.getD_append_right _ _ _ _ (Nat.le_add_right _ _)]
      simp
    rw [List.map_congr_left (fun i _ => e i)]
    exact map_getD_range _ _

/-- The objects of a parsed catalog: every object of the heap is kept, the
arrays and products are new, and the heap holds the catalog for them. -/
theorem Heap.allocCategories_spec (cats : JSObject Category) (h : Heap) :
    h.keeps (h.allocCategories cats).1
    ∧ (∀ kv ∈ (h.allocCategories cats).2, ∀ a, kv.2.top_products = some a →
        h.arrays.length ≤ a ∧ a < (h.allocCategories cats).1.arrays.length
        ∧ ∀ p ∈ (h.allocCategories cats).1.array a,
            h.products.length ≤ p ∧ p < (h.allocCategories cats).1.products.length)
    ∧ (h.allocCategories cats).2.map
        (fun kv => (kv.1, (h.allocCategories cats).1.category kv.2)) = cats := by
  induction cats generalizing h with
  | nil =>
    refine ⟨Heap.keeps_refl _, ?_, rfl⟩
    intro kv hkv
    cases hkv
  | cons kv rest ih =>
    obtain ⟨k, ⟨ta, tp⟩⟩ := kv
    cases tp with
    | none =>
      obtain ⟨i1, i2, i3⟩ := ih h
      have e : h.allocCategories ((k, ⟨ta, none⟩) :: rest)
          = ((h.allocCategories rest).1, (k, ⟨ta, none⟩) :: (h.allocCategories rest).2) := rfl
      rw [e]
      refine ⟨i1, ?_, ?_⟩
      · intro kv hkv a ha
        rcases List.mem_cons.mp hkv with rfl | hkv
        · cases ha
        · exact i2 kv hkv a ha
      · rw [List.map_cons]
        simp only []
        rw [i3]
        rfl
    | some products =>
      obtain ⟨a1, a2, a3, a4, a5⟩ := Heap.allocArray_spec h products
      have ak := Heap.allocArray_frame h products
      obtain ⟨i1, i2, i3⟩ := ih (h.allocArray products).1
      have hlt : (h.allocArray products).2 < (h.allocArray products).1.arrays.length := by
        rw [a1, a2]
        exact Nat.lt_succ_self _
      have earr : ((h.allocArray products).1.allocCategories rest).1.array (h.allocArray products).2
          = (h.allocArray products).1.array (h.allocArray products).2 :=
        Heap.array_keeps i1 _ hlt
      have e : h.allocCategories ((k, ⟨ta, some products⟩) :: rest)
          = (((h.allocArray products).1.allocCategories rest).1,
              (k, ⟨ta, some (h.allocArray products).2⟩)
                :: ((h.allocArray products).1.allocCategories rest).2) := rfl
      rw [e]
      refine ⟨Heap.keeps_trans ak i1, ?_, ?_⟩
      · intro kv hkv a ha
        rcases List.mem_cons.mp hkv with rfl | hkv
        · cases ha
          refine ⟨le_of_eq a1.symm, lt_of_lt_of_le hlt i1.2.length_le, ?_⟩
          show ∀ p ∈ ((h.allocArray products).1.allocCategories rest).1.array
            (h.allocArray products).2, _
          rw [earr]
          intro p hp
          obtain ⟨b1, b2⟩ := a4 p hp
          exact ⟨b1, lt_of_lt_of_le (by rw [a3]; exact b2) i1.1.length_le⟩
        · obtain ⟨c1, c2, c3⟩ := i2 kv hkv a ha
          refine ⟨by omega, c2, ?_⟩
          intro p hp
          obtain ⟨b1, b2⟩ := c3 p hp
          exact ⟨by omega, b2⟩
      · rw [List.map_cons]
        simp only []
        rw [i3]
        congr 2
        unfold Heap.category
        simp only [Option.map_some']
        rw [earr]
        have e : ∀ p ∈ (h.allocArray products).1.array (h.allocArray products).2,
            ((h.allocArray products).1.allocCategories rest).1.product p
              = (h.allocArray products).1.product p := by
          intro p hp
          exact Heap.product_keeps i1 p (by rw [a3]; exact (a4 p hp).2)
        rw [List.map_congr_left e, a5]

/-- On the heap `loadData` assigns an object of new arrays and products that
holds the documents fetched, or assigns nothing, and changes no object that
existed before. -/
theorem heap_loadData (fetched : Fetched) (s : Machine) (hw : s.wellFormed = true) :
    s.heap.keeps (Machine.loadData fetched s).heap
    ∧ (Machine.loadData fetched s).wellFormed = true
    ∧ (Machine.loadData fetched s).toAdmin = loadData fetched s.toAdmin
    ∧ (∀ e, promiseAll fetched = .error e → (Machine.loadData fetched s).data = s.data)
    ∧ (∀ new, promiseAll fetched = .ok new →
        ∃ d', (Machine.loadData fetched s).data = some d'
          ∧ (Machine.loadData fetched s).heap.holds d' = true
          ∧ (Machine.loadData fetched s).heap.view d' = new
          ∧ ∀ a ∈ d'.arrays, s.heap.arrays.length ≤ a
              ∧ ∀ p ∈ (Machine.loadData fetched s).heap.array a, s.heap.products.length ≤ p) := by
  unfold Machine.loadData loadData
  cases hp : promiseAll fetched with
  | error e =>
    refine ⟨Heap.keeps_refl _, hw, rfl, fun _ _ => rfl, ?_⟩
    intro new hnew
    cases hnew
  | ok d =>
    obtain ⟨i1, i2, i3⟩ := Heap.allocCategories_spec d.quantumData.categories s.heap
    have hh : (s.heap.allocCategories d.quantumData.categories).1.holds
        ⟨(s.heap.allocCategories d.quantumData.categories).2, d.analyticsData, d.healthData⟩
        = true := by
      rw [Heap.holds_iff]
      intro kv hkv a ha
      obtain ⟨_, c2, c3⟩ := i2 kv hkv a ha
      exact ⟨c2, fun p hp => (c3 p hp).2⟩
    have hv : (s.heap.allocCategories d.quantumData.categories).1.view
        ⟨(s.heap.allocCategories d.quantumData.categories).2, d.analyticsData, d.healthData⟩
        = d := by
      unfold Heap.view
      simp only []
      rw [i3]
    refine ⟨i1, hh, ?_, ?_, ?_⟩
    · unfold Machine.toAdmin
      simp only [Option.map_some']
      rw [hv]
    · intro e he
      cases he
    · intro new hnew
      cases hnew
      refine ⟨_, rfl, hh, hv, ?_⟩
      intro a ha
      unfold DataRefs.arrays at ha
      rw [List.mem_filterMap] at ha
      obtain ⟨kv, hkv, hka⟩ := ha
      obtain ⟨c1, _, c3⟩ := i2 kv hkv a hka
      exact ⟨c1, fun p hp => (c3 p hp).1⟩

/-- The reload of `runAnalysis` on the heap: `loadData`, then `updateMetrics`. -/
theorem heap_reload (host : Host) (fetched : Fetched) (t : Machine) (hw : t.wellFormed = true) :
    t.heap.keeps (Machine.updateMetrics host (Machine.loadData fetched t)).1.heap
    ∧ (Machine.updateMetrics host (Machine.loadData fetched t)).1.wellFormed = true
    ∧ (Machine.updateMetrics host (Machine.loadData fetched t)).1.toAdmin
        = { loadData fetched t.toAdmin with
            dom := (updateMetrics host (loadData fetched t.toAdmin).panelData
              (loadData fetched t.toAdmin).dom).dom }
    ∧ (Machine.updateMetrics host (Machine.loadData fetched t)).2
        = (updateMetrics host (loadData fetched t.toAdmin).panelData
            (loadData fetched t.toAdmin).dom).raised
    ∧ (∀ e, promiseAll fetched = .error e →
        (Machine.updateMetrics host (Machine.loadData fetched t)).1.data = t.data)
    ∧ (∀ new, promiseAll fetched = .ok new →
        ∃ d', (Machine.updateMetrics host (Machine.loadData fetched t)).1.data = some d'
          ∧ (Machine.updateMetrics host (Machine.loadData fetched t)).1.heap.view d' = new
          ∧ ∀ a ∈ d'.arrays, t.heap.arrays.length ≤ a
              ∧ ∀ p ∈ (Machine.updateMetrics host (Machine.loadData fetched t)).1.heap.array a,
                  t.heap.products.length ≤ p) := by
  obtain ⟨l1, l2, l3, l4, l5⟩ := heap_loadData fetched t hw
  obtain ⟨hr, hraised⟩ := heap_updateMetrics host (Machine.loadData fetched t) l2
  obtain ⟨r1, r2, r3⟩ := Machine.rendered_toAdmin hr l2
  have hpd : (Machine.loadData fetched t).panelData = (loadData fetched t.toAdmin).panelData := by
    rw [← Machine.panelData_toAdmin, l3]
  have hdom : (Machine.loadData fetched t).dom = (loadData fetched t.toAdmin).dom := by
    rw [← l3]
    rfl
  refine ⟨Heap.keeps_trans l1 hr.1, r2, ?_, ?_, ?_, ?_⟩
  · rw [r1, l3, hpd, hdom]
  · rw [hraised, hpd, hdom]
  · intro e he
    rw [hr.2.1]
    exact l4 e he
  · intro new hnew
    obtain ⟨d', e1, e2, e3, e4⟩ := l5 new hnew
    refine ⟨d', by rw [hr.2.1]; exact e1, ?_, ?_⟩
    · rw [Heap.view_keeps hr.1 d' e2]
      exact e3
    · intro a ha
      obtain ⟨f1, f2⟩ := e4 a ha
      refine ⟨f1, ?_⟩
      have hlt : a < (Machine.loadData fetched t).heap.arrays.length := by
        rw [Heap.holds_iff] at e2
        unfold DataRefs.arrays at ha
        rw [List.mem_filterMap] at ha
        obtain ⟨kv, hkv, hka⟩ := ha
        exact (e2 kv hkv a hka).1
      rw [Heap.array_keeps hr.1 a hlt]
      exact f2

theorem reloaded_runAnalysis (fetched : Fetched) :
    Operation.reloaded (.runAnalysis (.ok true) fetched)
      = match promiseAll fetched with
        | .ok d => some d
        | .error _ => none := rfl

/-- The end of `runAnalysis`: an exception of the reload is caught and reported. -/
theorem heap_finish (out : Machine × Option JSError) (a : Admin) (o : Outcome)
    (h1 : out.1.toAdmin = { a with dom := o.dom }) (h2 : out.2 = o.raised) :
    (match out.2 with
      | some _ => { out.1 with alerts := out.1.alerts ++ ["Analysis failed. Please try again."] }
      | none => out.1).toAdmin
      = (match o.raised with
        | some _ => { a with dom := o.dom, alerts := a.alerts ++ ["Analysis failed. Please try again."] }
        | none => { a with dom := o.dom })
    ∧ (match out.2 with
      | some _ => { out.1 with alerts := out.1.alerts ++ ["Analysis failed. Please try again."] }
      | none => out.1).heap = out.1.heap
    ∧ (match out.2 with
      | some _ => { out.1 with alerts := out.1.alerts ++ ["Analysis failed. Please try again."] }
      | none => out.1).data = out.1.data := by
  obtain ⟨m, r⟩ := out
  obtain ⟨dom, raised⟩ := o
  obtain ⟨ad, adom, ac, aa, al⟩ := a
  simp only [] at h1 h2
  subst h2
  cases r with
  | none => exact ⟨h1, rfl, rfl⟩
  | some err =>
    refine ⟨?_, rfl, rfl⟩
    unfold Machine.toAdmin at h1
    simp only [Admin.mk.injEq] at h1
    obtain ⟨e1, e2, e3, e4, e5⟩ := h1
    simp only []
    unfold Machine.toAdmin
    simp only [Admin.mk.injEq]
    exact ⟨e1, e2, e3, by rw [e4], e5⟩

/-- On the heap `runAnalysis` does what it does on the documents; it assigns
`this.data` only in its reload, and changes no object that existed before. -/
theorem heap_runAnalysis (host : Host) (post : Except JSError Bool) (fetched : Fetched)
    (s : Machine) (hw : s.wellFormed = true) :
    s.heap.keeps (Machine.runAnalysis host post fetched s).heap
    ∧ (Machine.runAnalysis host post fetched s).wellFormed = true
    ∧ (Machine.runAnalysis host post fetched s).toAdmin = runAnalysis host post fetched s.toAdmin
    ∧ (Operation.reloaded (.runAnalysis post fetched) = none →
        (Machine.runAnalysis host post fetched s).data = s.data)
    ∧ (∀ new, Operation.reloaded (.runAnalysis post fetched) = some new →
        ∃ d', (Machine.runAnalysis host post fetched s).data = some d'
          ∧ (Machine.runAnalysis host post fetched s).heap.view d' = new
          ∧ ∀ a ∈ d'.arrays, s.heap.arrays.length ≤ a
              ∧ ∀ p ∈ (Machine.runAnalysis host post fetched s).heap.array a,
                  s.heap.products.length ≤ p) := by
  cases post with
  | error e =>
    refine ⟨Heap.keeps_refl _, hw, rfl, fun _ => rfl, ?_⟩
    intro new hnew
    cases hnew
  | ok b =>
    cases b with
    | false =>
      refine ⟨Heap.keeps_refl _, hw, rfl, fun _ => rfl, ?_⟩
      intro new hnew
      cases hnew
    | true =>
      obtain ⟨q1, q2, q3, q4, q5, q6⟩ := heap_reload host fetched
        { s with alerts := s.alerts ++ ["Running AI analysis... This may take a few minutes."] ++ ["Analysis completed successfully!"] } hw
      obtain ⟨f1, f2, f3⟩ := heap_finish _ _ _ q3 q4
      have eh : (Machine.runAnalysis host (.ok true) fetched s).heap
          = (Machine.updateMetrics host (Machine.loadData fetched
              { s with alerts := s.alerts ++ ["Running AI analysis... This may take a few minutes."] ++ ["Analysis completed successfully!"] })).1.heap := f2
      have ed : (Machine.runAnalysis host (.ok true) fetched s).data
          = (Machine.updateMetrics host (Machine.loadData fetched
              { s with alerts := s.alerts ++ ["Running AI analysis... This may take a few minutes."] ++ ["Analysis completed successfully!"] })).1.data := f3
      have ew : (Machine.runAnalysis host (.ok true) fetched s).wellFormed = true := by
        unfold Machine.wellFormed
        rw [eh, ed]
        exact q2
      rw [reloaded_runAnalysis, eh, ed]
      refine ⟨q1, ew, f1, ?_, ?_⟩
      · intro hnone
        cases hp : promiseAll fetched with
        | ok d => rw [hp] at hnone; cases hnone
        | error e => exact q5 e hp
      · intro new hnew
        cases hp : promiseAll fetched with
        | error e => rw [hp] at hnew; cases hnew
        | ok d =>
          rw [hp] at hnew
          cases hnew
          exact q6 _ hp

/-- What an operation that only renders leaves of the state. -/
theorem heap_rendered_operation {s s' : Machine} {dom' : Dom} (op : Operation) (a' : Admin)
    (hr : s.rendered s' dom') (hw : s.wellFormed = true)
    (hop : op.reloaded = none) (ha : a' = { s.toAdmin with dom := dom' }) :
    s.heap.keeps s'.heap
    ∧ (op.reloaded = none → s'.data = s.data)
    ∧ (∀ new, op.reloaded = some new →
        ∃ d', s'.data = some d' ∧ s'.heap.view d' = new
          ∧ ∀ a ∈ d'.arrays, s.heap.arrays.length ≤ a
              ∧ ∀ p ∈ s'.heap.array a, s.heap.products.length ≤ p)
    ∧ s'.wellFormed = true
    ∧ s'.toAdmin = a' := by
  obtain ⟨r1, r2, _⟩ := Machine.rendered_toAdmin hr hw
  refine ⟨hr.1, fun _ => hr.2.1, ?_, r2, by rw [ha]; exact r1⟩
  intro new hnew
  rw [hop] at hnew
  cases hnew

/-! ## Replacement of the data object -/

/-- C14 (counterexample): after the data object `dataObjectAB` has been
loaded, `runAnalysis` with an `ok` response and a successful reload assigns a
new object to `this.data`. -/
theorem runAnalysis_replaces_data :
    adminLoaded.data = some dataObjectAB
    ∧ (perform blankHost (.runAnalysis (.ok true) fetchedFifteen) adminLoaded).data
        = some { quantumData := catalogFifteen, analyticsData := dataAB.analyticsData,
                 healthData := healthOk }
    ∧ (perform blankHost (.runAnalysis (.ok true) fetchedFifteen) adminLoaded).data
        ≠ adminLoaded.data := by
  refine ⟨rfl, rfl, ?_⟩
  with_unfolding_all decide

/-- C14 (amended): `this.data` is only ever replaced wholesale, and no object
reachable from it is ever changed.  For every operation of the panel, run in a
state whose data object refers to existing objects: every product object and
every array that existed before the operation is unchanged after it, so the
documents reachable from the old `this.data` are what they were (the sort of
`loadTopProducts` sorts an array created by that call); `this.data` is as it
was unless the operation is a `runAnalysis` with an `ok` response whose three
fetches succeed, and then it is a new object of arrays and products created by
the reload, holding the three documents fetched; the references of `this.data`
stay valid; and the operation does to the documents what the value-passing
model `perform` does.  The load of `init` establishes such a state.  After the
load of `catalogFifteen`, `loadTopProducts` leaves the three product arrays
and the products as they are and adds a fourth array, sorted. -/
theorem data_objects_never_mutated (host : Host) (op : Operation) (s : Machine)
    (hw : s.wellFormed = true) :
    s.heap.keeps (Machine.perform host op s).heap
    ∧ (∀ d, s.data = some d → (Machine.perform host op s).heap.view d = s.heap.view d)
    ∧ (op.reloaded = none → (Machine.perform host op s).data = s.data)
    ∧ (∀ new, op.reloaded = some new →
        ∃ d', (Machine.perform host op s).data = some d'
          ∧ (Machine.perform host op s).heap.view d' = new
          ∧ ∀ a ∈ d'.arrays, s.heap.arrays.length ≤ a
              ∧ ∀ p ∈ (Machine.perform host op s).heap.array a, s.heap.products.length ≤ p)
    ∧ (Machine.perform host op s).wellFormed = true
    ∧ (Machine.perform host op s).toAdmin = perform host op s.toAdmin
    ∧ (∀ fetched dom, (Machine.init fetched dom).1.wellFormed = true
        ∧ (Machine.init fetched dom).1.toAdmin = (init fetched dom).1)
    ∧ machineLoaded.heap.arrays = [[0, 1, 2, 3, 4], [5, 6, 7, 8, 9], [10, 11, 12, 13, 14]]
    ∧ (Machine.perform blankHost .loadTopProducts machineLoaded).heap.arrays
        = [[0, 1, 2, 3, 4], [5, 6, 7, 8, 9], [10, 11, 12, 13, 14],
            [14, 8, 1, 5, 10, 13, 2, 4, 6, 0, 12, 11, 3, 7, 9]]
    ∧ (Machine.perform blankHost .loadTopProducts machineLoaded).heap.products
        = machineLoaded.heap.products := by
  have core : s.heap.keeps (Machine.perform host op s).heap
      ∧ (op.reloaded = none → (Machine.perform host op s).data = s.data)
      ∧ (∀ new, op.reloaded = some new →
          ∃ d', (Machine.perform host op s).data = some d'
            ∧ (Machine.perform host op s).heap.view d' = new
            ∧ ∀ a ∈ d'.arrays, s.heap.arrays.length ≤ a
                ∧ ∀ p ∈ (Machine.perform host op s).heap.array a, s.heap.products.length ≤ p)
      ∧ (Machine.perform host op s).wellFormed = true
      ∧ (Machine.perform host op s).toAdmin = perform host op s.toAdmin := by
    cases op with
    | updateMetrics =>
      refine heap_rendered_operation _ _ (heap_updateMetrics host s hw).1 hw rfl ?_
      rw [← Machine.panelData_toAdmin]
      rfl
    | loadTopProducts =>
      refine heap_rendered_operation _ _ (heap_loadTopProducts s hw) hw rfl ?_
      rw [← Machine.panelData_toAdmin]
      rfl
    | loadProductsTable =>
      refine heap_rendered_operation _ _ (heap_loadProductsTable s hw) hw rfl ?_
      rw [← Machine.panelData_toAdmin]
      rfl
    | showSection name =>
      refine heap_rendered_operation _ _ (heap_showSection name s hw).1 hw rfl ?_
      rw [← Machine.panelData_toAdmin]
      rfl
    | navClick i =>
      refine heap_rendered_operation _ _ (heap_navClick i s hw).1 hw rfl ?_
      rw [← Machine.panelData_toAdmin]
      rfl
    | runAnalysis post fetched =>
      obtain ⟨r1, r2, r3, r4, r5⟩ := heap_runAnalysis host post fetched s hw
      exact ⟨r1, r4, r5, r2, r3⟩
    | exportData =>
      refine ⟨Heap.keeps_refl _, fun _ => rfl, ?_, hw, rfl⟩
      intro new hnew
      cases hnew
  obtain ⟨c1, c2, c3, c4, c5⟩ := core
  refine ⟨c1, ?_, c2, c3, c4, c5, ?_, by decide!, by decide!, by decide!⟩
  · intro d hd
    unfold Machine.wellFormed at hw
    rw [hd] at hw
    exact Heap.view_keeps c1 d hw
  · intro fetched dom
    obtain ⟨_, l2, l3, _⟩ := heap_loadData fetched (Machine.initial dom) rfl
    exact ⟨l2, l3⟩

theorem data_objects_never_mutated_witness :
    machineLoaded.wellFormed = true
    ∧ machineLoaded.heap.keeps
        (Machine.perform blankHost (.runAnalysis (.ok true) fetchedFifteen) machineLoaded).heap
    ∧ (Machine.perform blankHost (.runAnalysis (.ok true) fetchedFifteen) machineLoaded).toAdmin
        = perform blankHost (.runAnalysis (.ok true) fetchedFifteen) machineLoaded.toAdmin
    ∧ (Machine.perform blankHost .loadTopProducts machineLoaded).data = machineLoaded.data :=
  ⟨by decide!,
    (data_objects_never_mutated blankHost (.runAnalysis (.ok true) fetchedFifteen) machineLoaded
      (by decide!)).1,
    (data_objects_never_mutated blankHost (.runAnalysis (.ok true) fetchedFifteen) machineLoaded
      (by decide!)).2.2.2.2.2.1,
    (data_objects_never_mutated blankHost .loadTopProducts machineLoaded (by decide!)).2.2.1 rfl⟩

end QuantumAdmin
